import Mathlib

/-!
Verification development for the `rm_bridge.changeset.change` module
(the ChangeSet reconciliation engine).  The Python source is shallowly
embedded: dictionaries become association structures (`AMap`), Python
lists become `AList`, `decl.UUIDReference` / `decl.Promise` become the
`Ref` type, exceptions become `Except PyErr`, and the aliasing of action
dictionaries between `TrackerChange.actions` and the deletion ledger
`_req_deletions` is modelled with an explicit heap of actions indexed by
natural-number tags.
-/

set_option maxHeartbeats 1000000

namespace RmBridge

/-- `decl.UUIDReference` / `decl.Promise` sentinels.  `uuidObj` models the
slip of passing a whole model object (rather than its uuid string) to
`decl.UUIDReference`, as `requirement_type_delete_actions` does with
`self.reqt_folder`; it is kept distinct from `uuid` because the resulting
Python objects compare unequal. -/
inductive Ref where
  | uuid (u : String)
  | uuidObj (u : String)
  | promise (label : String)
deriving DecidableEq, Repr

mutual
/-- A Python value as they occur in snapshots and produced actions:
strings, ints, bools, floats and datetimes (the latter two opaque, no
claim depends on their arithmetic), `None`, `decl` references, lists and
string-keyed dicts. -/
inductive AVal where
  | str (s : String)
  | int (n : Int)
  | bool (b : Bool)
  | float (s : String)
  | date (s : String)
  | null
  | ref (r : Ref)
  | list (xs : AList)
  | map (m : AMap)
deriving DecidableEq, Repr

/-- A Python list of `AVal`. -/
inductive AList where
  | nil
  | cons (v : AVal) (tl : AList)
deriving DecidableEq, Repr

/-- A Python dict with string keys, in insertion order. -/
inductive AMap where
  | nil
  | cons (k : String) (v : AVal) (tl : AMap)
deriving DecidableEq, Repr
end

namespace AList

def ofList : List AVal → AList
  | [] => .nil
  | x :: xs => .cons x (ofList xs)

def toList : AList → List AVal
  | .nil => []
  | .cons x tl => x :: toList tl

def append : AList → AList → AList
  | .nil, ys => ys
  | .cons x tl, ys => .cons x (append tl ys)

def isEmpty : AList → Bool
  | .nil => true
  | .cons _ _ => false

def contains (l : AList) (v : AVal) : Bool :=
  match l with
  | .nil => false
  | .cons x tl => x == v || contains tl v

/-- Python `list.remove(v)` semantics: removes the first element equal to
`v`; `none` models the uncaught `ValueError` when `v` is absent. -/
def removeFirst (l : AList) (v : AVal) : Option AList :=
  match l with
  | .nil => none
  | .cons x tl =>
    if x == v then some tl
    else match removeFirst tl v with
      | some tl2 => some (.cons x tl2)
      | none => none

def length : AList → Nat
  | .nil => 0
  | .cons _ tl => length tl + 1

end AList

namespace AMap

def ofList : List (String × AVal) → AMap
  | [] => .nil
  | (k, v) :: xs => .cons k v (ofList xs)

def toList : AMap → List (String × AVal)
  | .nil => []
  | .cons k v tl => (k, v) :: toList tl

def keys : AMap → List String
  | .nil => []
  | .cons k _ tl => k :: keys tl

def isEmpty : AMap → Bool
  | .nil => true
  | .cons _ _ _ => false

def lookup : AMap → String → Option AVal
  | .nil, _ => none
  | .cons k v tl, key => if k == key then some v else lookup tl key

/-- Python `d[k] = v`: replaces the value at the first occurrence of `k`
(keeping its position, as Python dicts do) or appends a new entry. -/
def set : AMap → String → AVal → AMap
  | .nil, key, v => .cons key v .nil
  | .cons k w tl, key, v =>
    if k == key then .cons k v tl else .cons k w (set tl key v)

/-- Python `del d[k]` (first occurrence). -/
def erase : AMap → String → AMap
  | .nil, _ => .nil
  | .cons k v tl, key => if k == key then tl else .cons k v (erase tl key)

def hasKey (m : AMap) (key : String) : Bool :=
  (m.lookup key).isSome

def length : AMap → Nat
  | .nil => 0
  | .cons _ _ tl => length tl + 1

end AMap

/-- Python truthiness of a value (used for `base.get(key, {})`-style
checks). -/
def truthy : AVal → Bool
  | .str s => !(s == "")
  | .int n => !(n == 0)
  | .bool b => b
  | .float _ => true
  | .date _ => true
  | .null => false
  | .ref _ => true
  | .list xs => !xs.isEmpty
  | .map m => !m.isEmpty

/-- `set(action) == {"parent"}`: the dict is non-empty and every key is
`"parent"`. -/
def keysOnlyParent (m : AMap) : Bool :=
  match m with
  | .nil => false
  | _ => (m.keys).all (fun k => k == "parent")

/-- Exceptions of the embedded code.  `invalidFieldValue` carries the
storage key, offending value and attribute name that the Python exception
message interpolates. -/
inductive PyErr where
  | invalidFieldValue (key : String) (value : AVal) (name : String)
  | keyError
  | valueError
  | typeError
  | assertionError
deriving DecidableEq, Repr

def toExcept {α : Type} (o : Option α) (e : PyErr) : Except PyErr α :=
  match o with
  | some a => .ok a
  | none => .error e

mutual
/-- `_deep_update`: update a nested dictionary in place.  A present
non-empty mapping value is merged recursively; any other value overrides.
`none` models the uncaught `AttributeError` raised when the existing value
under a key is not a mapping while the override value is a non-empty
mapping (the recursive call would invoke `.get` on a non-dict). -/
def deepUpdate (source : AMap) (overrides : AMap) : Option AMap :=
  match overrides with
  | .nil => some source
  | .cons k v rest =>
    match v with
    | .map m =>
      if m.isEmpty then deepUpdate (source.set k v) rest
      else
        match source.lookup k with
        | none =>
          match deepUpdate .nil m with
          | some u => deepUpdate (source.set k (.map u)) rest
          | none => none
        | some (.map sm) =>
          match deepUpdate sm m with
          | some u => deepUpdate (source.set k (.map u)) rest
          | none => none
        | some _ => none
    | _ => deepUpdate (source.set k v) rest
end

/-- `_add_action_safely`: try `base[k1][k2].append(action)`, falling back
to a deep update when a key is missing.  `none` models the uncaught
`TypeError`/`AttributeError` when `base[k1]` is not a dict or
`base[k1][k2]` is not a list. -/
def addActionSafely (base : AMap) (k1 k2 : String) (action : AVal) :
    Option AMap :=
  match base.lookup k1 with
  | some (.map inner) =>
    match inner.lookup k2 with
    | some (.list xs) =>
      some (base.set k1 (.map (inner.set k2 (.list (xs.append (.cons action .nil))))))
    | some _ => none
    | none => deepUpdate base (.cons k1 (.map (.cons k2 (.list (.cons action .nil)) .nil)) .nil)
  | some _ => none
  | none => deepUpdate base (.cons k1 (.map (.cons k2 (.list (.cons action .nil)) .nil)) .nil)

mutual
/-- `_blacklisted`: identify if a key value pair is unsupported.  `None`
is never blacklisted; a string is checked against the
`("Type", "Folder")` blacklist pair; any other non-iterable is not in the
blacklist; an iterable is blacklisted iff all members are (vacuously true
for the empty list); iterating a dict yields its keys. -/
def blacklisted (name : String) (value : AVal) : Bool :=
  match value with
  | .null => false
  | .str s => name == "Type" && s == "Folder"
  | .list xs => blacklistedList name xs
  | .map m => blacklistedMap name m
  | _ => false

def blacklistedList (name : String) : AList → Bool
  | .nil => true
  | .cons v tl => blacklisted name v && blacklistedList name tl

def blacklistedMap (name : String) : AMap → Bool
  | .nil => true
  | .cons k _ tl =>
    (name == "Type" && k == "Folder") && blacklistedMap name tl
end

/-! ## Snapshot data (external input, `tracker` mapping) -/

mutual
/-- A snapshot work item.  `hasChildren` records whether the `"children"`
key is present in the item dict at all (the code distinguishes key
presence, `"children" in item`, from truthiness, `item.get("children")`);
`children` is its value, `[]` standing in for an absent key. -/
inductive SnapItem where
  | mk (id : String) (longName : String) (text : Option String)
      (typ : Option String) (attributes : List (String × AVal))
      (hasChildren : Bool) (children : SnapForest)

/-- A list of snapshot work items. -/
inductive SnapForest where
  | fnil
  | fcons (item : SnapItem) (rest : SnapForest)
end

def SnapForest.isEmpty : SnapForest → Bool
  | .fnil => true
  | .fcons _ _ => false

def SnapItem.id : SnapItem → String
  | .mk i _ _ _ _ _ _ => i

def SnapItem.longName : SnapItem → String
  | .mk _ l _ _ _ _ _ => l

def SnapItem.text : SnapItem → Option String
  | .mk _ _ t _ _ _ _ => t

def SnapItem.typ : SnapItem → Option String
  | .mk _ _ _ ty _ _ _ => ty

def SnapItem.attributes : SnapItem → List (String × AVal)
  | .mk _ _ _ _ a _ _ => a

def SnapItem.hasChildren : SnapItem → Bool
  | .mk _ _ _ _ _ h _ => h

def SnapItem.children : SnapItem → SnapForest
  | .mk _ _ _ _ _ _ c => c

/-- An attribute definition spec of the snapshot: a kind tag (`"type"`)
and the optional `"multi_values"` entry (Enum only). -/
structure SnapAttrDef where
  typ : String
  multiValues : Option AVal
deriving DecidableEq, Repr

/-- A requirement type of the snapshot: long name plus attribute
definition specs. -/
structure SnapReqType where
  longName : String
  attributes : List (String × SnapAttrDef)
deriving DecidableEq, Repr

/-- The tracker snapshot: data type definitions (`"data_types"`),
requirement types (`"requirement_types"`) and the top-level `"items"`. -/
structure Snapshot where
  dataTypeDefinitions : List (String × List String)
  requirementTypes : List (String × SnapReqType)
  items : SnapForest

/-! ## Live graph data (the read-only `capellambse` model view) -/

/-- A live `AttributeValue` owned by a requirement or folder. -/
structure LiveAttr where
  uuid : String
  defUuid : String
  defLongName : String
  isEnum : Bool
  valuesLongNames : List String
  value : AVal
deriving DecidableEq, Repr

/-- A live `Requirement` or `RequirementsFolder`.  `parentUuid` is the
uuid of the owning folder or of the module itself. -/
structure LiveItem where
  uuid : String
  identifier : String
  longName : String
  text : Option String
  typeIdent : String
  isFolder : Bool
  parentUuid : String
  attributes : List LiveAttr
deriving DecidableEq, Repr

/-- A live `EnumValue` of an `EnumerationDataTypeDefinition`. -/
structure LiveEnumValue where
  uuid : String
  longName : String
deriving DecidableEq, Repr

/-- A live `EnumerationDataTypeDefinition`. -/
structure LiveDataTypeDef where
  uuid : String
  longName : String
  values : List LiveEnumValue
deriving DecidableEq, Repr

/-- A live `AttributeDefinition` or `AttributeDefinitionEnumeration`. -/
structure LiveAttrDef where
  uuid : String
  identifier : String
  longName : String
  isEnum : Bool
  dataTypeLongName : Option String
  multiValued : Bool
deriving DecidableEq, Repr

/-- A live `RequirementType`. -/
structure LiveReqType where
  uuid : String
  identifier : String
  longName : String
  attrDefs : List LiveAttrDef
deriving DecidableEq, Repr

/-- The live `RequirementsTypesFolder`. -/
structure LiveTypeFolder where
  uuid : String
  dataTypeDefs : List LiveDataTypeDef
  reqTypes : List LiveReqType
deriving DecidableEq, Repr

/-- The live `RequirementsModule` with all of its work items flattened
into one list (`parentUuid` recovers the tree). -/
structure LiveModule where
  uuid : String
  reqtFolder : Option LiveTypeFolder
  items : List LiveItem

/-! ## Reference finder (`rm_bridge.changeset.find.ReqFinder`)

The `find` module is part of the repository but not shipped with the
sources, so the lookups are modelled from the spec. -/

/-- Modelled from the spec: the missing `find.ReqFinder` exposes a
module-wide lookup-by-external-identifier for work items. -/
def workItemByIdentifier (g : LiveModule) (id : String) : Option LiveItem :=
  g.items.find? (fun it => it.identifier == id)

/-- Modelled from the spec: the missing `find.ReqFinder` resolves a
`RequirementType` by its external identifier below the types folder. -/
def reqtypeByIdentifier (g : LiveModule) (id : String) : Option LiveReqType :=
  match g.reqtFolder with
  | none => none
  | some tf => tf.reqTypes.find? (fun rt => rt.identifier == id)

/-- Modelled from the spec: the missing `find.ReqFinder` resolves an
`EnumerationDataTypeDefinition` by long name below the types folder. -/
def enumDataTypeDefinitionByLongName (g : LiveModule) (name : String) :
    Option LiveDataTypeDef :=
  match g.reqtFolder with
  | none => none
  | some tf => tf.dataTypeDefs.find? (fun d => d.longName == name)

/-- Modelled from the spec: the missing `find.ReqFinder` resolves an
`EnumValue` by long name below the module (enum values live inside the
module's data type definitions).  The long name argument is a raw
snapshot value; a non-string never compares equal to a long name. -/
def enumValueByLongName (g : LiveModule) (name : AVal) : Option LiveEnumValue :=
  match name with
  | .str s =>
    match g.reqtFolder with
    | none => none
    | some tf =>
      (tf.dataTypeDefs.flatMap (fun d => d.values)).find?
        (fun ev => ev.longName == s)
  | _ => none

/-- Modelled from the spec: the missing `find.ReqFinder` resolves an
`AttributeDefinition`/`AttributeDefinitionEnumeration` by identifier
below the types folder, the class being selected by `deftype`. -/
def attributeDefinitionByIdentifier (g : LiveModule) (deftype id : String) :
    Option LiveAttrDef :=
  match g.reqtFolder with
  | none => none
  | some tf =>
    (tf.reqTypes.flatMap (fun rt => rt.attrDefs)).find?
      (fun ad =>
        ad.identifier == id &&
        ad.isEnum == (deftype == "AttributeDefinitionEnumeration"))

/-- Modelled from the spec: the same lookup restricted to one live
`RequirementType` (the `below=req.type` call site). -/
def attributeDefinitionByIdentifierBelow (rt : LiveReqType)
    (deftype id : String) : Option LiveAttrDef :=
  rt.attrDefs.find?
    (fun ad =>
      ad.identifier == id &&
      ad.isEnum == (deftype == "AttributeDefinitionEnumeration"))

def lookupEntry {α : Type} : List (String × α) → String → Option α
  | [], _ => none
  | (k, v) :: tl, key => if k == key then some v else lookupEntry tl key

/-! ## Value validator -/

/-- `AttributeValueBuilder`. -/
structure AttributeValueBuilder where
  deftype : String
  key : String
  value : AVal
deriving DecidableEq, Repr

/-- `isinstance(value, _ATTR_VALUE_DEFAULT_MAP[deftype])`; `none` is the
`KeyError` for an unknown kind tag.  In Python `bool` is a subclass of
`int`, so a boolean also matches the `Integer` kind. -/
def matchesKind (deftype : String) (v : AVal) : Option Bool :=
  match deftype with
  | "String" => some (match v with | .str _ => true | _ => false)
  | "Enum" => some (match v with | .list _ => true | _ => false)
  | "Date" => some (match v with | .date _ => true | _ => false)
  | "Integer" =>
    some (match v with | .int _ => true | .bool _ => true | _ => false)
  | "Float" => some (match v with | .float _ => true | _ => false)
  | "Boolean" => some (match v with | .bool _ => true | _ => false)
  | _ => none

/-- A value can be a member of a Python `set` only if hashable; lists and
dicts are not. -/
def hashable : AVal → Bool
  | .list _ => false
  | .map _ => false
  | _ => true

def alistAll (p : AVal → Bool) : AList → Bool
  | .nil => true
  | .cons v tl => p v && alistAll p tl

def alistAny (p : AVal → Bool) : AList → Bool
  | .nil => false
  | .cons v tl => p v || alistAny p tl

/-- `set(value) & set(options)` is non-empty: at least one listed element
equals one of the declared option literals. -/
def enumOverlap (options : List String) (xs : AList) : Bool :=
  alistAny (fun x => options.any (fun o => x == AVal.str o)) xs

/-- `TrackerChange.check_attribute_value_is_valid`. -/
def checkAttributeValueIsValid (snap : Snapshot) (name : String)
    (value : AVal) (reqTypeId : String) :
    Except PyErr AttributeValueBuilder :=
  match lookupEntry snap.requirementTypes reqTypeId with
  | none => .error .keyError
  | some rt =>
    match lookupEntry rt.attributes name with
    | none => .error .keyError
    | some adef =>
      match matchesKind adef.typ value with
      | none => .error .keyError
      | some matchesType =>
        if adef.typ == "Enum" then
          match lookupEntry snap.dataTypeDefinitions name with
          | none => .error .keyError
          | some options =>
            match
              (if !matchesType then Except.ok true
               else
                 match value with
                 | .list xs =>
                   if !alistAll hashable xs then Except.error PyErr.typeError
                   else Except.ok (!enumOverlap options xs)
                 | _ => Except.ok true : Except PyErr Bool) with
            | .error e => .error e
            | .ok isFaulty =>
              if isFaulty then .error (.invalidFieldValue "values" value name)
              else .ok ⟨adef.typ, "values", value⟩
        else
          if !matchesType then .error (.invalidFieldValue "value" value name)
          else .ok ⟨adef.typ, "value", value⟩

/-- Python `str(...)` as used by f-string interpolation of raw snapshot
values (only the string case is exercised by well-formed snapshots). -/
def pyStr : AVal → String
  | .str s => s
  | .int n => toString n
  | .bool b => if b then "True" else "False"
  | .float s => s
  | .date s => s
  | .null => "None"
  | .ref _ => "<ref>"
  | .list _ => "<obj>"
  | .map _ => "<obj>"

/-! ## Creation action constructors -/

/-- `TrackerChange.data_type_create_action`. -/
def dataTypeCreateAction (name : String) (values : List String) : AMap :=
  let enumValues := values.map (fun v =>
    AVal.map (AMap.ofList
      [("long_name", .str v),
       ("promise_id", .str ("EnumValue " ++ name ++ " " ++ v))]))
  AMap.ofList
    [("long_name", .str name),
     ("values", .list (AList.ofList enumValues)),
     ("promise_id", .str ("EnumerationDataTypeDefinition " ++ name)),
     ("_type", .str "EnumerationDataTypeDefinition")]

/-- `TrackerChange.yield_data_type_definition_create_actions`. -/
def yieldDataTypeDefinitionCreateActions (snap : Snapshot) : List AVal :=
  snap.dataTypeDefinitions.map (fun nv => .map (dataTypeCreateAction nv.1 nv.2))

/-- The `reqif` class used for an attribute definition of the given
snapshot kind tag. -/
def attrDefClass (typ : String) : String :=
  if typ == "Enum" then "AttributeDefinitionEnumeration"
  else "AttributeDefinition"

/-- `TrackerChange.attribute_definition_create_action`. -/
def attributeDefinitionCreateAction (g : LiveModule) (name : String)
    (item : SnapAttrDef) (reqTypeId : String) : AMap :=
  let identifier := name ++ " " ++ reqTypeId
  let base := AMap.ofList
    [("long_name", .str name), ("identifier", .str identifier)]
  let cls := attrDefClass item.typ
  let base :=
    if item.typ == "Enum" then
      let dataTypeRef :=
        match enumDataTypeDefinitionByLongName g name with
        | none => AVal.ref (.promise ("EnumerationDataTypeDefinition " ++ name))
        | some etdef => AVal.ref (.uuid etdef.uuid)
      (base.set "data_type" dataTypeRef).set "multi_valued"
        (.bool (item.multiValues ≠ none))
    else base
  (base.set "_type" (.str cls)).set "promise_id"
    (.str (cls ++ " " ++ identifier))

/-- `TrackerChange.requirement_type_create_action`. -/
def requirementTypeCreateAction (g : LiveModule) (identifier : String)
    (reqType : SnapReqType) : AMap :=
  AMap.ofList
    [("identifier", .str identifier),
     ("long_name", .str reqType.longName),
     ("promise_id", .str ("RequirementType " ++ identifier)),
     ("attribute_definitions",
      .list (AList.ofList (reqType.attributes.map (fun na =>
        .map (attributeDefinitionCreateAction g na.1 na.2 identifier)))))]

/-- `TrackerChange.yield_requirement_type_create_actions`. -/
def yieldRequirementTypeCreateActions (g : LiveModule) (snap : Snapshot) :
    List AVal :=
  snap.requirementTypes.map (fun ir =>
    .map (requirementTypeCreateAction g ir.1 ir.2))

/-- `TrackerChange.requirement_types_folder_create_action`. -/
def requirementTypesFolderCreateAction (g : LiveModule) (snap : Snapshot) :
    AMap :=
  let reqtFolder := AMap.ofList
    [("long_name", .str "Types"),
     ("identifier", .str "-2"),
     ("data_type_definitions",
      .list (AList.ofList (yieldDataTypeDefinitionCreateActions snap))),
     ("requirement_types",
      .list (AList.ofList (yieldRequirementTypeCreateActions g snap)))]
  AMap.ofList
    [("parent", .ref (.uuid g.uuid)),
     ("extend", .map (AMap.ofList
       [("requirement_types_folders",
         .list (.cons (.map reqtFolder) .nil))]))]

/-- The reference an `EnumValue` lookup resolves to: concrete if found,
otherwise the `"EnumValue {name} {enum_name}"` promise. -/
def enumValueRef (g : LiveModule) (name : String) (enumName : AVal) : AVal :=
  match enumValueByLongName g enumName with
  | none => .ref (.promise ("EnumValue " ++ name ++ " " ++ pyStr enumName))
  | some ev => .ref (.uuid ev.uuid)

/-- `TrackerChange.attribute_value_create_action`. -/
def attributeValueCreateAction (g : LiveModule) (snap : Snapshot)
    (name : String) (value : AVal) (reqTypeId : String) :
    Except PyErr AMap :=
  match checkAttributeValueIsValid snap name value reqTypeId with
  | .error e => .error e
  | .ok builder =>
    let enumPart : Except PyErr (String × List AVal) :=
      if builder.deftype == "Enum" then
        match builder.value with
        | .list xs =>
          .ok ("AttributeDefinitionEnumeration",
            (xs.toList).map (enumValueRef g name))
        | _ => .error .assertionError
      else .ok ("AttributeDefinition", [])
    match enumPart with
    | .error e => .error e
    | .ok (deftype, values) =>
      let attrDefId := name ++ " " ++ reqTypeId
      let definitionRef :=
        match attributeDefinitionByIdentifier g deftype attrDefId with
        | none => AVal.ref (.promise (deftype ++ " " ++ attrDefId))
        | some d => AVal.ref (.uuid d.uuid)
      .ok (AMap.ofList
        [("_type", .str builder.deftype.toLower),
         ("definition", definitionRef),
         (builder.key,
          if values.isEmpty then builder.value
          else .list (AList.ofList values))])

/-! ## Type-system reconciliation (mod side) -/

def dedupFirstAux (seen : List String) : List String → List String
  | [] => []
  | x :: xs =>
    if seen.contains x then dedupFirstAux seen xs
    else x :: dedupFirstAux (x :: seen) xs

def dedupFirst (xs : List String) : List String :=
  dedupFirstAux [] xs

/-- `TrackerChange.data_type_mod_action`.  The snapshot-only literal set
(`set(values) - set(live)`) is iterated in first-occurrence order; Python
iterates it in hash order, which no claim depends on. -/
def dataTypeModAction (tf : LiveTypeFolder) (name : String)
    (values : List String) : Option AMap :=
  match tf.dataTypeDefs.find? (fun d => d.longName == name) with
  | none => some (dataTypeCreateAction name values)
  | some dtdef =>
    let base : AMap := .cons "parent" (.ref (.uuid dtdef.uuid)) .nil
    let mods : AMap :=
      if dtdef.longName ≠ name then .cons "long_name" (.str name) .nil
      else .nil
    let liveNames := dtdef.values.map (fun ev => ev.longName)
    let creations := dedupFirst (values.filter (fun v => !liveNames.contains v))
    let action := dataTypeCreateAction dtdef.longName creations
    let evs := dtdef.values.filter (fun ev => !values.contains ev.longName)
    let base :=
      if !creations.isEmpty then
        base.set "extend" (.map (.cons "values"
          ((action.lookup "values").getD .null) .nil))
      else base
    let base := if !mods.isEmpty then base.set "modify" (.map mods) else base
    let base :=
      if !evs.isEmpty then
        base.set "delete" (.map (.cons "values"
          (.list (AList.ofList (evs.map (fun ev => .ref (.uuid ev.uuid)))))
          .nil))
      else base
    if keysOnlyParent base then none else some base

/-- `TrackerChange.yield_data_type_definition_mod_actions`. -/
def yieldDataTypeDefinitionModActions (tf : LiveTypeFolder) (snap : Snapshot) :
    List AMap :=
  let dels := tf.dataTypeDefs.filter (fun d =>
    !(snap.dataTypeDefinitions.map (fun nv => nv.1)).contains d.longName)
  let actions := snap.dataTypeDefinitions.filterMap (fun nv =>
    dataTypeModAction tf nv.1 nv.2)
  let creations := actions.filter (fun a => !a.hasKey "parent")
  let modifications := actions.filter (fun a => a.hasKey "parent")
  let base : AMap := .cons "parent" (.ref (.uuid tf.uuid)) .nil
  let base :=
    if !creations.isEmpty then
      base.set "extend" (.map (.cons "data_type_definitions"
        (.list (AList.ofList (creations.map AVal.map))) .nil))
    else base
  let base :=
    if !dels.isEmpty then
      base.set "delete" (.map (.cons "data_type_definitions"
        (.list (AList.ofList (dels.map (fun d => .ref (.uuid d.uuid))))) .nil))
    else base
  (if truthy ((base.lookup "extend").getD (.map .nil)) ||
      truthy ((base.lookup "delete").getD (.map .nil)) then [base] else [])
    ++ modifications

/-- `TrackerChange.attribute_definition_mod_action`.  The equality on the
`multi_values` entry follows the source's chained comparison
`attrdef.multi_valued != data.get("multi_values") is not None`, which is
`(attrdef.multi_valued != mv) and (mv is not None)`. -/
def attributeDefinitionModAction (g : LiveModule) (reqtype : LiveReqType)
    (name : String) (data : SnapAttrDef) : Option AMap :=
  match reqtype.attrDefs.find? (fun ad => ad.longName == name) with
  | none => some (attributeDefinitionCreateAction g name data reqtype.identifier)
  | some attrdef =>
    let mods : AMap :=
      if attrdef.longName ≠ name then .cons "long_name" (.str name) .nil
      else .nil
    let mods :=
      if data.typ == "Enum" then
        let mods :=
          if attrdef.dataTypeLongName ≠ some name then
            mods.set "data_type" (.str name)
          else mods
        let mvVal := match data.multiValues with
          | some v => v
          | none => AVal.null
        if (AVal.bool attrdef.multiValued ≠ mvVal) && data.multiValues ≠ none
        then mods.set "multi_valued" mvVal
        else mods
      else mods
    if mods.isEmpty then none
    else some (AMap.ofList
      [("parent", .ref (.uuid attrdef.uuid)), ("modify", .map mods)])

/-- `TrackerChange.requirement_type_mod_action`. -/
def requirementTypeModAction (g : LiveModule)
    (tf : LiveTypeFolder) (identifier : String) (item : SnapReqType) :
    List AMap :=
  match tf.reqTypes.find? (fun rt => rt.identifier == identifier) with
  | none => [requirementTypeCreateAction g identifier item]
  | some reqtype =>
    let mods : AMap :=
      if reqtype.longName ≠ item.longName then
        .cons "long_name" (.str item.longName) .nil
      else .nil
    let attrDefDels := reqtype.attrDefs.filter (fun ad =>
      !(item.attributes.map (fun na => na.1)).contains ad.longName)
    let actions := item.attributes.filterMap (fun na =>
      attributeDefinitionModAction g reqtype na.1 na.2)
    let creations := actions.filter (fun a => !a.hasKey "parent")
    let modifications := actions.filter (fun a => a.hasKey "parent")
    let base : AMap := .cons "parent" (.ref (.uuid reqtype.uuid)) .nil
    let base := if !mods.isEmpty then base.set "modify" (.map mods) else base
    let base :=
      if !creations.isEmpty then
        base.set "extend" (.map (.cons "attribute_definitions"
          (.list (AList.ofList (creations.map AVal.map))) .nil))
      else base
    let base :=
      if !attrDefDels.isEmpty then
        base.set "delete" (.map (.cons "attribute_definitions"
          (.list (AList.ofList (attrDefDels.map (fun ad =>
            .ref (.uuid ad.uuid))))) .nil))
      else base
    (if !(keysOnlyParent base) then [base] else []) ++ modifications

/-- `TrackerChange.yield_requirement_type_mod_actions`. -/
def yieldRequirementTypeModActions (g : LiveModule) (snap : Snapshot)
    (tf : LiveTypeFolder) : List AMap :=
  snap.requirementTypes.flatMap (fun ir =>
    requirementTypeModAction g tf ir.1 ir.2)

/-- `TrackerChange.requirement_type_delete_actions`.  Note two
peculiarities of the source: the parent reference wraps the types folder
object itself (not its uuid), and the `delete` value is the flat list of
references, not a slot-name mapping. -/
def requirementTypeDeleteActions (snap : Snapshot) (tf : LiveTypeFolder) :
    AMap :=
  let parentRef := AVal.ref (.uuidObj tf.uuid)
  let dels := tf.reqTypes.filter (fun rt =>
    !(snap.requirementTypes.map (fun ir => ir.1)).contains rt.identifier)
  if dels.isEmpty then .cons "parent" parentRef .nil
  else
    AMap.ofList
      [("parent", parentRef),
       ("delete", .list (AList.ofList (dels.map (fun rt =>
         .ref (.uuid rt.uuid)))))]

/-! ## Engine-local mutable state

Python action dicts are aliased between `TrackerChange.actions` and the
deletion ledger `_req_deletions` and mutated through either alias, so
emitted actions live in an explicit heap of dicts addressed by
natural-number tags; `_invalidate_deletion` updates the heap in place and
the final action list resolves tags to their current contents. -/

structure St where
  heap : List AMap
  ledger : List (String × Nat)
  locChanged : List String
deriving Repr

def St.resolve (st : St) (t : Nat) : AMap :=
  st.heap.getD t .nil

def St.alloc (st : St) (a : AMap) : Nat × St :=
  (st.heap.length, { st with heap := st.heap ++ [a] })

def St.setHeap (st : St) (t : Nat) (a : AMap) : St :=
  { st with heap := st.heap.set t a }

/-- `_location_changed.add` (set semantics; only membership is ever
observed). -/
def St.addLoc (st : St) (id : String) : St :=
  if st.locChanged.contains id then st
  else { st with locChanged := st.locChanged ++ [id] }

/-- Dict assignment on `_req_deletions`: overwrite in place or append. -/
def ledgerSet : List (String × Nat) → String → Nat → List (String × Nat)
  | [], u, t => [(u, t)]
  | (k, v) :: tl, u, t =>
    if k == u then (k, t) :: tl else (k, v) :: ledgerSet tl u t

def ledgerLookup : List (String × Nat) → String → Option Nat
  | [], _ => none
  | (k, v) :: tl, u => if k == u then some v else ledgerLookup tl u

/-- `TrackerChange._invalidate_deletion`: try to remove `requirement`
from its recorded deletion action; `KeyError`s are swallowed, the
`ValueError` of `list.remove` is not. -/
def invalidateDeletion (st : St) (uuid : String) (isFolder : Bool) :
    Except PyErr St :=
  let key := if isFolder then "folders" else "requirements"
  let rf := AVal.ref (.uuid uuid)
  match ledgerLookup st.ledger uuid with
  | none => .ok st
  | some t =>
    let action := st.resolve t
    match action.lookup "delete" with
    | none => .ok st
    | some (.map dels) =>
      match dels.lookup key with
      | none => .ok st
      | some (.list refs) =>
        match refs.removeFirst rf with
        | none => .error .valueError
        | some refs2 =>
          let dels2 :=
            if refs2.isEmpty then dels.erase key
            else dels.set key (.list refs2)
          let action2 :=
            if dels2.isEmpty then action.erase "delete"
            else action.set "delete" (.map dels2)
          .ok (st.setHeap t action2)
      | some _ => .error .typeError
    | some _ => .error .typeError

/-- The live `folders`/`requirements` ownership lists of a container,
recovered from the single owning parent reference of each item (spec:
parent is a single owning reference, folders own ordered child
folders/requirements). -/
def liveChildren (g : LiveModule) (parentUuid : String) (key : String) :
    List LiveItem :=
  g.items.filter (fun c =>
    c.parentUuid == parentUuid && (c.isFolder == (key == "folders")))

/-- `make_requirement_delete_actions`. -/
def makeRequirementDeleteActions (g : LiveModule) (req : LiveItem)
    (childIds : List String) (key : String) : List AVal :=
  (liveChildren g req.uuid key).filterMap (fun c =>
    if childIds.contains c.identifier then none
    else some (AVal.ref (.uuid c.uuid)))

/-- `TrackerChange.req_delete_actions`. -/
def reqDeleteActions (g : LiveModule) (visited : List String)
    (attrName : String) : AMap :=
  let parentRef := AVal.ref (.uuid g.uuid)
  let dels := (liveChildren g g.uuid attrName).filterMap (fun r =>
    if visited.contains r.identifier then none
    else some (AVal.ref (.uuid r.uuid)))
  if dels.isEmpty then .cons "parent" parentRef .nil
  else
    AMap.ofList
      [("parent", parentRef),
       ("delete", .map (.cons attrName (.list (AList.ofList dels)) .nil))]

/-- `_compare_simple_attributes` applied to a work item with filter
`("id", "type", "attributes", "children")`: only `long_name` and the
optional `text` of the snapshot item remain to compare. -/
def compareSimpleItem (req : LiveItem) (ln : String) (tx : Option String) :
    AMap :=
  let m : AMap :=
    if req.longName ≠ ln then .cons "long_name" (.str ln) .nil else .nil
  match tx with
  | some t =>
    let liveText := match req.text with
      | some s => AVal.str s
      | none => AVal.null
    if liveText ≠ .str t then m.set "text" (.str t) else m
  | none => m

/-- Truthiness of the optional snapshot `type` entry (`None` and the
empty string are falsy). -/
def optTruthy : Option String → Bool
  | none => false
  | some s => !(s == "")

/-- The yield guard of `yield_requirements_mod_actions`:
`base.get("extend", {}) or base.get("modify", {}) or
base.get("delete", {})`. -/
def modGate (base : AMap) : Bool :=
  truthy ((base.lookup "extend").getD (.map .nil)) ||
  truthy ((base.lookup "modify").getD (.map .nil)) ||
  truthy ((base.lookup "delete").getD (.map .nil))

def refUuid : AVal → String
  | .ref (.uuid u) => u
  | _ => ""

def sameStringSet (names : List String) (xs : AList) : Bool :=
  names.all (fun s => xs.contains (.str s)) &&
  alistAll (fun x => names.any (fun s => AVal.str s == x)) xs

/-- `TrackerChange.attribute_value_mod_action`.  The `try` block catches
only `KeyError` (falling back to a create action);
`InvalidFieldValue` and the other crashes propagate. -/
def attributeValueModAction (g : LiveModule) (snap : Snapshot)
    (req : LiveItem) (name : String) (value : AVal) :
    Except PyErr (Option (Sum AMap (String × AVal))) :=
  let reqTypeId := req.typeIdent
  let tryBody : Except PyErr (Option (Sum AMap (String × AVal))) :=
    match checkAttributeValueIsValid snap name value reqTypeId with
    | .error e => .error e
    | .ok builder =>
      let attrdef? :=
        match reqtypeByIdentifier g reqTypeId with
        | none => none
        | some rt =>
          attributeDefinitionByIdentifierBelow rt builder.deftype
            (name ++ " " ++ req.typeIdent)
      match attrdef? with
      | none => .error .keyError
      | some attrdef =>
        match req.attributes.find? (fun a => a.defUuid == attrdef.uuid) with
        | none => .error .keyError
        | some attr =>
          if attr.isEnum then
            match value with
            | .list xs =>
              if !alistAll hashable xs then .error .typeError
              else if !(sameStringSet attr.valuesLongNames xs) then
                .ok (some (.inr (name, value)))
              else .ok none
            | _ => .error .assertionError
          else
            if attr.value ≠ value then .ok (some (.inr (name, value)))
            else .ok none
  match tryBody with
  | .error .keyError =>
    match attributeValueCreateAction g snap name value reqTypeId with
    | .error e => .error e
    | .ok payload => .ok (some (.inl payload))
  | other => other

/-- The attribute loop of `yield_requirements_mod_actions` (lines
685-696): values that are not `None` and are blacklisted are skipped;
dict payloads are collected as creations and `(name, value)` pairs as
modifications. -/
def yrmaAttrLoop (g : LiveModule) (snap : Snapshot) (req : LiveItem)
    (acc : List AVal × AMap) :
    List (String × AVal) → Except PyErr (List AVal × AMap)
  | [] => .ok acc
  | (name, value) :: rest =>
    if value ≠ .null && blacklisted name value then
      yrmaAttrLoop g snap req acc rest
    else
      match attributeValueModAction g snap req name value with
      | .error e => .error e
      | .ok none => yrmaAttrLoop g snap req acc rest
      | .ok (some (.inl payload)) =>
        yrmaAttrLoop g snap req (acc.1 ++ [.map payload], acc.2) rest
      | .ok (some (.inr (n, v))) =>
        yrmaAttrLoop g snap req (acc.1, acc.2.set n v) rest

/-- The attribute loop of `requirements_create_actions` (lines 345-368):
blacklisted pairs are skipped (possibly setting the folder hint), an item
with attributes but no truthy type breaks out of the loop, an unknown
requirement type raises `KeyError`, and attributes declared on the type
produce creation payloads. -/
def rcaAttrLoop (g : LiveModule) (snap : Snapshot) (reqTypeId : Option String)
    (acc : List AVal × Bool) :
    List (String × AVal) → Except PyErr (List AVal × Bool)
  | [] => .ok acc
  | (name, value) :: rest =>
    if blacklisted name value then
      let hint := acc.2 || (name == "Type" && value == .str "Folder")
      rcaAttrLoop g snap reqTypeId (acc.1, hint) rest
    else
      if !(optTruthy reqTypeId) then .ok acc
      else
        let rtid := reqTypeId.getD ""
        match lookupEntry snap.requirementTypes rtid with
        | none => .error .keyError
        | some rt =>
          if (rt.attributes.map (fun na => na.1)).contains name then
            match attributeValueCreateAction g snap name value rtid with
            | .error e => .error e
            | .ok payload =>
              rcaAttrLoop g snap reqTypeId (acc.1 ++ [.map payload], acc.2) rest
          else rcaAttrLoop g snap reqTypeId acc rest

/-! ## The work-item tree reconciler -/

/-- The base payload of `requirements_create_actions` before the
children section (lines 370-387). -/
def rcaBase (g : LiveModule) (id ln : String) (tx ty : Option String)
    (attributes : List AVal) : AMap :=
  let base := AMap.ofList
    [("long_name", .str ln), ("identifier", .str id)]
  let base :=
    match tx with
    | some t => if !(t == "") then base.set "text" (.str t) else base
    | none => base
  let base :=
    if !attributes.isEmpty then
      base.set "attributes" (.list (AList.ofList attributes))
    else base
  if optTruthy ty then
    base.set "type"
      (match reqtypeByIdentifier g (ty.getD "") with
       | none => .ref (.promise ("RequirementType " ++ ty.getD ""))
       | some rt => .ref (.uuid rt.uuid))
  else base

/-- The base action of `yield_requirements_mod_actions` before the
children section (lines 697-727). -/
def yrmaBase (req : LiveItem) (ln : String) (tx ty : Option String)
    (attrs : List (String × AVal)) (creations : List AVal)
    (modifications : AMap) : AMap :=
  let deletions := req.attributes.filterMap (fun a =>
    if (attrs.map (fun nv => nv.1)).contains a.defLongName then none
    else some (AVal.ref (.uuid a.uuid)))
  let base : AMap := .cons "parent" (.ref (.uuid req.uuid)) .nil
  let mods := compareSimpleItem req ln tx
  let typAV := match ty with
    | some s => AVal.str s
    | none => AVal.null
  let mods :=
    if typAV ≠ AVal.str req.typeIdent then mods.set "type" typAV else mods
  let base := if !mods.isEmpty then base.set "modify" (.map mods) else base
  let base :=
    if !modifications.isEmpty then
      match base.lookup "modify" with
      | some (.map m) =>
        base.set "modify" (.map (m.set "attributes" (.map modifications)))
      | _ => base
    else base
  let base :=
    if !creations.isEmpty then
      base.set "extend"
        (.map (.cons "attributes" (.list (AList.ofList creations)) .nil))
    else base
  if !deletions.isEmpty then
    base.set "delete"
      (.map (.cons "attributes" (.list (AList.ofList deletions)) .nil))
  else base

/-- The folder epilogue of `yield_requirements_mod_actions` (lines
766-797): merge child creations and child deletions into the base, place
it on the heap, record its deletion references in the ledger and apply
the yield guard. -/
def yrmaFolderFinish (g : LiveModule) (req : LiveItem) (base : AMap)
    (crCre cfCre : List AVal) (crIds cfIds : List String)
    (childMods : List Nat) (st : St) : Except PyErr (List Nat × St) :=
  let creationsMap : AMap :=
    let m : AMap :=
      if !crCre.isEmpty then
        .cons "requirements" (.list (AList.ofList crCre)) .nil
      else .nil
    if !cfCre.isEmpty then m.set "folders" (.list (AList.ofList cfCre))
    else m
  let baseRes :=
    if !creationsMap.isEmpty then
      deepUpdate base (.cons "extend" (.map creationsMap) .nil)
    else some base
  match baseRes with
  | none => .error .typeError
  | some base =>
    let foldDels :=
      makeRequirementDeleteActions g req (cfIds ++ st.locChanged) "folders"
    let reqDels :=
      makeRequirementDeleteActions g req (crIds ++ st.locChanged)
        "requirements"
    let delMap : AMap :=
      let m : AMap :=
        if !foldDels.isEmpty then
          .cons "folders" (.list (AList.ofList foldDels)) .nil
        else .nil
      if !reqDels.isEmpty then m.set "requirements" (.list (AList.ofList reqDels))
      else m
    let baseRes :=
      if !delMap.isEmpty then
        deepUpdate base (.cons "delete" (.map delMap) .nil)
      else some base
    match baseRes with
    | none => .error .typeError
    | some base =>
      let (t, st) := st.alloc base
      let st := { st with
        ledger := (reqDels ++ foldDels).foldl
          (fun L r => ledgerSet L (refUuid r) t) st.ledger }
      .ok ((if modGate base then [t] else []) ++ childMods, st)

mutual
/-- `TrackerChange.requirements_create_actions`: returns the creation
payload (the generator's first yield), the tags of the mod actions it
yielded for already-existing children, and the updated state. -/
def requirementsCreateActions (g : LiveModule) (snap : Snapshot) :
    SnapItem → St → Except PyErr (AMap × List Nat × St)
  | .mk id ln tx ty attrs hc ch, st =>
    match rcaAttrLoop g snap ty ([], false) attrs with
    | .error e => .error e
    | .ok (attributes, folderHint) =>
      let base := rcaBase g id ln tx ty attributes
      if hc || folderHint then
        if hc then
          match rcaForest g snap ([], [], []) ch st with
          | .error e => .error e
          | .ok (crs, cfs, childMods, st) =>
            let base :=
              if !crs.isEmpty then
                base.set "requirements" (.list (AList.ofList crs))
              else base
            let base :=
              if !cfs.isEmpty then
                base.set "folders" (.list (AList.ofList cfs))
              else base
            .ok (base, childMods, st)
        else .error .keyError
      else .ok (base, [], st)

/-- The child loop of `requirements_create_actions` (lines 394-407),
accumulating `(requirements, folders, child mods)`. -/
def rcaForest (g : LiveModule) (snap : Snapshot)
    (acc : List AVal × List AVal × List Nat) :
    SnapForest → St → Except PyErr (List AVal × List AVal × List Nat × St)
  | .fnil, st => .ok (acc.1, acc.2.1, acc.2.2, st)
  | .fcons child rest, st =>
    let childish := child.hasChildren && !(child.children).isEmpty
    match workItemByIdentifier g child.id with
    | none =>
      match requirementsCreateActions g snap child st with
      | .error e => .error e
      | .ok (payload, ys, st) =>
        let action := AVal.map payload
        let acc2 :=
          if childish then (acc.1, acc.2.1 ++ [action], acc.2.2 ++ ys)
          else (acc.1 ++ [action], acc.2.1, acc.2.2 ++ ys)
        rcaForest g snap acc2 rest st
    | some creq =>
      match yieldRequirementsModActions g snap creq child "To be created" st with
      | .error e => .error e
      | .ok (ys, st) =>
        let action := AVal.ref (.uuid creq.uuid)
        let acc2 :=
          if childish then (acc.1, acc.2.1 ++ [action], acc.2.2 ++ ys)
          else (acc.1 ++ [action], acc.2.1, acc.2.2 ++ ys)
        rcaForest g snap acc2 rest st

/-- `TrackerChange.yield_requirements_mod_actions`: returns the tags of
the yielded actions (own base first, then child mods) and the updated
state.  The base action is placed on the heap and recorded in the ledger
for each of its deletion references before the yield guard is checked. -/
def yieldRequirementsModActions (g : LiveModule) (snap : Snapshot)
    (req : LiveItem) :
    SnapItem → String → St → Except PyErr (List Nat × St)
  | .mk _ ln tx ty attrs hc ch, parentUuid, st =>
    match yrmaAttrLoop g snap req ([], .nil) attrs with
    | .error e => .error e
    | .ok (creations, modifications) =>
      let base := yrmaBase req ln tx ty attrs creations modifications
      let st :=
        if req.parentUuid ≠ parentUuid then st.addLoc req.identifier else st
      let stRes :=
        if req.parentUuid ≠ parentUuid then
          invalidateDeletion st req.uuid req.isFolder
        else .ok st
      match stRes with
      | .error e => .error e
      | .ok st =>
        if req.isFolder then
          match
            (if hc then yrmaChildren g snap req ([], [], [], [], []) ch st
             else .ok ([], [], [], [], [], st)) with
          | .error e => .error e
          | .ok (crCre, cfCre, crIds, cfIds, childMods, st) =>
            yrmaFolderFinish g req base crCre cfCre crIds cfIds childMods st
        else
          let (t, st) := st.alloc base
          .ok ((if modGate base then [t] else []), st)

/-- The child loop of `yield_requirements_mod_actions` (lines 742-764),
accumulating `(requirement creations, folder creations, requirement ids,
folder ids, child mods)`. -/
def yrmaChildren (g : LiveModule) (snap : Snapshot) (req : LiveItem)
    (acc : List AVal × List AVal × List String × List String × List Nat) :
    SnapForest → St →
    Except PyErr
      (List AVal × List AVal × List String × List String × List Nat × St)
  | .fnil, st => .ok (acc.1, acc.2.1, acc.2.2.1, acc.2.2.2.1, acc.2.2.2.2, st)
  | .fcons child rest, st =>
    let cid := child.id
    let childish := child.hasChildren && !(child.children).isEmpty
    let (crCre, cfCre, crIds, cfIds, mods) := acc
    let (crIds2, cfIds2) :=
      if childish then (crIds, cfIds ++ [cid]) else (crIds ++ [cid], cfIds)
    match workItemByIdentifier g cid with
    | none =>
      match requirementsCreateActions g snap child st with
      | .error e => .error e
      | .ok (payload, ys, st) =>
        let (crCre2, cfCre2) :=
          if childish then (crCre, cfCre ++ [AVal.map payload])
          else (crCre ++ [AVal.map payload], cfCre)
        yrmaChildren g snap req (crCre2, cfCre2, crIds2, cfIds2, mods ++ ys)
          rest st
    | some creq =>
      match yieldRequirementsModActions g snap creq child req.uuid st with
      | .error e => .error e
      | .ok (ys, st) =>
        let (crCre2, cfCre2) :=
          if creq.parentUuid ≠ req.uuid then
            (if childish then (crCre, cfCre ++ [AVal.ref (.uuid creq.uuid)])
             else (crCre ++ [AVal.ref (.uuid creq.uuid)], cfCre))
          else (crCre, cfCre)
        yrmaChildren g snap req (crCre2, cfCre2, crIds2, cfIds2, mods ++ ys)
          rest st
end

/-! ## Top level: `calculate_change` -/

/-- The top-level item loop of `calculate_change` (lines 136-153). -/
def calcLoop (g : LiveModule) (snap : Snapshot) (base : AMap)
    (visited : List String) (ys : List Nat) :
    SnapForest → St → Except PyErr (AMap × List String × List Nat × St)
  | .fnil, st => .ok (base, visited, ys, st)
  | .fcons item rest, st =>
    let secondKey := if item.hasChildren then "folders" else "requirements"
    match workItemByIdentifier g item.id with
    | none =>
      match requirementsCreateActions g snap item st with
      | .error e => .error e
      | .ok (payload, mods, st) =>
        match addActionSafely base "extend" secondKey (.map payload) with
        | none => .error .typeError
        | some base => calcLoop g snap base visited (ys ++ mods) rest st
    | some req =>
      let visited := visited ++ [req.identifier]
      let step :=
        if req.parentUuid ≠ g.uuid then
          match addActionSafely base "extend" secondKey
              (.ref (.uuid req.uuid)) with
          | none => Except.error PyErr.typeError
          | some base =>
            match invalidateDeletion (st.addLoc req.identifier) req.uuid
                req.isFolder with
            | .error e => .error e
            | .ok st => .ok (base, st)
        else .ok (base, st)
      match step with
      | .error e => .error e
      | .ok (base, st) =>
        match yieldRequirementsModActions g snap req item g.uuid st with
        | .error e => .error e
        | .ok (mods, st) => calcLoop g snap base visited (ys ++ mods) rest st

/-- Python `list.remove` on the action list, by content equality. -/
def removeFirstEq : List AMap → AMap → Option (List AMap)
  | [], _ => none
  | a :: rest, x =>
    if a == x then some rest
    else (removeFirstEq rest x).map (fun l => a :: l)

/-- The void-action removal scan of `calculate_change` (lines 155-157):
for each ledger entry whose action has become parent-only, remove it from
the action list; a missing element is the uncaught `ValueError`. -/
def removalPass (st : St) : List AMap → List (String × Nat) →
    Except PyErr (List AMap)
  | acts, [] => .ok acts
  | acts, (_, t) :: rest =>
    let a := st.resolve t
    if keysOnlyParent a then
      match removeFirstEq acts a with
      | some acts2 => removalPass st acts2 rest
      | none => .error .valueError
    else removalPass st acts rest

def St.allocMany : St → List AMap → List Nat × St
  | st, [] => ([], st)
  | st, a :: rest =>
    let (t, st1) := st.alloc a
    let (ts, st2) := st1.allocMany rest
    (t :: ts, st2)

/-- The type-system actions emitted up front by `calculate_change` when
a live types folder exists (lines 130-134): data-type-definition actions,
then requirement-type actions, then the requirement-type-deletion action
when non-void. -/
def typeSystemActions (g : LiveModule) (snap : Snapshot)
    (tf : LiveTypeFolder) : List AMap :=
  (yieldDataTypeDefinitionModActions tf snap) ++
  (yieldRequirementTypeModActions g snap tf) ++
  (let rtd := requirementTypeDeleteActions snap tf
   if !(keysOnlyParent rtd) then [rtd] else [])

/-- The epilogue of `calculate_change` (lines 155-162): the void-action
removal scan, then the module-level deletions merged into the base, which
is appended when non-void. -/
def calcFinish (g : LiveModule) (base : AMap) (visited : List String)
    (ys : List Nat) (st : St) : Except PyErr (List AMap) :=
  match removalPass st (ys.map st.resolve) st.ledger with
  | .error e => .error e
  | .ok resolved =>
    match deepUpdate base (reqDeleteActions g visited "requirements") with
    | none => .error .typeError
    | some base =>
      match deepUpdate base (reqDeleteActions g visited "folders") with
      | none => .error .typeError
      | some base =>
        .ok (resolved ++ (if !(keysOnlyParent base) then [base] else []))

/-- `TrackerChange.calculate_change`, returning the final contents of
`self.actions`. -/
def calculateChange (g : LiveModule) (snap : Snapshot) :
    Except PyErr (List AMap) :=
  let st0 : St := ⟨[], [], []⟩
  let start :=
    match g.reqtFolder with
    | none => (requirementTypesFolderCreateAction g snap, ([] : List Nat), st0)
    | some tf =>
      let (ts, st) := st0.allocMany (typeSystemActions g snap tf)
      (AMap.cons "parent" (.ref (.uuid g.uuid)) .nil, ts, st)
  match calcLoop g snap start.1 [] start.2.1 snap.items start.2.2 with
  | .error e => .error e
  | .ok (base, visited, ys, st) => calcFinish g base visited ys st

/-! ## Observation helpers for the produced action lists -/

/-- The uuids of the concrete references in a list value. -/
def refUuidsL : AList → List String
  | .nil => []
  | .cons (.ref (.uuid u)) tl => u :: refUuidsL tl
  | .cons _ tl => refUuidsL tl

/-- Uuids referenced in all slot lists of a `delete`/`extend` mapping. -/
def slotRefUuids : AMap → List String
  | .nil => []
  | .cons _ (.list xs) tl => refUuidsL xs ++ slotRefUuids tl
  | .cons _ _ tl => slotRefUuids tl

/-- Uuids that an action proposes to delete (covering both the
slot-mapping shape and the flat-list shape). -/
def deleteRefUuids (a : AMap) : List String :=
  match a.lookup "delete" with
  | some (.map slots) => slotRefUuids slots
  | some (.list xs) => refUuidsL xs
  | _ => []

/-- Uuids referenced (as bare concrete references, i.e. relocations) in
the slot lists of an action's `extend` mapping. -/
def extendRefUuids (a : AMap) : List String :=
  match a.lookup "extend" with
  | some (.map slots) => slotRefUuids slots
  | _ => []

def okActions (r : Except PyErr (List AMap)) : List AMap :=
  match r with
  | .ok l => l
  | .error _ => []

mutual
/-- All promise labels referenced anywhere inside a value. -/
def promiseLabels : AVal → List String
  | .ref (.promise l) => [l]
  | .list xs => promiseLabelsL xs
  | .map m => promiseLabelsM m
  | _ => []

def promiseLabelsL : AList → List String
  | .nil => []
  | .cons v tl => promiseLabels v ++ promiseLabelsL tl

def promiseLabelsM : AMap → List String
  | .nil => []
  | .cons _ v tl => promiseLabels v ++ promiseLabelsM tl
end

mutual
/-- All labels declared as `promise_id` by creation payloads anywhere
inside a value. -/
def declaredIds : AVal → List String
  | .list xs => declaredIdsL xs
  | .map m => declaredIdsM m
  | _ => []

def declaredIdsL : AList → List String
  | .nil => []
  | .cons v tl => declaredIds v ++ declaredIdsL tl

def declaredIdsM : AMap → List String
  | .nil => []
  | .cons k v tl =>
    (if k == "promise_id" then
       match v with
       | .str s => [s]
       | _ => []
     else []) ++ declaredIds v ++ declaredIdsM tl
end

mutual
/-- All string values stored under an `identifier` key anywhere inside a
value. -/
def identValues : AVal → List String
  | .list xs => identValuesL xs
  | .map m => identValuesM m
  | _ => []

def identValuesL : AList → List String
  | .nil => []
  | .cons v tl => identValues v ++ identValuesL tl

def identValuesM : AMap → List String
  | .nil => []
  | .cons k v tl =>
    (if k == "identifier" then
       match v with
       | .str s => [s]
       | _ => []
     else []) ++ identValues v ++ identValuesM tl
end

/-! ## Concrete scenarios -/

/-- A live folder `F1` directly under the module. -/
def c1F : LiveItem := ⟨"f", "F1", "Folder", none, "T", true, "m", []⟩

/-- A live requirement `R1` directly under the module (at module root).
The snapshot relocates it below `F1`. -/
def c1R : LiveItem := ⟨"r", "R1", "Req", none, "T", false, "m", []⟩

def c1g : LiveModule := ⟨"m", some ⟨"tf", [], []⟩, [c1F, c1R]⟩

def c1RItem : SnapItem := .mk "R1" "Req" none (some "T") [] false .fnil

def c1FItem : SnapItem :=
  .mk "F1" "Folder" none (some "T") [] true (.fcons c1RItem .fnil)

def c1snap : Snapshot := ⟨[], [], .fcons c1FItem .fnil⟩

/-- A live types folder holding one requirement type `X` that the
snapshot no longer declares. -/
def c8tf : LiveTypeFolder := ⟨"tf", [], [⟨"rt1", "X", "XT", []⟩]⟩

def c8snap : Snapshot := ⟨[], [], .fnil⟩

mutual
/-- All external identifiers occurring in a snapshot item subtree. -/
def snapItemIds : SnapItem → List String
  | .mk id _ _ _ _ _ ch => id :: snapForestIds ch

def snapForestIds : SnapForest → List String
  | .fnil => []
  | .fcons it rest => snapItemIds it ++ snapForestIds rest
end

/-- Requirement-type identifiers declared by the snapshot. -/
def snapReqTypeIds (snap : Snapshot) : List String :=
  snap.requirementTypes.map (fun ir => ir.1)

/-- The composite attribute-definition identifiers (`"{name} {rtid}"`)
derivable from the snapshot's requirement types. -/
def snapAttrDefIds (snap : Snapshot) : List String :=
  snap.requirementTypes.flatMap (fun ir =>
    ir.2.attributes.map (fun na => na.1 ++ " " ++ ir.1))

/-- A work item whose snapshot `type` identifier `X` is unknown both to
the snapshot's requirement types and to the live graph. -/
def c2item : SnapItem := .mk "N1" "New" none (some "X") [] false .fnil

def c2snap : Snapshot := ⟨[], [], .fcons c2item .fnil⟩

def c2g : LiveModule := ⟨"m", some ⟨"tf", [], []⟩, []⟩

/-- An item with an attribute and an unknown requirement-type
identifier. -/
def c4item : SnapItem :=
  .mk "I1" "Item" none (some "X") [("Name", .str "v")] false .fnil

def c4snap : Snapshot := ⟨[], [], .fcons c4item .fnil⟩

def c4g : LiveModule := ⟨"m", some ⟨"tf", [], []⟩, []⟩

def c7snap : Snapshot :=
  ⟨[], [], .fcons (.mk "I1" "A" none none [] false .fnil) .fnil⟩

def c7g : LiveModule := ⟨"m", none, []⟩

def c3rtW : SnapReqType :=
  ⟨"ReqT", [("Status", ⟨"Enum", none⟩), ("Cap", ⟨"String", none⟩)]⟩

def c3snapW : Snapshot :=
  ⟨[("Status", ["Open", "Closed"])], [("T", c3rtW)], .fnil⟩

mutual
/-- No duplicate keys in any mapping reachable through mapping values
(Python dicts guarantee this for every dict). -/
def valNodup : AVal → Bool
  | .map m => mapNodup m
  | _ => true

def mapNodup : AMap → Bool
  | .nil => true
  | .cons k v tl =>
    !((tl.keys).contains k) && valNodup v && mapNodup tl
end

def c9s : AMap :=
  AMap.ofList
    [("extend", .map (AMap.ofList
      [("requirements", .list (AList.ofList [.int 0]))]))]

def c9o : AMap :=
  AMap.ofList
    [("extend", .map (AMap.ofList
      [("folders", .list (AList.ofList [.int 1]))])),
     ("modify", .map (AMap.ofList [("x", .int 2)]))]

def c9r : AMap :=
  AMap.ofList
    [("extend", .map (AMap.ofList
      [("requirements", .list (AList.ofList [.int 0])),
       ("folders", .list (AList.ofList [.int 1]))])),
     ("modify", .map (AMap.ofList [("x", .int 2)]))]

def c2payloadW : AMap :=
  match attributeValueCreateAction c2g c3snapW "Status"
      (.list (.cons (.str "Open") .nil)) "T" with
  | .ok p => p
  | .error _ => .nil

/-- The first `n` heap cells hold exactly `T` and every ledger entry
targets a tag at or beyond `n`. -/
def StExt (n : Nat) (T : List AMap) (st : St) : Prop :=
  st.heap.take n = T ∧ n ≤ st.heap.length ∧ ∀ p ∈ st.ledger, n ≤ p.2

/-- A live types folder with no data-type definitions and no
requirement types, for exercising the type-system branch. -/
def c6tf : LiveTypeFolder := ⟨"tfu", [], []⟩

def c6g : LiveModule := ⟨"m6", some c6tf, []⟩

def c6snap : Snapshot := ⟨[], [], .fnil⟩

/-- Values of an override map that the deep merge treats as plain
overwrites. -/
def noMapVals : AMap → Bool
  | .nil => true
  | .cons _ (.map _) _ => false
  | .cons _ _ tl => noMapVals tl

/-- Sequential `d[k] = v` over all entries of an override map. -/
def setAll (sm : AMap) : AMap → AMap
  | .nil => sm
  | .cons k v tl => setAll (sm.set k v) tl

/-- Every deletion-ledger entry targets a valid heap cell whose action
still carries the delete-reference for the entry's uuid, unless that
reference was retracted for a location-changed item. -/
def SInv (g : LiveModule) (st : St) : Prop :=
  ∀ p ∈ st.ledger, p.2 < st.heap.length ∧
    (p.1 ∈ deleteRefUuids (st.resolve p.2) ∨
     ∃ it, it ∈ g.items ∧ it.uuid = p.1 ∧ it.identifier ∈ st.locChanged)

/-- The yielded tags are valid heap cells and every yielded action that
has become parent-only is covered by a ledger entry. -/
def YInv0 (st : St) (Y : List Nat) : Prop :=
  (∀ t ∈ Y, t < st.heap.length) ∧
  ∀ t ∈ Y, keysOnlyParent (st.resolve t) = true → ∃ u, (u, t) ∈ st.ledger

/-- Contract of one engine step: the heap only grows, the ledger
invariant is maintained, the newly yielded tags are fresh, distinct and
covered, and coverage of previously yielded tags survives. -/
def StepOut (g : LiveModule) (st st' : St) (ys2 : List Nat) : Prop :=
  st.heap.length ≤ st'.heap.length ∧
  SInv g st' ∧
  ys2.Nodup ∧ (∀ t ∈ ys2, st.heap.length ≤ t) ∧
  (∀ Y, YInv0 st Y → YInv0 st' Y) ∧
  YInv0 st' ys2

/-- A live module with no types folder and no items, and an empty
snapshot: the run emits exactly the types-folder creation action. -/
def c5g : LiveModule := ⟨"m5", none, []⟩

def c5snap : Snapshot := ⟨[], [], .fnil⟩

/-- The single action the empty-module run emits. -/
def c5act : AMap := (okActions (calculateChange c5g c5snap)).getD 0 .nil

/-- **C1.** The deletion/relocation exclusivity invariant fails for an
entity whose live parent is the module root: requirement `R1` (uuid `r`)
lives at module root and the snapshot moves it below folder `F1`.  The
run succeeds and its final action list both extends the folder with a
concrete reference to `r` and deletes `r` at module scope: the
module-level `req_delete_actions` filters only against the `visited` set
of top-level identifiers, never against `_location_changed`, and the
relocation's `_invalidate_deletion` finds no ledger entry to retract
because the module deletions are computed only after the loop. -/
theorem c1_module_root_relocation_is_both_extended_and_deleted :
    (calculateChange c1g c1snap).isOk = true ∧
    ((okActions (calculateChange c1g c1snap)).flatMap extendRefUuids).contains
      "r" = true ∧
    ((okActions (calculateChange c1g c1snap)).flatMap deleteRefUuids).contains
      "r" = true := by
  decide

/-- **C8.** `requirement_type_delete_actions` does not produce the
`ChangeAction` deletion shape: its `delete` value is the flat list of
references (not a mapping from slot name to a reference list), and its
`parent` wraps the whole types-folder object instead of the folder's
uuid. -/
theorem c8_requirement_type_delete_action_shape :
    (requirementTypeDeleteActions c8snap c8tf).lookup "delete" =
      some (.list (.cons (.ref (.uuid "rt1")) .nil)) ∧
    (requirementTypeDeleteActions c8snap c8tf).lookup "parent" =
      some (.ref (.uuidObj "tf")) ∧
    (match (requirementTypeDeleteActions c8snap c8tf).lookup "delete" with
     | some (.map _) => true
     | _ => false) = false := by
  decide

/-- **C2, counterexample.**  Promise resolvability fails as stated: a
snapshot item referencing requirement type `X` that neither the live
graph nor the snapshot's `requirement_types` know yields a
`Promise("RequirementType X")` reference in the output while no creation
payload in the output declares that label. -/
theorem c2_unmatched_requirement_type_promise :
    (calculateChange c2g c2snap).isOk = true ∧
    ((okActions (calculateChange c2g c2snap)).flatMap
      (fun a => promiseLabelsM a)).contains "RequirementType X" = true ∧
    ((okActions (calculateChange c2g c2snap)).flatMap
      (fun a => declaredIdsM a)).length = 0 := by
  decide

/-- **C4, counterexample.**  The creation path is *not* non-fatal for an
unknown requirement-type identifier: `requirements_create_actions` looks
the identifier up with `self.requirement_types[req_type_id]` outside any
handler, so the whole reconciliation aborts with a `KeyError` instead of
logging and skipping the node's attributes. -/
theorem c4_create_path_unknown_type_is_fatal :
    calculateChange c4g c4snap = .error .keyError ∧
    (∀ st : St,
      requirementsCreateActions c4g c4snap c4item st = .error .keyError) := by
  constructor
  · rfl
  · intro st
    rfl

/-- **C7, counterexample.**  The engine does invent identifiers: on a
live graph with no types folder and no work items at all, the emitted
action list assigns the constant identifier `"-2"`
(`CACHEKEY_TYPES_FOLDER_IDENTIFIER`) to the created types folder even
though `"-2"` is neither an identifier of the snapshot (whose only item
identifier is `"I1"`) nor present on any live entity (there are none). -/
theorem c7_types_folder_cachekey_identifier_is_invented :
    (calculateChange c7g c7snap).isOk = true ∧
    ((okActions (calculateChange c7g c7snap)).flatMap
      (fun a => identValuesM a)).contains "-2" = true ∧
    (snapForestIds c7snap.items).contains "-2" = false ∧
    (snapReqTypeIds c7snap).contains "-2" = false ∧
    c7g.items = [] := by
  decide

/-- **C3.**  `check_attribute_value_is_valid` raises `InvalidFieldValue`
(carrying the storage key, the offending value and the attribute name)
exactly when the value's runtime shape does not match the declared kind's
expected shape or, for the Enum kind, when no listed element is among the
declared options; on success it returns the resolved kind tag, the
storage key (`"values"` for Enum, `"value"` otherwise) and the value
itself.  The hypotheses are the presuppositions of the claim: the
requirement type, the attribute and (for Enum) the option set are
declared, the kind tag is known, and listed elements are hashable. -/
theorem c3_validator_exactness (snap : Snapshot) (name rtid : String)
    (value : AVal) (rt : SnapReqType) (adef : SnapAttrDef) (mt : Bool)
    (options : List String)
    (hrt : lookupEntry snap.requirementTypes rtid = some rt)
    (ha : lookupEntry rt.attributes name = some adef)
    (hm : matchesKind adef.typ value = some mt)
    (hopts : lookupEntry snap.dataTypeDefinitions name = some options)
    (hhash : ∀ xs, value = AVal.list xs → alistAll hashable xs = true) :
    (adef.typ ≠ "Enum" →
      checkAttributeValueIsValid snap name value rtid =
        (if mt then .ok ⟨adef.typ, "value", value⟩
         else .error (.invalidFieldValue "value" value name))) ∧
    (adef.typ = "Enum" →
      checkAttributeValueIsValid snap name value rtid =
        (match value with
         | .list xs =>
           if enumOverlap options xs then .ok ⟨"Enum", "values", value⟩
           else .error (.invalidFieldValue "values" value name)
         | _ => .error (.invalidFieldValue "values" value name))) := by
  constructor
  · intro hne
    have hb : (adef.typ == "Enum") = false := by
      simp [hne]
    simp only [checkAttributeValueIsValid, hrt, ha, hm, hopts, hb,
      Bool.false_eq_true, if_false]
    cases mt <;> simp
  · intro he
    have hb : (adef.typ == "Enum") = true := by
      simp [he]
    simp only [checkAttributeValueIsValid, hrt, ha, hm, hopts, hb, if_true]
    cases value with
    | list xs =>
      have hx : alistAll hashable xs = true := hhash xs rfl
      have hmt : mt = true := by
        rw [he] at hm
        simpa [matchesKind] using hm.symm
      subst hmt
      simp only [Bool.not_true, Bool.false_eq_true, if_false, hx, he]
      cases h : enumOverlap options xs <;> simp [h, he]
    | str s =>
      have hmt : mt = false := by
        rw [he] at hm
        simpa [matchesKind] using hm.symm
      subst hmt
      simp [he]
    | int n =>
      have hmt : mt = false := by
        rw [he] at hm
        simpa [matchesKind] using hm.symm
      subst hmt
      simp [he]
    | bool b =>
      have hmt : mt = false := by
        rw [he] at hm
        simpa [matchesKind] using hm.symm
      subst hmt
      simp [he]
    | float s =>
      have hmt : mt = false := by
        rw [he] at hm
        simpa [matchesKind] using hm.symm
      subst hmt
      simp [he]
    | date s =>
      have hmt : mt = false := by
        rw [he] at hm
        simpa [matchesKind] using hm.symm
      subst hmt
      simp [he]
    | null =>
      have hmt : mt = false := by
        rw [he] at hm
        simpa [matchesKind] using hm.symm
      subst hmt
      simp [he]
    | ref r =>
      have hmt : mt = false := by
        rw [he] at hm
        simpa [matchesKind] using hm.symm
      subst hmt
      simp [he]
    | map m =>
      have hmt : mt = false := by
        rw [he] at hm
        simpa [matchesKind] using hm.symm
      subst hmt
      simp [he]

/-- Witness for `c3_validator_exactness` at a concrete snapshot: a valid
Enum value validates to the `"values"` builder, and one outside the
option set raises `InvalidFieldValue`. -/
theorem c3_validator_exactness_witness :
    lookupEntry c3snapW.requirementTypes "T" = some c3rtW ∧
    checkAttributeValueIsValid c3snapW "Status"
        (.list (.cons (.str "Open") .nil)) "T" =
      .ok ⟨"Enum", "values", .list (.cons (.str "Open") .nil)⟩ ∧
    checkAttributeValueIsValid c3snapW "Status"
        (.list (.cons (.str "Bogus") .nil)) "T" =
      .error (.invalidFieldValue "values"
        (.list (.cons (.str "Bogus") .nil)) "Status") := by
  refine ⟨by decide, ?_, ?_⟩
  · have h :=
      (c3_validator_exactness c3snapW "Status" "T"
        (.list (.cons (.str "Open") .nil)) c3rtW ⟨"Enum", none⟩ true
        ["Open", "Closed"] (by decide) (by decide) (by decide) (by decide)
        (by intro xs hx; cases hx; decide)).2 rfl
    simpa using h
  · have h :=
      (c3_validator_exactness c3snapW "Status" "T"
        (.list (.cons (.str "Bogus") .nil)) c3rtW ⟨"Enum", none⟩ true
        ["Open", "Closed"] (by decide) (by decide) (by decide) (by decide)
        (by intro xs hx; cases hx; decide)).2 rfl
    simpa using h

/-- **C10.**  `_blacklisted` is vacuously true on an empty list (the
`all()` over the empty iterable), so a snapshot attribute whose value is
the empty list is silently skipped by both attribute loops: deleting such
an entry from the attribute mapping changes neither the creation-path
loop (`requirements_create_actions`) nor the modification-path loop
(`yield_requirements_mod_actions`) — no payload, no modification and no
error is produced for it. -/
theorem c10_empty_list_attribute_is_skipped :
    (∀ name : String, blacklisted name (.list .nil) = true) ∧
    (∀ (g : LiveModule) (snap : Snapshot) (rt : Option String)
       (pre post : List (String × AVal)) (n : String)
       (acc : List AVal × Bool),
       rcaAttrLoop g snap rt acc (pre ++ (n, .list .nil) :: post) =
         rcaAttrLoop g snap rt acc (pre ++ post)) ∧
    (∀ (g : LiveModule) (snap : Snapshot) (req : LiveItem)
       (pre post : List (String × AVal)) (n : String)
       (acc : List AVal × AMap),
       yrmaAttrLoop g snap req acc (pre ++ (n, .list .nil) :: post) =
         yrmaAttrLoop g snap req acc (pre ++ post)) := by
  refine ⟨fun name => rfl, ?_, ?_⟩
  · intro g snap rt pre post n
    induction pre with
    | nil =>
      intro acc
      have hb : blacklisted n (.list .nil) = true := rfl
      have hv : ((AVal.list .nil) == AVal.str "Folder") = false := rfl
      simp [rcaAttrLoop, hb, hv]
    | cons p pre ih =>
      intro acc
      obtain ⟨pn, pv⟩ := p
      simp only [List.cons_append, rcaAttrLoop]
      split
      · exact ih _
      · split
        · rfl
        · cases lookupEntry snap.requirementTypes (rt.getD "") with
          | none => rfl
          | some rtt =>
            dsimp only
            split
            · cases attributeValueCreateAction g snap pn pv (rt.getD "") with
              | error e => rfl
              | ok payload => exact ih _
            · exact ih _
  · intro g snap req pre post n
    induction pre with
    | nil =>
      intro acc
      have h1 : (decide ((AVal.list AList.nil : AVal) ≠ AVal.null)) = true := by
        decide
      have hb : blacklisted n (.list .nil) = true := rfl
      simp [yrmaAttrLoop, h1, hb]
    | cons p pre ih =>
      intro acc
      obtain ⟨pn, pv⟩ := p
      simp only [List.cons_append, yrmaAttrLoop]
      split
      · exact ih _
      · cases attributeValueModAction g snap req pn pv with
        | error e => rfl
        | ok o =>
          cases o with
          | none => exact ih _
          | some s =>
            cases s with
            | inl payload => exact ih _
            | inr nv => exact ih _

/-! ## Idempotence of the deep merge -/

theorem AMap.lookup_set_self : ∀ (m : AMap) (k : String) (v : AVal),
    (m.set k v).lookup k = some v
  | .nil, k, v => by simp [AMap.set, AMap.lookup]
  | .cons k' w tl, k, v => by
    by_cases h : k' = k
    · subst h
      simp [AMap.set, AMap.lookup]
    · have hf : (k' == k) = false := by simp [h]
      simp only [AMap.set, hf, Bool.false_eq_true, if_false, AMap.lookup]
      exact AMap.lookup_set_self tl k v

theorem AMap.lookup_set_ne : ∀ (m : AMap) (k k' : String) (v : AVal),
    k' ≠ k → (m.set k v).lookup k' = m.lookup k'
  | .nil, k, k', v, h => by
    have hf : (k == k') = false := by
      simp only [beq_eq_false_iff_ne, ne_eq]
      intro hh
      exact h hh.symm
    simp [AMap.set, AMap.lookup, hf]
  | .cons k2 w tl, k, k', v, h => by
    by_cases h2 : k2 = k
    · subst h2
      have hf : (k2 == k') = false := by
        simp only [beq_eq_false_iff_ne, ne_eq]
        intro hh
        exact h hh.symm
      simp [AMap.set, AMap.lookup, hf]
    · have h2f : (k2 == k) = false := by simp [h2]
      simp only [AMap.set, h2f, Bool.false_eq_true, if_false, AMap.lookup]
      by_cases h3 : k2 = k'
      · simp [h3]
      · simp [h3, AMap.lookup_set_ne tl k k' v h]

theorem AMap.set_self_of_lookup : ∀ (m : AMap) (k : String) (v : AVal),
    m.lookup k = some v → m.set k v = m
  | .nil, k, v, h => by simp [AMap.lookup] at h
  | .cons k' w tl, k, v, h => by
    by_cases h2 : k' = k
    · subst h2
      simp only [AMap.lookup, beq_self_eq_true, if_true, Option.some.injEq]
        at h
      simp [AMap.set, h]
    · have h2f : (k' == k) = false := by simp [h2]
      simp only [AMap.lookup, h2f, Bool.false_eq_true, if_false] at h
      simp [AMap.set, h2f, AMap.set_self_of_lookup tl k v h]

/-- An override entry whose value is not a non-empty mapping is a plain
overwrite step of `_deep_update`. -/
theorem deepUpdate_cons_overwrite (s rest : AMap) (k : String) (v : AVal)
    (hv : ∀ m : AMap, v = .map m → m.isEmpty = true) :
    deepUpdate s (.cons k v rest) = deepUpdate (s.set k v) rest := by
  cases v with
  | map m => simp [deepUpdate, hv m rfl]
  | str s2 => rfl
  | int n => rfl
  | bool b => rfl
  | float s2 => rfl
  | date s2 => rfl
  | null => rfl
  | ref r2 => rfl
  | list xs => rfl

theorem deepUpdate_preserves (k : String) :
    ∀ (o s r : AMap), deepUpdate s o = some r →
      ((o.keys).contains k) = false → r.lookup k = s.lookup k
  | .nil, s, r, h, _ => by
    simp only [deepUpdate, Option.some.injEq] at h
    rw [← h]
  | .cons k' v rest, s, r, h, hk => by
    have hkk : ¬ k = k' ∧ k ∉ rest.keys := by simpa [AMap.keys] using hk
    have hne : k ≠ k' := hkk.1
    have hk'2 : ((rest.keys).contains k) = false := by simpa using hkk.2
    by_cases hov : ∀ m : AMap, v = .map m → m.isEmpty = true
    · rw [deepUpdate_cons_overwrite s rest k' v hov] at h
      have := deepUpdate_preserves k rest (s.set k' v) r h hk'2
      rw [this, AMap.lookup_set_ne _ _ _ _ hne]
    · push_neg at hov
      obtain ⟨m, hm, hme⟩ := hov
      subst hm
      have hme2 : m.isEmpty = false := by
        cases hx : m.isEmpty with
        | true => exact absurd hx hme
        | false => rfl
      simp only [deepUpdate, hme2, Bool.false_eq_true, if_false] at h
      cases hsk : s.lookup k' with
      | none =>
        simp only [hsk] at h
        cases hu : deepUpdate AMap.nil m with
        | none =>
          simp only [hu] at h
          exact Option.noConfusion h
        | some u =>
          simp only [hu] at h
          have := deepUpdate_preserves k rest (s.set k' (.map u)) r h hk'2
          rw [this, AMap.lookup_set_ne _ _ _ _ hne]
      | some sv =>
        simp only [hsk] at h
        cases sv with
        | map sm =>
          cases hu : deepUpdate sm m with
          | none =>
            simp only [hu] at h
            exact Option.noConfusion h
          | some u =>
            simp only [hu] at h
            have := deepUpdate_preserves k rest (s.set k' (.map u)) r h hk'2
            rw [this, AMap.lookup_set_ne _ _ _ _ hne]
        | str s2 => exact Option.noConfusion h
        | int n => exact Option.noConfusion h
        | bool b => exact Option.noConfusion h
        | float s2 => exact Option.noConfusion h
        | date s2 => exact Option.noConfusion h
        | null => exact Option.noConfusion h
        | ref r2 => exact Option.noConfusion h
        | list xs => exact Option.noConfusion h

/-- **C9.**  `_deep_update` is idempotent: whenever merging `overrides`
into `source` succeeds with result `r`, merging the same overrides into
`r` again succeeds and changes nothing.  `mapNodup` states that the
overrides mapping (and every nested mapping value inside it) has no
duplicate keys, which Python dicts guarantee; present non-empty mapping
values merge recursively, anything else overwrites. -/
theorem c9_deep_update_idempotent :
    ∀ (o s r : AMap), mapNodup o = true → deepUpdate s o = some r →
      deepUpdate r o = some r
  | .nil, s, r, _, _ => rfl
  | .cons k v rest, s, r, hnd, h => by
    have hnd' : ((rest.keys).contains k) = false ∧ valNodup v = true ∧
        mapNodup rest = true := by
      simpa [mapNodup, Bool.and_eq_true, and_assoc] using hnd
    by_cases hov : ∀ m : AMap, v = .map m → m.isEmpty = true
    · rw [deepUpdate_cons_overwrite s rest k v hov] at h
      rw [deepUpdate_cons_overwrite r rest k v hov]
      have hr : r.lookup k = some v := by
        rw [deepUpdate_preserves k rest (s.set k v) r h hnd'.1,
          AMap.lookup_set_self]
      rw [AMap.set_self_of_lookup r k v hr]
      exact c9_deep_update_idempotent rest (s.set k v) r hnd'.2.2 h
    · push_neg at hov
      obtain ⟨m, hm, hme⟩ := hov
      subst hm
      have hme2 : m.isEmpty = false := by
        cases hx : m.isEmpty with
        | true => exact absurd hx hme
        | false => rfl
      have hmnd : mapNodup m = true := by
        simpa [valNodup] using hnd'.2.1
      simp only [deepUpdate, hme2, Bool.false_eq_true, if_false] at h ⊢
      cases hsk : s.lookup k with
      | none =>
        simp only [hsk] at h
        cases hu : deepUpdate AMap.nil m with
        | none =>
          simp only [hu] at h
          exact Option.noConfusion h
        | some u =>
          simp only [hu] at h
          have hr : r.lookup k = some (.map u) := by
            rw [deepUpdate_preserves k rest (s.set k (.map u)) r h hnd'.1,
              AMap.lookup_set_self]
          have hidem := c9_deep_update_idempotent m AMap.nil u hmnd hu
          simp only [hr, hidem]
          rw [AMap.set_self_of_lookup r k (.map u) hr]
          exact c9_deep_update_idempotent rest (s.set k (.map u)) r
            hnd'.2.2 h
      | some sv =>
        simp only [hsk] at h
        cases sv with
        | map sm =>
          cases hu : deepUpdate sm m with
          | none =>
            simp only [hu] at h
            exact Option.noConfusion h
          | some u =>
            simp only [hu] at h
            have hr : r.lookup k = some (.map u) := by
              rw [deepUpdate_preserves k rest (s.set k (.map u)) r h hnd'.1,
                AMap.lookup_set_self]
            have hidem := c9_deep_update_idempotent m sm u hmnd hu
            simp only [hr, hidem]
            rw [AMap.set_self_of_lookup r k (.map u) hr]
            exact c9_deep_update_idempotent rest (s.set k (.map u)) r
              hnd'.2.2 h
        | str s2 => exact Option.noConfusion h
        | int n => exact Option.noConfusion h
        | bool b => exact Option.noConfusion h
        | float s2 => exact Option.noConfusion h
        | date s2 => exact Option.noConfusion h
        | null => exact Option.noConfusion h
        | ref r2 => exact Option.noConfusion h
        | list xs => exact Option.noConfusion h

/-- Witness for `c9_deep_update_idempotent` at a concrete merge: merging
`{"extend": {"folders": [1]}, "modify": {"x": 2}}` into
`{"extend": {"requirements": [0]}}` and then merging it again into the
result is a fixed point. -/
theorem c9_deep_update_idempotent_witness :
    mapNodup c9o = true ∧ deepUpdate c9s c9o = some c9r ∧
      deepUpdate c9r c9o = some c9r :=
  ⟨by decide, by decide,
   c9_deep_update_idempotent c9o c9s c9r (by decide) (by decide)⟩

/-- **C4, amended.**  Degradation behaviour of the two paths: (1) the
modification path never fails merely because the snapshot item references
a requirement-type identifier unknown to the snapshot (here for items
without attributes and children, where the unknown type is the only
anomaly: the run succeeds, the condition is only logged); (2) the
creation path handles an item that has attributes but no type by logging
and abandoning attribute processing — the node is still created, without
an `attributes` key; (3) but the creation path aborts with a `KeyError`
when the item carries a non-blacklisted attribute and a type identifier
unknown to the snapshot's requirement types. -/
theorem c4_degradation_paths :
    (∀ (g : LiveModule) (snap : Snapshot) (req : LiveItem)
       (id ln X : String) (tx : Option String) (st : St),
       req.isFolder = false → req.attributes = [] →
       lookupEntry snap.requirementTypes X = none →
       (yieldRequirementsModActions g snap req
         (.mk id ln tx (some X) [] false .fnil) req.parentUuid st).isOk =
         true) ∧
    (∀ (g : LiveModule) (snap : Snapshot) (id ln n : String) (v : AVal)
       (rest : List (String × AVal)) (st : St),
       blacklisted n v = false →
       requirementsCreateActions g snap
           (.mk id ln none none ((n, v) :: rest) false .fnil) st =
         .ok (AMap.ofList
           [("long_name", .str ln), ("identifier", .str id)], [], st)) ∧
    (∀ (g : LiveModule) (snap : Snapshot) (id ln X n : String)
       (tx : Option String) (v : AVal) (rest : List (String × AVal))
       (hc : Bool) (ch : SnapForest) (st : St),
       blacklisted n v = false → X ≠ "" →
       lookupEntry snap.requirementTypes X = none →
       requirementsCreateActions g snap
           (.mk id ln tx (some X) ((n, v) :: rest) hc ch) st =
         .error .keyError) := by
  refine ⟨?_, ?_, ?_⟩
  · intro g snap req id ln X tx st hf ha hX
    simp only [yieldRequirementsModActions, yrmaAttrLoop]
    simp only [ne_eq, not_true_eq_false, if_false, hf, Bool.false_eq_true,
      if_true]
    simp [Except.isOk, Except.toBool]
  · intro g snap id ln n v rest st hbl
    simp only [requirementsCreateActions, rcaAttrLoop, hbl,
      Bool.false_eq_true, if_false, optTruthy, Bool.not_false, if_true]
    simp [rcaBase, optTruthy, AMap.set]
  · intro g snap id ln X n tx v rest hc ch st hbl hX hlook
    have hot : optTruthy (some X) = true := by
      simp [optTruthy, hX]
    simp only [requirementsCreateActions, rcaAttrLoop, hbl,
      Bool.false_eq_true, if_false, hot, Bool.not_true, Option.getD, hlook]

/-- Witness for `c4_degradation_paths` at concrete inputs: the mod path
succeeds on a requirement with unknown snapshot type; the create path
produces a bare payload for a typeless item with attributes; the create
path fails with `KeyError` for an unknown type with attributes. -/
theorem c4_degradation_paths_witness :
    ((⟨"r", "R1", "Req", none, "T", false, "m", []⟩ : LiveItem).isFolder =
      false) ∧
    (yieldRequirementsModActions c4g c4snap
      ⟨"r", "R1", "Req", none, "T", false, "m", []⟩
      (.mk "R1" "Req" none (some "X") [] false .fnil) "m"
      ⟨[], [], []⟩).isOk = true ∧
    requirementsCreateActions c4g c4snap
        (.mk "I2" "NoType" none none [("Name", .str "v")] false .fnil)
        ⟨[], [], []⟩ =
      .ok (AMap.ofList
        [("long_name", .str "NoType"), ("identifier", .str "I2")], [],
        ⟨[], [], []⟩) ∧
    requirementsCreateActions c4g c4snap c4item ⟨[], [], []⟩ =
      .error .keyError := by
  refine ⟨rfl, ?_, ?_, ?_⟩
  · exact (c4_degradation_paths.1 c4g c4snap
      ⟨"r", "R1", "Req", none, "T", false, "m", []⟩ "R1" "Req" "X" none
      ⟨[], [], []⟩ rfl rfl rfl)
  · exact (c4_degradation_paths.2.1 c4g c4snap "I2" "NoType" "Name"
      (.str "v") [] ⟨[], [], []⟩ rfl)
  · exact (c4_degradation_paths.2.2 c4g c4snap "I1" "Item" "X" "Name" none
      (.str "v") [] false .fnil ⟨[], [], []⟩ rfl (by decide) rfl)

/-- Shape facts about a successful validation: the builder keeps the
declared kind tag and the raw value, and for the Enum kind the value is a
list. -/
theorem checkOk_shape (snap : Snapshot) (name rtid : String) (value : AVal)
    (rt : SnapReqType) (adef : SnapAttrDef) (b : AttributeValueBuilder)
    (hrt : lookupEntry snap.requirementTypes rtid = some rt)
    (ha : lookupEntry rt.attributes name = some adef)
    (hok : checkAttributeValueIsValid snap name value rtid = .ok b) :
    b.deftype = adef.typ ∧ b.value = value ∧
      (adef.typ = "Enum" → ∃ xs, value = .list xs) ∧
      (b.key = "values" ∨ b.key = "value") := by
  simp only [checkAttributeValueIsValid, hrt, ha] at hok
  cases hmk : matchesKind adef.typ value with
  | none => rw [hmk] at hok; exact Except.noConfusion hok
  | some mt =>
    rw [hmk] at hok
    by_cases he : adef.typ = "Enum"
    · have hb : (adef.typ == "Enum") = true := by simp [he]
      rw [hb] at hok
      simp only [if_true] at hok
      cases hopt : lookupEntry snap.dataTypeDefinitions name with
      | none => rw [hopt] at hok; exact Except.noConfusion hok
      | some options =>
        rw [hopt] at hok
        cases hmt : mt with
        | false =>
          rw [hmt] at hok
          simp only [Bool.not_false, if_true] at hok
          exact Except.noConfusion hok
        | true =>
          rw [hmt] at hok
          simp only [Bool.not_true, Bool.false_eq_true, if_false] at hok
          cases value with
          | list xs =>
            refine ⟨?_, ?_, fun _ => ⟨xs, rfl⟩, ?_⟩ <;>
              · split at hok
                · exact Except.noConfusion hok
                · split at hok
                  · exact Except.noConfusion hok
                  · cases hok
                    first
                    | rfl
                    | exact Or.inl rfl
          | str s2 => simp at hok
          | int n =>
            rw [he] at hmk
            simp [matchesKind] at hmk
            simp [hmk] at hmt
          | bool b2 =>
            rw [he] at hmk
            simp [matchesKind] at hmk
            simp [hmk] at hmt
          | float s2 =>
            rw [he] at hmk
            simp [matchesKind] at hmk
            simp [hmk] at hmt
          | date s2 =>
            rw [he] at hmk
            simp [matchesKind] at hmk
            simp [hmk] at hmt
          | null =>
            rw [he] at hmk
            simp [matchesKind] at hmk
            simp [hmk] at hmt
          | ref r2 =>
            rw [he] at hmk
            simp [matchesKind] at hmk
            simp [hmk] at hmt
          | map m =>
            rw [he] at hmk
            simp [matchesKind] at hmk
            simp [hmk] at hmt
    · have hb : (adef.typ == "Enum") = false := by simp [he]
      rw [hb] at hok
      simp only [Bool.false_eq_true, if_false] at hok
      cases hmt : mt with
      | false =>
        rw [hmt] at hok
        simp only [Bool.not_false, if_true] at hok
        exact Except.noConfusion hok
      | true =>
        rw [hmt] at hok
        simp only [Bool.not_true, Bool.false_eq_true, if_false] at hok
        cases hok
        exact ⟨rfl, rfl, fun hc => absurd hc he, Or.inr rfl⟩

theorem declaredIdsL_enum (name : String) : ∀ values : List String,
    declaredIdsL (AList.ofList (values.map (fun v =>
      AVal.map (AMap.cons "long_name" (.str v)
        (AMap.cons "promise_id"
          (.str ("EnumValue " ++ name ++ " " ++ v)) .nil))))) =
    values.map (fun v => "EnumValue " ++ name ++ " " ++ v)
  | [] => rfl
  | v :: values => by
    simp only [List.map_cons, AList.ofList, declaredIdsL, declaredIds,
      declaredIdsM]
    rw [declaredIdsL_enum name values]
    simp

/-- **C2, amended.**  Label agreement between resolver sites and creation
payloads, per entity kind: (1) `data_type_create_action` declares
`"EnumerationDataTypeDefinition {name}"` and (2) the data-type reference
of an Enum `attribute_definition_create_action` promises exactly that
label when the definition is not found; (3) the nested enum-value
creations declare `"EnumValue {name} {value}"` and (4) the enum-value
resolver promises exactly that label for a missing literal; (5)
`requirement_type_create_action` declares `"RequirementType {id}"` and
(6) the creation path's type reference promises exactly that label for a
missing type; (7) `attribute_definition_create_action` declares
`"{class} {name} {rtid}"` and (8) the attribute-value definition
reference promises exactly that label when the definition is missing. -/
theorem c2_promise_labels_agree_with_creation_labels :
    (∀ (name : String) (values : List String),
      (dataTypeCreateAction name values).lookup "promise_id" =
        some (.str ("EnumerationDataTypeDefinition " ++ name))) ∧
    (∀ (g : LiveModule) (name rtid : String) (item : SnapAttrDef),
      item.typ = "Enum" → enumDataTypeDefinitionByLongName g name = none →
      (attributeDefinitionCreateAction g name item rtid).lookup "data_type" =
        some (.ref (.promise ("EnumerationDataTypeDefinition " ++ name)))) ∧
    (∀ (name v : String) (values : List String), v ∈ values →
      ("EnumValue " ++ name ++ " " ++ v) ∈
        declaredIdsM (dataTypeCreateAction name values)) ∧
    (∀ (g : LiveModule) (name v : String),
      enumValueByLongName g (.str v) = none →
      enumValueRef g name (.str v) =
        .ref (.promise ("EnumValue " ++ name ++ " " ++ v))) ∧
    (∀ (g : LiveModule) (id : String) (rt : SnapReqType),
      (requirementTypeCreateAction g id rt).lookup "promise_id" =
        some (.str ("RequirementType " ++ id))) ∧
    (∀ (g : LiveModule) (id ln rtid : String) (tx : Option String)
       (attributes : List AVal),
      reqtypeByIdentifier g rtid = none → rtid ≠ "" →
      (rcaBase g id ln tx (some rtid) attributes).lookup "type" =
        some (.ref (.promise ("RequirementType " ++ rtid)))) ∧
    (∀ (g : LiveModule) (name rtid : String) (item : SnapAttrDef),
      (attributeDefinitionCreateAction g name item rtid).lookup
          "promise_id" =
        some (.str (attrDefClass item.typ ++ " " ++
          (name ++ " " ++ rtid)))) ∧
    (∀ (g : LiveModule) (snap : Snapshot) (name rtid : String)
       (value : AVal) (rt : SnapReqType) (adef : SnapAttrDef)
       (payload : AMap),
      lookupEntry snap.requirementTypes rtid = some rt →
      lookupEntry rt.attributes name = some adef →
      attributeValueCreateAction g snap name value rtid = .ok payload →
      attributeDefinitionByIdentifier g (attrDefClass adef.typ)
          (name ++ " " ++ rtid) = none →
      payload.lookup "definition" =
        some (.ref (.promise (attrDefClass adef.typ ++ " " ++
          (name ++ " " ++ rtid))))) := by
  refine ⟨fun name values => rfl, ?_, ?_, ?_, fun g id rt => rfl, ?_, ?_, ?_⟩
  · intro g name rtid item he hfind
    have hb : (item.typ == "Enum") = true := by simp [he]
    simp [attributeDefinitionCreateAction, hb, hfind, AMap.set, AMap.lookup,
      AMap.ofList]
  · intro name v values hv
    have hmem : ("EnumValue " ++ name ++ " " ++ v) ∈
        values.map (fun w => "EnumValue " ++ name ++ " " ++ w) :=
      List.mem_map.mpr ⟨v, hv, rfl⟩
    simp only [dataTypeCreateAction, declaredIdsM, declaredIds, declaredIdsL,
      AMap.ofList, declaredIdsL_enum]
    simp [hmem]
  · intro g name v hfind
    unfold enumValueRef
    rw [hfind]
    simp [pyStr]
  · intro g id ln rtid tx attributes hfind hne
    have hot : optTruthy (some rtid) = true := by simp [optTruthy, hne]
    simp only [rcaBase, hot, if_true, Option.getD_some, hfind]
    exact AMap.lookup_set_self _ _ _
  · intro g name rtid item
    simp only [attributeDefinitionCreateAction]
    exact AMap.lookup_set_self _ _ _
  · intro g snap name rtid value rt adef payload hrt ha hok hfind
    simp only [attributeValueCreateAction] at hok
    cases hchk : checkAttributeValueIsValid snap name value rtid with
    | error e => rw [hchk] at hok; exact Except.noConfusion hok
    | ok builder =>
      simp only [hchk] at hok
      obtain ⟨hdt, hval, henum, hkey⟩ :=
        checkOk_shape snap name rtid value rt adef builder hrt ha hchk
      by_cases he : adef.typ = "Enum"
      · obtain ⟨xs, hxs⟩ := henum he
        have hb : (builder.deftype == "Enum") = true := by
          simp [hdt, he]
        have hbv : builder.value = .list xs := by rw [hval, hxs]
        rw [hb] at hok
        simp only [if_true, hbv] at hok
        have hcls : attrDefClass adef.typ = "AttributeDefinitionEnumeration" :=
          by simp [attrDefClass, he]
        rw [hcls] at hfind
        simp only [hfind] at hok
        cases hok
        rw [hcls]
        rfl
      · have hb : (builder.deftype == "Enum") = false := by
          simp [hdt, he]
        rw [hb] at hok
        simp only [Bool.false_eq_true, if_false] at hok
        have hcls : attrDefClass adef.typ = "AttributeDefinition" := by
          simp [attrDefClass, he]
        rw [hcls] at hfind
        simp only [hfind] at hok
        cases hok
        rw [hcls]
        rfl

/-- Witness for `c2_promise_labels_agree_with_creation_labels` at
concrete inputs, pairing each resolver-derived promise label with the
label the corresponding creation payload declares. -/
theorem c2_promise_labels_agree_witness :
    (dataTypeCreateAction "Status" ["Open", "Closed"]).lookup "promise_id" =
      some (.str ("EnumerationDataTypeDefinition " ++ "Status")) ∧
    (attributeDefinitionCreateAction c2g "Status" ⟨"Enum", none⟩ "T").lookup
        "data_type" =
      some (.ref (.promise ("EnumerationDataTypeDefinition " ++ "Status"))) ∧
    ("EnumValue " ++ "Status" ++ " " ++ "Open") ∈
      declaredIdsM (dataTypeCreateAction "Status" ["Open", "Closed"]) ∧
    enumValueRef c2g "Status" (.str "Open") =
      .ref (.promise ("EnumValue " ++ "Status" ++ " " ++ "Open")) ∧
    (requirementTypeCreateAction c2g "T" c3rtW).lookup "promise_id" =
      some (.str ("RequirementType " ++ "T")) ∧
    (rcaBase c2g "I1" "A" none (some "T") []).lookup "type" =
      some (.ref (.promise ("RequirementType " ++ "T"))) ∧
    (attributeDefinitionCreateAction c2g "Status" ⟨"Enum", none⟩ "T").lookup
        "promise_id" =
      some (.str (attrDefClass "Enum" ++ " " ++ ("Status" ++ " " ++ "T"))) ∧
    c2payloadW.lookup "definition" =
      some (.ref (.promise (attrDefClass "Enum" ++ " " ++
        ("Status" ++ " " ++ "T")))) :=
  ⟨c2_promise_labels_agree_with_creation_labels.1 "Status" ["Open", "Closed"],
   c2_promise_labels_agree_with_creation_labels.2.1 c2g "Status" "T"
     ⟨"Enum", none⟩ rfl rfl,
   c2_promise_labels_agree_with_creation_labels.2.2.1 "Status" "Open"
     ["Open", "Closed"] (by simp),
   c2_promise_labels_agree_with_creation_labels.2.2.2.1 c2g "Status" "Open"
     rfl,
   c2_promise_labels_agree_with_creation_labels.2.2.2.2.1 c2g "T" c3rtW,
   c2_promise_labels_agree_with_creation_labels.2.2.2.2.2.1 c2g "I1" "A" "T"
     none [] rfl (by decide),
   c2_promise_labels_agree_with_creation_labels.2.2.2.2.2.2.1 c2g "Status"
     "T" ⟨"Enum", none⟩,
   c2_promise_labels_agree_with_creation_labels.2.2.2.2.2.2.2 c2g c3snapW
     "Status" "T" (.list (.cons (.str "Open") .nil)) c3rtW ⟨"Enum", none⟩
     c2payloadW rfl rfl rfl rfl⟩

/-! ## Identifier provenance of the creation payload constructors -/

theorem identValues_enumValueRef (g : LiveModule) (name : String)
    (v : AVal) : identValues (enumValueRef g name v) = [] := by
  unfold enumValueRef
  cases h : enumValueByLongName g v <;> simp [identValues]

theorem identValuesL_enumRefs (g : LiveModule) (name : String) :
    ∀ xs : List AVal,
      identValuesL (AList.ofList (xs.map (enumValueRef g name))) = []
  | [] => rfl
  | x :: xs => by
    simp only [List.map_cons, AList.ofList, identValuesL,
      identValues_enumValueRef, identValuesL_enumRefs g name xs]
    rfl

/-- A value accepted for a non-Enum kind is a scalar and carries no
`identifier` entries. -/
theorem matchesKind_nonenum_idents (t : String) (v : AVal)
    (h : matchesKind t v = some true) (hne : t ≠ "Enum") :
    identValues v = [] := by
  cases v with
  | str s => rfl
  | int n => rfl
  | bool b => rfl
  | float s => rfl
  | date s => rfl
  | null => rfl
  | ref r => rfl
  | list xs =>
    exfalso
    simp only [matchesKind] at h
    split at h <;> simp_all
  | map m =>
    exfalso
    simp only [matchesKind] at h
    split at h <;> simp_all

/-- A successfully built attribute-value creation payload assigns no
identifiers at all. -/
theorem identValuesM_avc_shape (X : String) (d sv : AVal) (bk : String)
    (hd : identValues d = []) (hs : identValues sv = [])
    (hk : (bk == "identifier") = false) :
    identValuesM (AMap.ofList
      [("_type", .str X), ("definition", d), (bk, sv)]) = [] := by
  simp [AMap.ofList, identValuesM, identValues, hd, hs, hk]

theorem avc_idents (g : LiveModule) (snap : Snapshot) (name rtid : String)
    (value : AVal) (rt : SnapReqType) (adef : SnapAttrDef) (p : AMap)
    (hrt : lookupEntry snap.requirementTypes rtid = some rt)
    (ha : lookupEntry rt.attributes name = some adef)
    (hok : attributeValueCreateAction g snap name value rtid = .ok p) :
    identValuesM p = [] := by
  simp only [attributeValueCreateAction] at hok
  cases hchk : checkAttributeValueIsValid snap name value rtid with
  | error e => rw [hchk] at hok; exact Except.noConfusion hok
  | ok builder =>
    simp only [hchk] at hok
    obtain ⟨hdt, hval, henum, hkey⟩ :=
      checkOk_shape snap name rtid value rt adef builder hrt ha hchk
    have hkeyid : (builder.key == "identifier") = false := by
      cases hkey with
      | inl h => simp [h]
      | inr h => simp [h]
    by_cases he : adef.typ = "Enum"
    · obtain ⟨xs, hxs⟩ := henum he
      have hb : (builder.deftype == "Enum") = true := by simp [hdt, he]
      have hbv : builder.value = .list xs := by rw [hval, hxs]
      rw [hb] at hok
      simp only [if_true, hbv] at hok
      cases hf : attributeDefinitionByIdentifier g
          "AttributeDefinitionEnumeration" (name ++ " " ++ rtid) with
      | none =>
        rw [hf] at hok
        cases hemp : (List.map (enumValueRef g name) xs.toList).isEmpty with
        | true =>
          rw [hemp] at hok
          simp only [if_true] at hok
          have hxsnil : xs = .nil := by
            cases xs with
            | nil => rfl
            | cons y ys => simp [AList.toList] at hemp
          cases hok
          exact identValuesM_avc_shape _ _ _ _ rfl
            (by rw [hxsnil]; rfl) hkeyid
        | false =>
          rw [hemp] at hok
          simp only [Bool.false_eq_true, if_false] at hok
          cases hok
          exact identValuesM_avc_shape _ _ _ _ rfl
            (by simp [identValues, identValuesL_enumRefs]) hkeyid
      | some d =>
        rw [hf] at hok
        cases hemp : (List.map (enumValueRef g name) xs.toList).isEmpty with
        | true =>
          rw [hemp] at hok
          simp only [if_true] at hok
          have hxsnil : xs = .nil := by
            cases xs with
            | nil => rfl
            | cons y ys => simp [AList.toList] at hemp
          cases hok
          exact identValuesM_avc_shape _ _ _ _ rfl
            (by rw [hxsnil]; rfl) hkeyid
        | false =>
          rw [hemp] at hok
          simp only [Bool.false_eq_true, if_false] at hok
          cases hok
          exact identValuesM_avc_shape _ _ _ _ rfl
            (by simp [identValues, identValuesL_enumRefs]) hkeyid
    · have hb : (builder.deftype == "Enum") = false := by simp [hdt, he]
      rw [hb] at hok
      simp only [Bool.false_eq_true, if_false] at hok
      have hmk : matchesKind adef.typ value = some true := by
        simp only [checkAttributeValueIsValid, hrt, ha] at hchk
        cases hmk2 : matchesKind adef.typ value with
        | none => rw [hmk2] at hchk; exact Except.noConfusion hchk
        | some mt =>
          rw [hmk2] at hchk
          have hbe : (adef.typ == "Enum") = false := by simp [he]
          rw [hbe] at hchk
          simp only [Bool.false_eq_true, if_false] at hchk
          cases hmt : mt with
          | false => rw [hmt] at hchk; simp at hchk
          | true => rfl
      have hv : identValues value = [] :=
        matchesKind_nonenum_idents adef.typ value hmk he
      cases hf : attributeDefinitionByIdentifier g "AttributeDefinition"
          (name ++ " " ++ rtid) with
      | none =>
        rw [hf] at hok
        cases hok
        exact identValuesM_avc_shape _ _ _ _ rfl
          (by rw [hval]; exact hv) hkeyid
      | some d =>
        rw [hf] at hok
        cases hok
        exact identValuesM_avc_shape _ _ _ _ rfl
          (by rw [hval]; exact hv) hkeyid

theorem identValuesM_append_entry : ∀ (m : AMap) (k : String) (v : AVal),
    m.lookup k = none →
    identValuesM (m.set k v) = identValuesM m ++
      ((if (k == "identifier") = true then
          match v with
          | .str s => [s]
          | _ => []
        else []) ++ identValues v)
  | .nil, k, v, _ => by simp [AMap.set, identValuesM]
  | .cons k2 w tl, k, v, h => by
    have hne : (k2 == k) = false := by
      by_cases h2 : k2 = k
      · subst h2
        simp [AMap.lookup] at h
      · simp [h2]
    have htl : tl.lookup k = none := by
      simpa [AMap.lookup, hne] using h
    simp only [AMap.set, hne, Bool.false_eq_true, if_false, identValuesM]
    rw [identValuesM_append_entry tl k v htl]
    simp

theorem attrDefCreate_idents (g : LiveModule) (name : String)
    (item : SnapAttrDef) (rtid : String) :
    identValuesM (attributeDefinitionCreateAction g name item rtid) =
      [name ++ " " ++ rtid] := by
  simp only [attributeDefinitionCreateAction, attrDefClass]
  by_cases he : (item.typ == "Enum") = true
  · rw [he]
    cases hf : enumDataTypeDefinitionByLongName g name with
    | none =>
      simp [AMap.set, AMap.ofList, identValuesM, identValues, hf]
    | some d =>
      simp [AMap.set, AMap.ofList, identValuesM, identValues, hf]
  · have he2 : (item.typ == "Enum") = false := by
      cases hx : (item.typ == "Enum") with
      | true => exact absurd hx he
      | false => rfl
    rw [he2]
    simp [AMap.set, AMap.ofList, identValuesM, identValues]

theorem identValuesL_attrDefs (g : LiveModule) (id : String) :
    ∀ attrs : List (String × SnapAttrDef),
      identValuesL (AList.ofList (attrs.map (fun na =>
        AVal.map (attributeDefinitionCreateAction g na.1 na.2 id)))) =
      attrs.map (fun na => na.1 ++ " " ++ id)
  | [] => rfl
  | na :: attrs => by
    simp only [List.map_cons, AList.ofList, identValuesL, identValues,
      attrDefCreate_idents, identValuesL_attrDefs g id attrs]
    rfl

theorem reqTypeCreate_idents (g : LiveModule) (id : String)
    (rt : SnapReqType) :
    identValuesM (requirementTypeCreateAction g id rt) =
      id :: rt.attributes.map (fun na => na.1 ++ " " ++ id) := by
  simp [requirementTypeCreateAction, AMap.ofList, identValuesM, identValues,
    identValuesL_attrDefs]

theorem identValuesL_enumVals (name : String) : ∀ vs : List String,
    identValuesL (AList.ofList (vs.map (fun v =>
      AVal.map (AMap.cons "long_name" (.str v)
        (AMap.cons "promise_id"
          (.str ("EnumValue " ++ name ++ " " ++ v)) .nil))))) = []
  | [] => rfl
  | v :: vs => by
    simp only [List.map_cons, AList.ofList, identValuesL, identValues,
      identValuesM]
    rw [identValuesL_enumVals name vs]
    simp

theorem dataTypeCreate_idents (name : String) (values : List String) :
    identValuesM (dataTypeCreateAction name values) = [] := by
  simp [dataTypeCreateAction, AMap.ofList, identValuesM, identValues,
    identValuesL_enumVals]

theorem identValuesL_dtDefs : ∀ dts : List (String × List String),
    identValuesL (AList.ofList (dts.map (fun nv =>
      AVal.map (dataTypeCreateAction nv.1 nv.2)))) = []
  | [] => rfl
  | nv :: rest => by
    simp only [List.map_cons, AList.ofList, identValuesL, identValues,
      dataTypeCreate_idents]
    rw [identValuesL_dtDefs rest]
    rfl

theorem identValuesL_rtCreates (g : LiveModule) :
    ∀ rts : List (String × SnapReqType),
      identValuesL (AList.ofList (rts.map (fun ir =>
        AVal.map (requirementTypeCreateAction g ir.1 ir.2)))) =
      rts.flatMap (fun ir =>
        ir.1 :: ir.2.attributes.map (fun na => na.1 ++ " " ++ ir.1))
  | [] => rfl
  | ir :: rest => by
    simp only [List.map_cons, AList.ofList, identValuesL, identValues,
      reqTypeCreate_idents]
    rw [identValuesL_rtCreates g rest]
    simp

theorem rtfCreate_idents (g : LiveModule) (snap : Snapshot) :
    identValuesM (requirementTypesFolderCreateAction g snap) =
      "-2" :: snap.requirementTypes.flatMap (fun ir =>
        ir.1 :: ir.2.attributes.map (fun na => na.1 ++ " " ++ ir.1)) := by
  simp [requirementTypesFolderCreateAction,
    yieldDataTypeDefinitionCreateActions, yieldRequirementTypeCreateActions,
    AMap.ofList, identValuesM, identValues, identValuesL,
    identValuesL_dtDefs, identValuesL_rtCreates]

theorem rcaBase_idents (g : LiveModule) (id ln : String)
    (tx ty : Option String) (attributes : List AVal)
    (hattrs : identValuesL (AList.ofList attributes) = []) :
    identValuesM (rcaBase g id ln tx ty attributes) = [id] := by
  have hIV : identValues (AVal.list (AList.ofList attributes)) = [] := by
    simp [identValues, hattrs]
  simp only [rcaBase]
  cases tx with
  | none =>
    split
    · cases hfind : reqtypeByIdentifier g (ty.getD "") with
      | none =>
        split <;>
          simp [AMap.set, AMap.ofList, identValuesM, identValues, hIV, hfind,
            hattrs]
      | some rt =>
        split <;>
          simp [AMap.set, AMap.ofList, identValuesM, identValues, hIV, hfind,
            hattrs]
    · split <;>
        simp [AMap.set, AMap.ofList, identValuesM, identValues, hIV, hattrs]
  | some t =>
    split
    · cases hfind : reqtypeByIdentifier g (ty.getD "") with
      | none =>
        split <;> split <;> (try split) <;>
          simp [AMap.set, AMap.ofList, identValuesM, identValues, hIV, hfind,
            hattrs]
      | some rt =>
        split <;> split <;> (try split) <;>
          simp [AMap.set, AMap.ofList, identValuesM, identValues, hIV, hfind,
            hattrs]
    · split <;> split <;> (try split) <;>
        simp [AMap.set, AMap.ofList, identValuesM, identValues, hIV, hattrs]

theorem lookupEntry_of_contains {α : Type} :
    ∀ (l : List (String × α)) (k : String),
      ((l.map Prod.fst).contains k) = true → ∃ a, lookupEntry l k = some a
  | [], k, h => by simp at h
  | (k2, a) :: tl, k, h => by
    by_cases h2 : k2 = k
    · subst h2
      exact ⟨a, by simp [lookupEntry]⟩
    · have h2f : (k2 == k) = false := by simp [h2]
      have htl : ((tl.map Prod.fst).contains k) = true := by
        simpa [List.contains_cons, h2, Ne.symm h2] using h
      obtain ⟨b, hb⟩ := lookupEntry_of_contains tl k htl
      exact ⟨b, by simp [lookupEntry, h2f, hb]⟩

theorem rcaAttrLoop_idents (g : LiveModule) (snap : Snapshot)
    (ty : Option String) :
    ∀ (attrs : List (String × AVal)) (acc : List AVal × Bool)
      (atts : List AVal) (hint : Bool),
      rcaAttrLoop g snap ty acc attrs = .ok (atts, hint) →
      (∀ v ∈ acc.1, identValues v = []) →
      ∀ v ∈ atts, identValues v = []
  | [], acc, atts, hint, h, hacc => by
    simp only [rcaAttrLoop] at h
    cases h
    exact hacc
  | (n, val) :: rest, acc, atts, hint, h, hacc => by
    simp only [rcaAttrLoop] at h
    split at h
    · exact rcaAttrLoop_idents g snap ty rest _ atts hint h hacc
    · split at h
      · cases h
        exact hacc
      · cases hlook : lookupEntry snap.requirementTypes (ty.getD "") with
        | none =>
          simp [hlook] at h
        | some rt =>
          simp only [hlook] at h
          split at h
          next hcont =>
            cases hpay : attributeValueCreateAction g snap n val
                (ty.getD "") with
            | error e =>
              simp [hpay] at h
            | ok payload =>
              simp only [hpay] at h
              obtain ⟨adef, hadef⟩ :=
                lookupEntry_of_contains rt.attributes n hcont
              have hpid : identValuesM payload = [] :=
                avc_idents g snap n (ty.getD "") val rt adef payload hlook
                  hadef hpay
              refine rcaAttrLoop_idents g snap ty rest _ atts hint h ?_
              intro v hv
              rcases List.mem_append.mp hv with hv1 | hv2
              · exact hacc v hv1
              · rcases List.mem_singleton.mp hv2 with rfl
                exact hpid
          next =>
            exact rcaAttrLoop_idents g snap ty rest _ atts hint h hacc

theorem rcaBase_lookup_requirements (g : LiveModule) (id ln : String)
    (tx ty : Option String) (attributes : List AVal) :
    (rcaBase g id ln tx ty attributes).lookup "requirements" = none := by
  simp only [rcaBase]
  repeat' split
  all_goals simp [AMap.set, AMap.ofList, AMap.lookup]

theorem rcaBase_lookup_folders (g : LiveModule) (id ln : String)
    (tx ty : Option String) (attributes : List AVal) :
    (rcaBase g id ln tx ty attributes).lookup "folders" = none := by
  simp only [rcaBase]
  repeat' split
  all_goals simp [AMap.set, AMap.ofList, AMap.lookup]

theorem identValuesL_ofList_nil :
    ∀ (l : List AVal), (∀ v ∈ l, identValues v = []) →
      identValuesL (AList.ofList l) = []
  | [], _ => rfl
  | v :: vs, h => by
    simp only [AList.ofList, identValuesL]
    rw [h v (by simp),
      identValuesL_ofList_nil vs (fun w hw => h w (by simp [hw]))]
    rfl

theorem identValuesL_ofList_subset (allowed : List String) :
    ∀ (l : List AVal), (∀ v ∈ l, ∀ s ∈ identValues v, s ∈ allowed) →
      ∀ s ∈ identValuesL (AList.ofList l), s ∈ allowed
  | [], _, s, hs => by simp [AList.ofList, identValuesL] at hs
  | v :: vs, h, s, hs => by
    simp only [AList.ofList, identValuesL, List.mem_append] at hs
    rcases hs with hs1 | hs2
    · exact h v (by simp) s hs1
    · exact identValuesL_ofList_subset allowed vs
        (fun w hw => h w (by simp [hw])) s hs2

mutual
/-- Identifiers inside a creation payload produced by
`requirements_create_actions` all come from the external identifiers of
the snapshot item's own subtree. -/
theorem rca_payload_idents (g : LiveModule) (snap : Snapshot)
    (allowed : List String) :
    ∀ (item : SnapItem) (st st' : St) (payload : AMap) (ys : List Nat),
      requirementsCreateActions g snap item st = .ok (payload, ys, st') →
      (∀ s ∈ snapItemIds item, s ∈ allowed) →
      ∀ s ∈ identValuesM payload, s ∈ allowed
  | .mk id ln tx ty attrs hc ch, st, st', payload, ys, h, hsub => by
    simp only [requirementsCreateActions] at h
    cases hal : rcaAttrLoop g snap ty ([], false) attrs with
    | error e =>
      simp [hal] at h
    | ok p =>
      obtain ⟨attributes, folderHint⟩ := p
      simp only [hal] at h
      have hatt : ∀ v ∈ attributes, identValues v = [] :=
        rcaAttrLoop_idents g snap ty attrs ([], false) attributes folderHint
          hal (by intro v hv; simp at hv)
      have hattL : identValuesL (AList.ofList attributes) = [] :=
        identValuesL_ofList_nil attributes hatt
      have hbase : identValuesM (rcaBase g id ln tx ty attributes) = [id] :=
        rcaBase_idents g id ln tx ty attributes hattL
      have hid : id ∈ allowed := hsub id (by simp [snapItemIds])
      split at h
      · split at h
        · cases hfor : rcaForest g snap ([], [], []) ch st with
          | error e =>
            simp [hfor] at h
          | ok q =>
            obtain ⟨crs, cfs, childMods, st2⟩ := q
            simp only [hfor] at h
            have hkids : ∀ v ∈ crs ++ cfs, ∀ s ∈ identValues v, s ∈ allowed :=
              rcaForest_idents g snap allowed ch ([], [], []) st crs cfs
                childMods st2 hfor (by intro v hv; simp at hv)
                (by
                  intro s hs
                  exact hsub s (by simp [snapItemIds, hs]))
            have hcrsL : ∀ s ∈ identValuesL (AList.ofList crs), s ∈ allowed :=
              identValuesL_ofList_subset allowed crs
                (fun v hv => hkids v (List.mem_append.mpr (Or.inl hv)))
            have hcfsL : ∀ s ∈ identValuesL (AList.ofList cfs), s ∈ allowed :=
              identValuesL_ofList_subset allowed cfs
                (fun v hv => hkids v (List.mem_append.mpr (Or.inr hv)))
            cases h
            intro s hs
            by_cases hcrs : crs.isEmpty <;> by_cases hcfs : cfs.isEmpty
            all_goals
              simp only [hcrs, hcfs, Bool.not_true, Bool.not_false,
                Bool.false_eq_true, if_false, if_true] at hs
            · rw [hbase] at hs
              rcases List.mem_singleton.mp hs with rfl
              exact hid
            · rw [identValuesM_append_entry _ _ _
                  (rcaBase_lookup_folders g id ln tx ty attributes),
                hbase] at hs
              simp only [List.mem_append, List.mem_singleton] at hs
              rcases hs with rfl | hs
              · exact hid
              · rcases hs with hs1 | hs2
                · simp at hs1
                · exact hcfsL s (by simpa [identValues] using hs2)
            · rw [identValuesM_append_entry _ _ _
                  (rcaBase_lookup_requirements g id ln tx ty attributes),
                hbase] at hs
              simp only [List.mem_append, List.mem_singleton] at hs
              rcases hs with rfl | hs
              · exact hid
              · rcases hs with hs1 | hs2
                · simp at hs1
                · exact hcrsL s (by simpa [identValues] using hs2)
            · rw [identValuesM_append_entry _ _ _ (by
                  rw [AMap.lookup_set_ne _ _ _ _ (by decide)]
                  exact rcaBase_lookup_folders g id ln tx ty attributes),
                identValuesM_append_entry _ _ _
                  (rcaBase_lookup_requirements g id ln tx ty attributes),
                hbase] at hs
              simp only [List.mem_append, List.mem_singleton] at hs
              rcases hs with (rfl | hs) | hs
              · exact hid
              · rcases hs with hs1 | hs2
                · simp at hs1
                · exact hcrsL s (by simpa [identValues] using hs2)
              · rcases hs with hs1 | hs2
                · simp at hs1
                · exact hcfsL s (by simpa [identValues] using hs2)
        · exact Except.noConfusion h
      · cases h
        intro s hs
        rw [hbase] at hs
        rcases List.mem_singleton.mp hs with rfl
        exact hid

theorem rcaForest_idents (g : LiveModule) (snap : Snapshot)
    (allowed : List String) :
    ∀ (ch : SnapForest) (acc : List AVal × List AVal × List Nat) (st : St)
      (crs cfs : List AVal) (ys : List Nat) (st' : St),
      rcaForest g snap acc ch st = .ok (crs, cfs, ys, st') →
      (∀ v ∈ acc.1 ++ acc.2.1, ∀ s ∈ identValues v, s ∈ allowed) →
      (∀ s ∈ snapForestIds ch, s ∈ allowed) →
      ∀ v ∈ crs ++ cfs, ∀ s ∈ identValues v, s ∈ allowed
  | .fnil, acc, st, crs, cfs, ys, st', h, hacc, hsub => by
    simp only [rcaForest] at h
    cases h
    exact hacc
  | .fcons child rest, acc, st, crs, cfs, ys, st', h, hacc, hsub => by
    simp only [rcaForest] at h
    cases hfind : workItemByIdentifier g child.id with
    | none =>
      simp only [hfind] at h
      cases hrca : requirementsCreateActions g snap child st with
      | error e =>
        simp [hrca] at h
      | ok q =>
        obtain ⟨payload, ys2, st2⟩ := q
        simp only [hrca] at h
        have hpay : ∀ s ∈ identValuesM payload, s ∈ allowed :=
          rca_payload_idents g snap allowed child st st2 payload ys2 hrca
            (by
              intro s hs
              exact hsub s (by simp [snapForestIds, hs]))
        refine rcaForest_idents g snap allowed rest _ st2 crs cfs ys st' h
          ?_ ?_
        · intro v hv
          split at hv
          · rcases List.mem_append.mp hv with hv1 | hv2
            · exact hacc v (List.mem_append.mpr (Or.inl hv1))
            · rcases List.mem_append.mp hv2 with hv3 | hv4
              · exact hacc v (List.mem_append.mpr (Or.inr hv3))
              · rcases List.mem_singleton.mp hv4 with rfl
                intro s hs
                exact hpay s (by simpa [identValues] using hs)
          · rcases List.mem_append.mp hv with hv1 | hv2
            · rcases List.mem_append.mp hv1 with hv3 | hv4
              · exact hacc v (List.mem_append.mpr (Or.inl hv3))
              · rcases List.mem_singleton.mp hv4 with rfl
                intro s hs
                exact hpay s (by simpa [identValues] using hs)
            · exact hacc v (List.mem_append.mpr (Or.inr hv2))
        · intro s hs
          exact hsub s (by simp [snapForestIds, hs])
    | some creq =>
      simp only [hfind] at h
      cases hmod : yieldRequirementsModActions g snap creq child
          "To be created" st with
      | error e =>
        simp [hmod] at h
      | ok q =>
        obtain ⟨ys2, st2⟩ := q
        simp only [hmod] at h
        refine rcaForest_idents g snap allowed rest _ st2 crs cfs ys st' h
          ?_ ?_
        · intro v hv
          split at hv
          · rcases List.mem_append.mp hv with hv1 | hv2
            · exact hacc v (List.mem_append.mpr (Or.inl hv1))
            · rcases List.mem_append.mp hv2 with hv3 | hv4
              · exact hacc v (List.mem_append.mpr (Or.inr hv3))
              · rcases List.mem_singleton.mp hv4 with rfl
                intro s hs
                simp [identValues] at hs
          · rcases List.mem_append.mp hv with hv1 | hv2
            · rcases List.mem_append.mp hv1 with hv3 | hv4
              · exact hacc v (List.mem_append.mpr (Or.inl hv3))
              · rcases List.mem_singleton.mp hv4 with rfl
                intro s hs
                simp [identValues] at hs
            · exact hacc v (List.mem_append.mpr (Or.inr hv2))
        · intro s hs
          exact hsub s (by simp [snapForestIds, hs])
end

/-- **C7, amended claim.**  Complete characterisation of the identifiers
assigned by creation payloads: an attribute-definition creation assigns
exactly the composite `"{name} {requirement type id}"`; a
requirement-type creation assigns its snapshot key plus the composites
of its attribute definitions; the types-folder creation assigns the
invented cache key `"-2"` plus the requirement-type identifiers; and a
work-item creation payload assigns only external identifiers drawn from
the snapshot item's own subtree.  So the engine invents exactly the
composite form and the `"-2"` constant, and every other assigned
identifier is taken verbatim from the snapshot. -/
theorem c7_assigned_identifiers_characterised :
    (∀ (g : LiveModule) (name : String) (item : SnapAttrDef)
        (rtid : String),
        identValuesM (attributeDefinitionCreateAction g name item rtid) =
          [name ++ " " ++ rtid]) ∧
    (∀ (g : LiveModule) (id : String) (rt : SnapReqType),
        identValuesM (requirementTypeCreateAction g id rt) =
          id :: rt.attributes.map (fun na => na.1 ++ " " ++ id)) ∧
    (∀ (g : LiveModule) (snap : Snapshot),
        identValuesM (requirementTypesFolderCreateAction g snap) =
          "-2" :: snap.requirementTypes.flatMap (fun ir =>
            ir.1 :: ir.2.attributes.map (fun na => na.1 ++ " " ++ ir.1))) ∧
    (∀ (g : LiveModule) (snap : Snapshot) (item : SnapItem) (st st' : St)
        (payload : AMap) (ys : List Nat),
        requirementsCreateActions g snap item st = .ok (payload, ys, st') →
        ∀ s ∈ identValuesM payload, s ∈ snapItemIds item) :=
  ⟨attrDefCreate_idents, reqTypeCreate_idents, rtfCreate_idents,
    fun g snap item st st' payload ys h =>
      rca_payload_idents g snap (snapItemIds item) item st st' payload ys h
        (fun _ hs => hs)⟩

/-- Witness for C7: on the concrete one-item snapshot the creation
payload's only assigned identifier is the item's own `"I1"`. -/
theorem c7_assigned_identifiers_witness :
    requirementsCreateActions c7g c7snap
        (.mk "I1" "A" none none [] false .fnil) ⟨[], [], []⟩ =
      .ok (AMap.ofList [("long_name", .str "A"), ("identifier", .str "I1")],
        [], ⟨[], [], []⟩) ∧
    "I1" ∈ snapItemIds (.mk "I1" "A" none none [] false .fnil) :=
  ⟨rfl, c7_assigned_identifiers_characterised.2.2.2 c7g c7snap
    (.mk "I1" "A" none none [] false .fnil) ⟨[], [], []⟩ ⟨[], [], []⟩
    (AMap.ofList [("long_name", .str "A"), ("identifier", .str "I1")]) []
    rfl "I1" (by decide)⟩

/-! ## Void actions: no element of the type-system action list is
parent-only, so the void-removal scan leaves that prefix intact. -/

theorem lookup_mem_keys : ∀ (m : AMap) (k : String) (v : AVal),
    m.lookup k = some v → k ∈ m.keys
  | .nil, k, v, h => by simp [AMap.lookup] at h
  | .cons k2 w tl, k, v, h => by
    simp only [AMap.lookup] at h
    split at h
    next heq =>
      simp [AMap.keys, eq_of_beq heq]
    next =>
      simp only [AMap.keys, List.mem_cons]
      exact Or.inr (lookup_mem_keys tl k v h)

theorem keysOnlyParent_false_of_lookup (m : AMap) (k : String) (v : AVal)
    (hk : k ≠ "parent") (h : m.lookup k = some v) :
    keysOnlyParent m = false := by
  cases m with
  | nil => rfl
  | cons k2 w tl =>
    cases hko : keysOnlyParent (.cons k2 w tl) with
    | false => rfl
    | true =>
      exfalso
      have hmem := lookup_mem_keys _ _ _ h
      simp only [keysOnlyParent] at hko
      rw [List.all_eq_true] at hko
      exact hk (by simpa using hko k hmem)

theorem lookup_of_truthy_getD (m : AMap) (k : String)
    (h : truthy ((m.lookup k).getD (.map .nil)) = true) :
    ∃ v, m.lookup k = some v := by
  cases hl : m.lookup k with
  | none => rw [hl] at h; simp [truthy, AMap.isEmpty] at h
  | some v => exact ⟨v, rfl⟩

theorem kop_dataTypeCreate (name : String) (values : List String) :
    keysOnlyParent (dataTypeCreateAction name values) = false := by
  simp [dataTypeCreateAction, AMap.ofList, keysOnlyParent, AMap.keys]

theorem kop_attrDefCreate (g : LiveModule) (name : String)
    (item : SnapAttrDef) (rtid : String) :
    keysOnlyParent (attributeDefinitionCreateAction g name item rtid)
      = false := by
  simp only [attributeDefinitionCreateAction]
  split <;>
    simp [AMap.set, AMap.ofList, keysOnlyParent, AMap.keys]

theorem kop_reqTypeCreate (g : LiveModule) (id : String)
    (rt : SnapReqType) :
    keysOnlyParent (requirementTypeCreateAction g id rt) = false := by
  simp [requirementTypeCreateAction, AMap.ofList, keysOnlyParent, AMap.keys]

theorem kop_attrDefMod (g : LiveModule) (reqtype : LiveReqType)
    (name : String) (data : SnapAttrDef) (a : AMap)
    (h : attributeDefinitionModAction g reqtype name data = some a) :
    keysOnlyParent a = false := by
  simp only [attributeDefinitionModAction] at h
  split at h
  · cases h
    exact kop_attrDefCreate g name data reqtype.identifier
  · repeat' split at h
    all_goals first
      | exact Option.noConfusion h
      | (cases h; simp [AMap.ofList, keysOnlyParent, AMap.keys])

theorem kop_dataTypeMod (tf : LiveTypeFolder) (name : String)
    (values : List String) (a : AMap)
    (h : dataTypeModAction tf name values = some a) :
    keysOnlyParent a = false := by
  simp only [dataTypeModAction] at h
  split at h
  · cases h
    exact kop_dataTypeCreate name values
  · repeat' split at h
    all_goals first
      | exact Option.noConfusion h
      | (cases h; simp_all)

theorem mem_ite_list (c : Prop) [Decidable c] (P Q : List AMap) (a : AMap)
    (h : a ∈ if c then P else Q) : (c ∧ a ∈ P) ∨ (¬c ∧ a ∈ Q) := by
  by_cases hc : c
  · rw [if_pos hc] at h
    exact Or.inl ⟨hc, h⟩
  · rw [if_neg hc] at h
    exact Or.inr ⟨hc, h⟩

theorem kop_requirementTypeModAction (g : LiveModule)
    (tf : LiveTypeFolder) (id : String) (item : SnapReqType) :
    ∀ a ∈ requirementTypeModAction g tf id item,
      keysOnlyParent a = false := by
  intro a ha
  simp only [requirementTypeModAction] at ha
  split at ha
  · rcases List.mem_singleton.mp ha with rfl
    exact kop_reqTypeCreate g id item
  · rcases List.mem_append.mp ha with h1 | h2
    · rcases mem_ite_list _ _ _ _ h1 with ⟨hb, h1⟩ | ⟨_, h1⟩
      · rcases List.mem_singleton.mp h1 with rfl
        simpa using hb
      · simp at h1
    · have h3 := List.mem_of_mem_filter h2
      rcases List.mem_filterMap.mp h3 with ⟨na, _, hna⟩
      exact kop_attrDefMod _ _ _ _ _ hna

theorem kop_yieldDataTypeDefinitionModActions (tf : LiveTypeFolder)
    (snap : Snapshot) :
    ∀ a ∈ yieldDataTypeDefinitionModActions tf snap,
      keysOnlyParent a = false := by
  intro a ha
  simp only [yieldDataTypeDefinitionModActions] at ha
  rcases List.mem_append.mp ha with h1 | h2
  · rcases mem_ite_list _ _ _ _ h1 with ⟨hg, h1⟩ | ⟨_, h1⟩
    · rcases List.mem_singleton.mp h1 with rfl
      rw [Bool.or_eq_true] at hg
      rcases hg with hx | hx
      · obtain ⟨v, hv⟩ := lookup_of_truthy_getD _ _ hx
        exact keysOnlyParent_false_of_lookup _ _ _ (by decide) hv
      · obtain ⟨v, hv⟩ := lookup_of_truthy_getD _ _ hx
        exact keysOnlyParent_false_of_lookup _ _ _ (by decide) hv
    · simp at h1
  · have h3 := List.mem_of_mem_filter h2
    rcases List.mem_filterMap.mp h3 with ⟨nv, _, hnv⟩
    exact kop_dataTypeMod _ _ _ _ hnv

theorem kop_typeSystemActions (g : LiveModule) (snap : Snapshot)
    (tf : LiveTypeFolder) :
    ∀ a ∈ typeSystemActions g snap tf, keysOnlyParent a = false := by
  intro a ha
  simp only [typeSystemActions] at ha
  rcases List.mem_append.mp ha with h1 | h2
  · rcases List.mem_append.mp h1 with h3 | h4
    · exact kop_yieldDataTypeDefinitionModActions tf snap a h3
    · simp only [yieldRequirementTypeModActions] at h4
      rcases List.mem_flatMap.mp h4 with ⟨ir, _, hir⟩
      exact kop_requirementTypeModAction g tf ir.1 ir.2 a hir
  · rcases mem_ite_list _ _ _ _ h2 with ⟨hb, h2⟩ | ⟨_, h2⟩
    · rcases List.mem_singleton.mp h2 with rfl
      simpa using hb
    · simp at h2

theorem removeFirstEq_append (x : AMap) :
    ∀ (P Q : List AMap), (∀ b ∈ P, b ≠ x) →
      removeFirstEq (P ++ Q) x =
        (removeFirstEq Q x).map (fun l => P ++ l)
  | [], Q, _ => by cases hq : removeFirstEq Q x <;> simp [hq]
  | b :: P, Q, h => by
    have hb : (b == x) = false := by simpa using h b (by simp)
    simp only [List.cons_append, removeFirstEq, hb, Bool.false_eq_true,
      if_false]
    rw [show P.append Q = P ++ Q from rfl]
    rw [removeFirstEq_append x P Q (fun c hc => h c (by simp [hc]))]
    cases hq : removeFirstEq Q x <;> simp

theorem removalPass_append (st : St) (P : List AMap)
    (hP : ∀ b ∈ P, keysOnlyParent b = false) :
    ∀ (L : List (String × Nat)) (Q : List AMap),
      removalPass st (P ++ Q) L =
        (removalPass st Q L).map (fun l => P ++ l)
  | [], Q => by
    simp [removalPass, Except.map]
  | (u, t) :: L, Q => by
    simp only [removalPass]
    split
    next hv =>
      have hnx : ∀ b ∈ P, b ≠ st.resolve t := by
        intro b hb heq
        rw [heq] at hb
        have := hP _ hb
        rw [this] at hv
        exact Bool.noConfusion hv
      rw [removeFirstEq_append (st.resolve t) P Q hnx]
      cases hq : removeFirstEq Q (st.resolve t) with
      | none => simp [Except.map]
      | some Q2 =>
        simp only [Option.map_some']
        exact removalPass_append st P hP L Q2
    next => exact removalPass_append st P hP L Q

/-! ## Heap-prefix preservation: the type-system actions allocated up
front are never mutated by the item phase, because every deletion-ledger
entry targets a tag allocated during the item phase. -/

theorem take_append_of_le : ∀ (l1 l2 : List AMap) (n : Nat),
    n ≤ l1.length → (l1 ++ l2).take n = l1.take n
  | _, _, 0, _ => rfl
  | [], _, n + 1, h => absurd h (by simp)
  | b :: l1, l2, n + 1, h => by
    show b :: (l1 ++ l2).take n = b :: l1.take n
    rw [take_append_of_le l1 l2 n (Nat.le_of_succ_le_succ h)]

theorem take_set_of_le : ∀ (l : List AMap) (n t : Nat) (a : AMap),
    n ≤ t → (l.set t a).take n = l.take n
  | _, 0, _, _, _ => rfl
  | [], _ + 1, _, _, _ => rfl
  | _ :: _, n + 1, 0, _, h => absurd h (by omega)
  | b :: l, n + 1, t + 1, a, h => by
    show b :: (l.set t a).take n = b :: l.take n
    rw [take_set_of_le l n t a (Nat.le_of_succ_le_succ h)]

theorem StExt_snoc (n : Nat) (T : List AMap) (st : St) (a : AMap)
    (h : StExt n T st) : StExt n T { st with heap := st.heap ++ [a] } := by
  obtain ⟨h1, h2, h3⟩ := h
  refine ⟨?_, ?_, h3⟩
  · rw [take_append_of_le _ _ _ h2]
    exact h1
  · simp only [List.length_append, List.length_cons, List.length_nil]
    omega

theorem StExt_addLoc (n : Nat) (T : List AMap) (st : St) (id : String)
    (h : StExt n T st) : StExt n T (st.addLoc id) := by
  unfold St.addLoc
  split
  · exact h
  · exact h

theorem StExt_setHeap (n : Nat) (T : List AMap) (st : St) (t : Nat)
    (a : AMap) (ht : n ≤ t) (h : StExt n T st) :
    StExt n T (st.setHeap t a) := by
  obtain ⟨h1, h2, h3⟩ := h
  refine ⟨?_, ?_, h3⟩
  · rw [St.setHeap]
    show (st.heap.set t a).take n = T
    rw [take_set_of_le _ _ _ _ ht]
    exact h1
  · simpa [St.setHeap] using h2

theorem ledgerLookup_mem : ∀ (L : List (String × Nat)) (u : String)
    (t : Nat), ledgerLookup L u = some t → ∃ k, (k, t) ∈ L
  | [], u, t, h => by simp [ledgerLookup] at h
  | (k, v) :: tl, u, t, h => by
    simp only [ledgerLookup] at h
    split at h
    · cases h
      exact ⟨k, by simp⟩
    · obtain ⟨k2, hk2⟩ := ledgerLookup_mem tl u t h
      exact ⟨k2, by simp [hk2]⟩

theorem invalidateDeletion_StExt (n : Nat) (T : List AMap) (st : St)
    (u : String) (f : Bool) (st' : St)
    (h : invalidateDeletion st u f = .ok st') (hst : StExt n T st) :
    StExt n T st' := by
  simp only [invalidateDeletion] at h
  cases hll : ledgerLookup st.ledger u with
  | none =>
    simp only [hll] at h
    cases h
    exact hst
  | some t =>
    simp only [hll] at h
    obtain ⟨k, hk⟩ := ledgerLookup_mem _ _ _ hll
    have ht : n ≤ t := hst.2.2 _ hk
    split at h
    · cases h
      exact hst
    · split at h
      · cases h
        exact hst
      · split at h
        · exact Except.noConfusion h
        · cases h
          exact StExt_setHeap n T st t _ ht hst
      · exact Except.noConfusion h
    · exact Except.noConfusion h

theorem ledgerSet_targets : ∀ (L : List (String × Nat)) (u : String)
    (t : Nat) (p : String × Nat), p ∈ ledgerSet L u t → p ∈ L ∨ p.2 = t
  | [], u, t, p, h => by
    simp only [ledgerSet, List.mem_singleton] at h
    right
    rw [h]
  | (k, v) :: tl, u, t, p, h => by
    simp only [ledgerSet] at h
    split at h
    · rcases List.mem_cons.mp h with rfl | h2
      · right
        rfl
      · left
        simp [h2]
    · rcases List.mem_cons.mp h with rfl | h2
      · left
        simp
      · rcases ledgerSet_targets tl u t p h2 with h3 | h3
        · left
          simp [h3]
        · right
          exact h3

theorem foldl_ledgerSet_bound (n t : Nat) (ht : n ≤ t) :
    ∀ (rs : List AVal) (L : List (String × Nat)),
      (∀ p ∈ L, n ≤ p.2) →
      ∀ p ∈ rs.foldl (fun L r => ledgerSet L (refUuid r) t) L, n ≤ p.2
  | [], L, hL => hL
  | r :: rs, L, hL => by
    simp only [List.foldl_cons]
    refine foldl_ledgerSet_bound n t ht rs _ ?_
    intro q hq
    rcases ledgerSet_targets _ _ _ _ hq with h1 | h2
    · exact hL q h1
    · omega

theorem yrmaFolderFinish_StExt (n : Nat) (T : List AMap) (g : LiveModule)
    (req : LiveItem) (base : AMap) (crCre cfCre : List AVal)
    (crIds cfIds : List String) (childMods : List Nat) (st : St)
    (ts : List Nat) (st' : St)
    (h : yrmaFolderFinish g req base crCre cfCre crIds cfIds childMods st
      = .ok (ts, st'))
    (hst : StExt n T st) : StExt n T st' := by
  simp only [yrmaFolderFinish, St.alloc] at h
  split at h
  · exact Except.noConfusion h
  · split at h
    · exact Except.noConfusion h
    · cases h
      obtain ⟨h1, h2, h3⟩ := hst
      refine ⟨?_, ?_, ?_⟩
      · rw [take_append_of_le _ _ _ h2]
        exact h1
      · simp only [List.length_append, List.length_cons, List.length_nil]
        omega
      · exact foldl_ledgerSet_bound n st.heap.length h2 _ _ h3

mutual
theorem rca_StExt (n : Nat) (T : List AMap) (g : LiveModule)
    (snap : Snapshot) :
    ∀ (item : SnapItem) (st : St) (p : AMap) (ys : List Nat) (st' : St),
      requirementsCreateActions g snap item st = .ok (p, ys, st') →
      StExt n T st → StExt n T st'
  | .mk id ln tx ty attrs hc ch, st, p, ys, st', h, hst => by
    simp only [requirementsCreateActions] at h
    cases hal : rcaAttrLoop g snap ty ([], false) attrs with
    | error e => simp [hal] at h
    | ok pr =>
      obtain ⟨attributes, folderHint⟩ := pr
      simp only [hal] at h
      split at h
      · split at h
        · cases hfor : rcaForest g snap ([], [], []) ch st with
          | error e => simp [hfor] at h
          | ok q =>
            obtain ⟨crs, cfs, childMods, st2⟩ := q
            simp only [hfor] at h
            cases h
            exact rcaForest_StExt n T g snap ch ([], [], []) st _ _ _ _
              hfor hst
        · exact Except.noConfusion h
      · cases h
        exact hst

theorem rcaForest_StExt (n : Nat) (T : List AMap) (g : LiveModule)
    (snap : Snapshot) :
    ∀ (ch : SnapForest) (acc : List AVal × List AVal × List Nat) (st : St)
      (crs cfs : List AVal) (ys : List Nat) (st' : St),
      rcaForest g snap acc ch st = .ok (crs, cfs, ys, st') →
      StExt n T st → StExt n T st'
  | .fnil, acc, st, crs, cfs, ys, st', h, hst => by
    simp only [rcaForest] at h
    cases h
    exact hst
  | .fcons child rest, acc, st, crs, cfs, ys, st', h, hst => by
    simp only [rcaForest] at h
    cases hfind : workItemByIdentifier g child.id with
    | none =>
      simp only [hfind] at h
      cases hrca : requirementsCreateActions g snap child st with
      | error e => simp [hrca] at h
      | ok q =>
        obtain ⟨payload, ys2, st2⟩ := q
        simp only [hrca] at h
        exact rcaForest_StExt n T g snap rest _ st2 crs cfs ys st' h
          (rca_StExt n T g snap child st payload ys2 st2 hrca hst)
    | some creq =>
      simp only [hfind] at h
      cases hmod : yieldRequirementsModActions g snap creq child
          "To be created" st with
      | error e => simp [hmod] at h
      | ok q =>
        obtain ⟨ys2, st2⟩ := q
        simp only [hmod] at h
        exact rcaForest_StExt n T g snap rest _ st2 crs cfs ys st' h
          (yrma_StExt n T g snap creq child "To be created" st ys2 st2
            hmod hst)

theorem yrma_StExt (n : Nat) (T : List AMap) (g : LiveModule)
    (snap : Snapshot) :
    ∀ (req : LiveItem) (item : SnapItem) (pu : String) (st : St)
      (ys : List Nat) (st' : St),
      yieldRequirementsModActions g snap req item pu st = .ok (ys, st') →
      StExt n T st → StExt n T st'
  | req, .mk id ln tx ty attrs hc ch, pu, st, ys, st', h, hst => by
    simp only [yieldRequirementsModActions] at h
    cases hal : yrmaAttrLoop g snap req ([], .nil) attrs with
    | error e => simp [hal] at h
    | ok pr =>
      obtain ⟨creations, modifications⟩ := pr
      simp only [hal] at h
      by_cases hpc : req.parentUuid ≠ pu
      · simp only [if_pos hpc] at h
        cases hinv : invalidateDeletion (st.addLoc req.identifier) req.uuid
            req.isFolder with
        | error e => simp [hinv] at h
        | ok st1 =>
          simp only [hinv] at h
          have hs1 : StExt n T st1 :=
            invalidateDeletion_StExt n T _ _ _ _ hinv
              (StExt_addLoc n T st req.identifier hst)
          split at h
          · cases hyc : (if hc = true then
                yrmaChildren g snap req ([], [], [], [], []) ch st1
                else .ok ([], [], [], [], [], st1)) with
            | error e => simp [hyc] at h
            | ok out =>
              obtain ⟨crCre, cfCre, crIds, cfIds, childMods, st2⟩ := out
              simp only [hyc] at h
              have hs2 : StExt n T st2 := by
                split at hyc
                · exact yrmaChildren_StExt n T g snap req ch
                    ([], [], [], [], []) st1 crCre cfCre crIds cfIds
                    childMods st2 hyc hs1
                · cases hyc
                  exact hs1
              exact yrmaFolderFinish_StExt n T g req _ crCre cfCre crIds
                cfIds childMods st2 ys st' h hs2
          · simp only [St.alloc] at h
            cases h
            exact StExt_snoc n T st1 _ hs1
      · simp only [if_neg hpc] at h
        split at h
        · cases hyc : (if hc = true then
              yrmaChildren g snap req ([], [], [], [], []) ch st
              else .ok ([], [], [], [], [], st)) with
          | error e => simp [hyc] at h
          | ok out =>
            obtain ⟨crCre, cfCre, crIds, cfIds, childMods, st2⟩ := out
            simp only [hyc] at h
            have hs2 : StExt n T st2 := by
              split at hyc
              · exact yrmaChildren_StExt n T g snap req ch
                  ([], [], [], [], []) st crCre cfCre crIds cfIds
                  childMods st2 hyc hst
              · cases hyc
                exact hst
            exact yrmaFolderFinish_StExt n T g req _ crCre cfCre crIds
              cfIds childMods st2 ys st' h hs2
        · simp only [St.alloc] at h
          cases h
          exact StExt_snoc n T st _ hst

theorem yrmaChildren_StExt (n : Nat) (T : List AMap) (g : LiveModule)
    (snap : Snapshot) :
    ∀ (req : LiveItem) (ch : SnapForest)
      (acc : List AVal × List AVal × List String × List String × List Nat)
      (st : St) (crCre cfCre : List AVal) (crIds cfIds : List String)
      (mods : List Nat) (st' : St),
      yrmaChildren g snap req acc ch st =
        .ok (crCre, cfCre, crIds, cfIds, mods, st') →
      StExt n T st → StExt n T st'
  | req, .fnil, acc, st, crCre, cfCre, crIds, cfIds, mods, st', h, hst => by
    simp only [yrmaChildren] at h
    cases h
    exact hst
  | req, .fcons child rest, (a1, a2, a3, a4, a5), st, crCre, cfCre, crIds,
      cfIds, mods, st', h, hst => by
    simp only [yrmaChildren] at h
    cases hfind : workItemByIdentifier g child.id with
    | none =>
      simp only [hfind] at h
      cases hrca : requirementsCreateActions g snap child st with
      | error e => simp [hrca] at h
      | ok q =>
        obtain ⟨payload, ys2, st2⟩ := q
        simp only [hrca] at h
        exact yrmaChildren_StExt n T g snap req rest _ st2 crCre cfCre
          crIds cfIds mods st' h
          (rca_StExt n T g snap child st payload ys2 st2 hrca hst)
    | some creq =>
      simp only [hfind] at h
      cases hmod : yieldRequirementsModActions g snap creq child req.uuid
          st with
      | error e => simp [hmod] at h
      | ok q =>
        obtain ⟨ys2, st2⟩ := q
        simp only [hmod] at h
        exact yrmaChildren_StExt n T g snap req rest _ st2 crCre cfCre
          crIds cfIds mods st' h
          (yrma_StExt n T g snap creq child req.uuid st ys2 st2 hmod hst)
end

theorem calcLoop_StExt (n : Nat) (T : List AMap) (g : LiveModule)
    (snap : Snapshot) :
    ∀ (forest : SnapForest) (base : AMap) (visited : List String)
      (ys0 : List Nat) (st : St) (base' : AMap) (visited' : List String)
      (ys : List Nat) (st' : St),
      calcLoop g snap base visited ys0 forest st =
        .ok (base', visited', ys, st') →
      StExt n T st →
      StExt n T st' ∧ ∃ suffix, ys = ys0 ++ suffix
  | .fnil, base, visited, ys0, st, base', visited', ys, st', h, hst => by
    simp only [calcLoop] at h
    cases h
    exact ⟨hst, [], by simp⟩
  | .fcons item rest, base, visited, ys0, st, base', visited', ys, st',
      h, hst => by
    simp only [calcLoop] at h
    cases hfind : workItemByIdentifier g item.id with
    | none =>
      simp only [hfind] at h
      cases hrca : requirementsCreateActions g snap item st with
      | error e => simp [hrca] at h
      | ok q =>
        obtain ⟨payload, mods, st2⟩ := q
        simp only [hrca] at h
        cases haas : addActionSafely base "extend"
            (if item.hasChildren = true then "folders" else "requirements")
            (.map payload) with
        | none => simp [haas] at h
        | some base2 =>
          simp only [haas] at h
          obtain ⟨hst', suffix, hys⟩ :=
            calcLoop_StExt n T g snap rest base2 visited (ys0 ++ mods) st2
              base' visited' ys st' h
              (rca_StExt n T g snap item st payload mods st2 hrca hst)
          exact ⟨hst', mods ++ suffix, by simp [hys]⟩
    | some req =>
      simp only [hfind] at h
      by_cases hpc : req.parentUuid ≠ g.uuid
      · simp only [if_pos hpc] at h
        cases haas : addActionSafely base "extend"
            (if item.hasChildren = true then "folders" else "requirements")
            (.ref (.uuid req.uuid)) with
        | none => simp [haas] at h
        | some base2 =>
          simp only [haas] at h
          cases hinv : invalidateDeletion (st.addLoc req.identifier)
              req.uuid req.isFolder with
          | error e => simp [hinv] at h
          | ok st2 =>
            simp only [hinv] at h
            cases hym : yieldRequirementsModActions g snap req item g.uuid
                st2 with
            | error e => simp [hym] at h
            | ok q =>
              obtain ⟨mods, st3⟩ := q
              simp only [hym] at h
              obtain ⟨hst', suffix, hys⟩ :=
                calcLoop_StExt n T g snap rest base2
                  (visited ++ [req.identifier]) (ys0 ++ mods) st3 base'
                  visited' ys st' h
                  (yrma_StExt n T g snap req item g.uuid st2 mods st3 hym
                    (invalidateDeletion_StExt n T _ _ _ _ hinv
                      (StExt_addLoc n T st req.identifier hst)))
              exact ⟨hst', mods ++ suffix, by simp [hys]⟩
      · simp only [if_neg hpc] at h
        cases hym : yieldRequirementsModActions g snap req item g.uuid
            st with
        | error e => simp [hym] at h
        | ok q =>
          obtain ⟨mods, st3⟩ := q
          simp only [hym] at h
          obtain ⟨hst', suffix, hys⟩ :=
            calcLoop_StExt n T g snap rest base
              (visited ++ [req.identifier]) (ys0 ++ mods) st3 base'
              visited' ys st' h
              (yrma_StExt n T g snap req item g.uuid st mods st3 hym hst)
          exact ⟨hst', mods ++ suffix, by simp [hys]⟩

theorem allocMany_spec : ∀ (st : St) (L : List AMap),
    St.allocMany st L = (List.range' st.heap.length L.length,
      { st with heap := st.heap ++ L })
  | st, [] => by simp [St.allocMany, List.range']
  | st, a :: rest => by
    simp only [St.allocMany, St.alloc]
    rw [allocMany_spec { st with heap := st.heap ++ [a] } rest]
    simp [List.range'_succ, List.append_assoc]

theorem getD_range' : ∀ (T pre rest : List AMap),
    (List.range' pre.length T.length).map
      (fun t => (pre ++ (T ++ rest)).getD t AMap.nil) = T
  | [], pre, rest => rfl
  | a :: T, pre, rest => by
    simp only [List.length_cons, List.range'_succ, List.map_cons]
    have h1 : (pre ++ (a :: T ++ rest)).getD pre.length AMap.nil = a := by
      induction pre with
      | nil => rfl
      | cons b pre ih => simpa using ih
    have h2 := getD_range' T (pre ++ [a]) rest
    simp only [List.length_append, List.length_cons, List.length_nil,
      List.append_assoc, List.cons_append, List.nil_append,
      Nat.zero_add] at h1 h2 ⊢
    rw [h1, h2]

theorem deepUpdate_reqDel_parent (g : LiveModule) (visited : List String)
    (key : String) (b out : AMap)
    (h : deepUpdate b (reqDeleteActions g visited key) = some out) :
    out.lookup "parent" = some (.ref (.uuid g.uuid)) := by
  simp only [reqDeleteActions] at h
  split at h
  · simp only [deepUpdate] at h
    cases h
    exact AMap.lookup_set_self b "parent" _
  · simp only [AMap.ofList, deepUpdate, AMap.isEmpty, Bool.false_eq_true,
      if_false, AMap.set] at h
    cases hl : (b.set "parent" (AVal.ref (.uuid g.uuid))).lookup "delete"
      with
    | none =>
      simp only [hl] at h
      cases h
      rw [AMap.lookup_set_ne _ _ _ _ (by decide)]
      exact AMap.lookup_set_self b "parent" _
    | some v =>
      cases v with
      | map sm =>
        simp only [hl] at h
        cases h
        rw [AMap.lookup_set_ne _ _ _ _ (by decide)]
        exact AMap.lookup_set_self b "parent" _
      | str s => simp [hl] at h
      | int i => simp [hl] at h
      | bool bb => simp [hl] at h
      | float s => simp [hl] at h
      | date s => simp [hl] at h
      | null => simp [hl] at h
      | ref r => simp [hl] at h
      | list xs => simp [hl] at h

/-- **C6.**  With a live types folder present, a successful
`calculate_change` run emits its actions in the claimed order: the
type-system actions (data-type-definition actions, then
requirement-type actions, then the requirement-type deletion action)
form an unmodified prefix, the work-item actions follow, and the only
action that can come after them is the single module-scope action
carrying the module-level deletions, whose parent is the module itself.
Determinism holds by construction: the embedded pipeline is a pure
function of the live graph and the snapshot. -/
theorem c6_type_system_actions_precede_item_actions (g : LiveModule)
    (snap : Snapshot) (tf : LiveTypeFolder) (acts : List AMap)
    (htf : g.reqtFolder = some tf)
    (h : calculateChange g snap = .ok acts) :
    ∃ itemActs modPart,
      acts = typeSystemActions g snap tf ++ itemActs ++ modPart ∧
      typeSystemActions g snap tf =
        yieldDataTypeDefinitionModActions tf snap ++
          yieldRequirementTypeModActions g snap tf ++
          (if !(keysOnlyParent (requirementTypeDeleteActions snap tf)) then
            [requirementTypeDeleteActions snap tf] else []) ∧
      (modPart = [] ∨ ∃ b, modPart = [b] ∧
        b.lookup "parent" = some (.ref (.uuid g.uuid))) := by
  simp only [calculateChange, htf, allocMany_spec, List.length_nil,
    List.nil_append] at h
  cases hcl : calcLoop g snap
      (AMap.cons "parent" (AVal.ref (Ref.uuid g.uuid)) AMap.nil) []
      (List.range' 0 (typeSystemActions g snap tf).length) snap.items
      ⟨typeSystemActions g snap tf, [], []⟩ with
  | error e => simp [hcl] at h
  | ok q =>
    obtain ⟨base, visited, ys, st'⟩ := q
    simp only [hcl] at h
    have hstart : StExt (typeSystemActions g snap tf).length
        (typeSystemActions g snap tf)
        ⟨typeSystemActions g snap tf, [], []⟩ :=
      ⟨List.take_length _, Nat.le_refl _, by intro p hp; simp at hp⟩
    obtain ⟨hstE, suffix, hys⟩ :=
      calcLoop_StExt (typeSystemActions g snap tf).length
        (typeSystemActions g snap tf) g snap snap.items _ _ _ _ _ _ _ _
        hcl hstart
    simp only [calcFinish] at h
    have hheap : st'.heap = typeSystemActions g snap tf ++
        st'.heap.drop (typeSystemActions g snap tf).length := by
      conv_lhs => rw [← List.take_append_drop
        (typeSystemActions g snap tf).length st'.heap]
      rw [hstE.1]
    have hmapys : ys.map st'.resolve =
        typeSystemActions g snap tf ++ suffix.map st'.resolve := by
      rw [hys, List.map_append]
      congr 1
      rw [show st'.resolve = (fun t => (typeSystemActions g snap tf ++
          st'.heap.drop (typeSystemActions g snap tf).length).getD t
          AMap.nil) from by rw [← hheap]; rfl]
      simpa using getD_range' (typeSystemActions g snap tf) []
        (st'.heap.drop (typeSystemActions g snap tf).length)
    rw [hmapys,
      removalPass_append st' _ (kop_typeSystemActions g snap tf) _ _] at h
    cases hrp : removalPass st' (suffix.map st'.resolve) st'.ledger with
    | error e => simp [hrp, Except.map] at h
    | ok itemActs =>
      simp only [hrp, Except.map] at h
      cases hd1 : deepUpdate base (reqDeleteActions g visited
          "requirements") with
      | none => simp [hd1] at h
      | some b1 =>
        simp only [hd1] at h
        cases hd2 : deepUpdate b1 (reqDeleteActions g visited
            "folders") with
        | none => simp [hd2] at h
        | some b2 =>
          simp only [hd2] at h
          cases h
          refine ⟨itemActs, if !(keysOnlyParent b2) then [b2] else [],
            by simp [List.append_assoc], rfl, ?_⟩
          by_cases hkb : keysOnlyParent b2 = true
          · left
            simp [hkb]
          · have hkf : keysOnlyParent b2 = false := by
              revert hkb
              cases keysOnlyParent b2 <;> simp
            right
            exact ⟨b2, by simp [hkf],
              deepUpdate_reqDel_parent g visited "folders" b1 b2 hd2⟩

/-- Witness for C6: the ordering theorem applies to a concrete run with
a live types folder. -/
theorem c6_type_system_actions_precede_item_actions_witness :
    c6g.reqtFolder = some c6tf ∧
    calculateChange c6g c6snap = .ok [] ∧
    (∃ itemActs modPart,
      ([] : List AMap) = typeSystemActions c6g c6snap c6tf ++ itemActs ++
        modPart ∧
      typeSystemActions c6g c6snap c6tf =
        yieldDataTypeDefinitionModActions c6tf c6snap ++
          yieldRequirementTypeModActions c6g c6snap c6tf ++
          (if !(keysOnlyParent (requirementTypeDeleteActions c6snap c6tf))
            then [requirementTypeDeleteActions c6snap c6tf] else []) ∧
      (modPart = [] ∨ ∃ b, modPart = [b] ∧
        b.lookup "parent" = some (.ref (.uuid c6g.uuid)))) :=
  ⟨rfl, rfl,
    c6_type_system_actions_precede_item_actions c6g c6snap c6tf [] rfl rfl⟩

/-! ## Void-freeness of the final action list (C5)

An action can become parent-only after being yielded, when
`_invalidate_deletion` retracts the last reference of its `delete` slot;
the removal scan then deletes it from the list.  The development below
shows that, over a live graph whose items carry pairwise-distinct uuids,
every void action in a *successful* run's list is covered by a surviving
deletion-ledger entry, so the scan removes all of them. -/

theorem getD_append_lt : ∀ (l1 l2 : List AMap) (t : Nat),
    t < l1.length → (l1 ++ l2).getD t AMap.nil = l1.getD t AMap.nil
  | [], _, t, h => absurd h (by simp)
  | b :: l1, l2, 0, _ => rfl
  | b :: l1, l2, t + 1, h => by
    simpa using getD_append_lt l1 l2 t (by simpa using Nat.lt_of_succ_lt_succ h)

theorem getD_append_self : ∀ (pre : List AMap) (a : AMap)
    (rest : List AMap),
    (pre ++ a :: rest).getD pre.length AMap.nil = a
  | [], a, rest => rfl
  | b :: pre, a, rest => by simpa using getD_append_self pre a rest

theorem getD_set_ne : ∀ (l : List AMap) (t0 t : Nat) (a : AMap),
    t ≠ t0 → (l.set t0 a).getD t AMap.nil = l.getD t AMap.nil
  | [], _, _, _, _ => rfl
  | b :: l, 0, 0, a, h => absurd rfl h
  | b :: l, 0, t + 1, a, h => rfl
  | b :: l, t0 + 1, 0, a, h => rfl
  | b :: l, t0 + 1, t + 1, a, h => by
    simpa using getD_set_ne l t0 t a (fun he => h (by rw [he]))

theorem getD_set_self : ∀ (l : List AMap) (t : Nat) (a : AMap),
    t < l.length → (l.set t a).getD t AMap.nil = a
  | [], t, a, h => absurd h (by simp)
  | b :: l, 0, a, _ => rfl
  | b :: l, t + 1, a, h => by
    simpa using getD_set_self l t a (by simpa using Nat.lt_of_succ_lt_succ h)

theorem resolve_append (st : St) (l : List AMap) (t : Nat)
    (ht : t < st.heap.length) :
    ({ st with heap := st.heap ++ l } : St).resolve t = st.resolve t :=
  getD_append_lt st.heap l t ht

theorem resolve_append_last (st : St) (a : AMap) :
    ({ st with heap := st.heap ++ [a] } : St).resolve st.heap.length = a := by
  have h := getD_append_self st.heap a []
  exact h

theorem resolve_setHeap_ne (st : St) (t0 t : Nat) (a : AMap) (h : t ≠ t0) :
    (st.setHeap t0 a).resolve t = st.resolve t :=
  getD_set_ne st.heap t0 t a h

theorem resolve_setHeap_self (st : St) (t0 : Nat) (a : AMap)
    (h : t0 < st.heap.length) : (st.setHeap t0 a).resolve t0 = a :=
  getD_set_self st.heap t0 a h

theorem ledgerLookup_mem_self : ∀ (L : List (String × Nat)) (u : String)
    (t : Nat), ledgerLookup L u = some t → (u, t) ∈ L
  | [], u, t, h => by simp [ledgerLookup] at h
  | (k, v) :: tl, u, t, h => by
    simp only [ledgerLookup] at h
    split at h
    next heq =>
      cases h
      have : k = u := eq_of_beq heq
      subst this
      simp
    next =>
      exact List.mem_cons_of_mem _ (ledgerLookup_mem_self tl u t h)

theorem mem_ledgerSet_preserve : ∀ (L : List (String × Nat)) (u : String)
    (t : Nat) (w : String) (t' : Nat),
    (w, t') ∈ L → w ≠ u → (w, t') ∈ ledgerSet L u t
  | [], u, t, w, t', h, _ => by simp at h
  | (k, v) :: tl, u, t, w, t', h, hne => by
    simp only [ledgerSet]
    split
    next heq =>
      have hk : k = u := eq_of_beq heq
      rcases List.mem_cons.mp h with he | htl
      · cases he
        exact absurd hk hne
      · exact List.mem_cons_of_mem _ htl
    next =>
      rcases List.mem_cons.mp h with he | htl
      · cases he
        simp
      · exact List.mem_cons_of_mem _
          (mem_ledgerSet_preserve tl u t w t' htl hne)

theorem mem_ledgerSet_cases : ∀ (L : List (String × Nat)) (u : String)
    (t : Nat) (q : String × Nat),
    q ∈ ledgerSet L u t → q ∈ L ∨ q = (u, t)
  | [], u, t, q, h => by
    simp only [ledgerSet, List.mem_singleton] at h
    exact Or.inr h
  | (k, v) :: tl, u, t, q, h => by
    simp only [ledgerSet] at h
    split at h
    next heq =>
      have hk : k = u := eq_of_beq heq
      rcases List.mem_cons.mp h with he | htl
      · subst hk
        exact Or.inr he
      · exact Or.inl (List.mem_cons_of_mem _ htl)
    next =>
      rcases List.mem_cons.mp h with he | htl
      · exact Or.inl (by simp [he])
      · rcases mem_ledgerSet_cases tl u t q htl with h1 | h2
        · exact Or.inl (List.mem_cons_of_mem _ h1)
        · exact Or.inr h2

theorem mem_foldl_ledgerSet_preserve (t : Nat) :
    ∀ (rs : List AVal) (L : List (String × Nat)) (w : String) (t' : Nat),
      (w, t') ∈ L → (∀ r ∈ rs, refUuid r ≠ w) →
      (w, t') ∈ rs.foldl (fun L r => ledgerSet L (refUuid r) t) L
  | [], L, w, t', h, _ => h
  | r :: rs, L, w, t', h, hne => by
    simp only [List.foldl_cons]
    exact mem_foldl_ledgerSet_preserve t rs _ w t'
      (mem_ledgerSet_preserve L (refUuid r) t w t' h
        (fun he => hne r (by simp) he.symm))
      (fun r2 hr2 => hne r2 (by simp [hr2]))

theorem mem_foldl_ledgerSet_cases (t : Nat) :
    ∀ (rs : List AVal) (L : List (String × Nat)) (q : String × Nat),
      q ∈ rs.foldl (fun L r => ledgerSet L (refUuid r) t) L →
      q ∈ L ∨ (q.2 = t ∧ ∃ r ∈ rs, refUuid r = q.1)
  | [], L, q, h => Or.inl h
  | r :: rs, L, q, h => by
    simp only [List.foldl_cons] at h
    rcases mem_foldl_ledgerSet_cases t rs _ q h with h1 | h2
    · rcases mem_ledgerSet_cases L (refUuid r) t q h1 with h3 | h4
      · exact Or.inl h3
      · subst h4
        exact Or.inr ⟨rfl, r, by simp⟩
    · exact Or.inr ⟨h2.1, h2.2.choose, by simp [h2.2.choose_spec.1],
        h2.2.choose_spec.2⟩

theorem kop_false_of_deleteRef (a : AMap) (u : String)
    (h : u ∈ deleteRefUuids a) : keysOnlyParent a = false := by
  unfold deleteRefUuids at h
  cases hl : a.lookup "delete" with
  | none =>
    simp only [hl] at h
    simp at h
  | some v =>
    exact keysOnlyParent_false_of_lookup a "delete" v (by decide) hl

theorem kop_false_of_modGate (b : AMap) (h : modGate b = true) :
    keysOnlyParent b = false := by
  unfold modGate at h
  rw [Bool.or_eq_true, Bool.or_eq_true] at h
  rcases h with (hx | hx) | hx
  · obtain ⟨v, hv⟩ := lookup_of_truthy_getD _ _ hx
    exact keysOnlyParent_false_of_lookup _ _ _ (by decide) hv
  · obtain ⟨v, hv⟩ := lookup_of_truthy_getD _ _ hx
    exact keysOnlyParent_false_of_lookup _ _ _ (by decide) hv
  · obtain ⟨v, hv⟩ := lookup_of_truthy_getD _ _ hx
    exact keysOnlyParent_false_of_lookup _ _ _ (by decide) hv

theorem refUuidsL_removeFirst (u : String) :
    ∀ (refs refs2 : AList),
      refs.removeFirst (AVal.ref (.uuid u)) = some refs2 →
      ∀ w ∈ refUuidsL refs, w ≠ u → w ∈ refUuidsL refs2
  | .nil, refs2, h, w, hw, _ => by simp [AList.removeFirst] at h
  | .cons x tl, refs2, h, w, hw, hne => by
    simp only [AList.removeFirst] at h
    split at h
    next heq =>
      have hx : x = AVal.ref (.uuid u) := eq_of_beq heq
      cases h
      subst hx
      simp only [refUuidsL, List.mem_cons] at hw
      rcases hw with rfl | hw2
      · exact absurd rfl hne
      · exact hw2
    next =>
      cases hrf : tl.removeFirst (AVal.ref (.uuid u)) with
      | none =>
        rw [hrf] at h
        exact Option.noConfusion h
      | some tl2 =>
        rw [hrf] at h
        cases h
        cases x with
        | ref r =>
          cases r with
          | uuid u2 =>
            simp only [refUuidsL, List.mem_cons] at hw ⊢
            rcases hw with rfl | hw2
            · exact Or.inl rfl
            · exact Or.inr (refUuidsL_removeFirst u tl tl2 hrf w hw2 hne)
          | uuidObj s =>
            simp only [refUuidsL] at hw ⊢
            exact refUuidsL_removeFirst u tl tl2 hrf w hw hne
          | promise s =>
            simp only [refUuidsL] at hw ⊢
            exact refUuidsL_removeFirst u tl tl2 hrf w hw hne
        | str s =>
          exact refUuidsL_removeFirst u tl tl2 hrf w hw hne
        | int n =>
          exact refUuidsL_removeFirst u tl tl2 hrf w hw hne
        | bool b =>
          exact refUuidsL_removeFirst u tl tl2 hrf w hw hne
        | float s =>
          exact refUuidsL_removeFirst u tl tl2 hrf w hw hne
        | date s =>
          exact refUuidsL_removeFirst u tl tl2 hrf w hw hne
        | null =>
          exact refUuidsL_removeFirst u tl tl2 hrf w hw hne
        | list xs =>
          exact refUuidsL_removeFirst u tl tl2 hrf w hw hne
        | map m =>
          exact refUuidsL_removeFirst u tl tl2 hrf w hw hne

theorem slot_cons_super (k : String) (v : AVal) (tl : AMap) (w : String)
    (h : w ∈ slotRefUuids tl) : w ∈ slotRefUuids (.cons k v tl) := by
  cases v <;> simp [slotRefUuids, h]

theorem slot_set_mem : ∀ (m : AMap) (k : String) (ys : AList) (w : String),
    w ∈ refUuidsL ys → w ∈ slotRefUuids (m.set k (.list ys))
  | .nil, k, ys, w, h => by simpa [AMap.set, slotRefUuids] using h
  | .cons k2 v tl, k, ys, w, h => by
    simp only [AMap.set]
    split
    · simp [slotRefUuids, h]
    · exact slot_cons_super k2 v _ w (slot_set_mem tl k ys w h)

theorem slot_cons_mem_cases (k : String) (v : AVal) (tl : AMap)
    (w : String) (h : w ∈ slotRefUuids (.cons k v tl)) :
    (∃ ys, v = .list ys ∧ w ∈ refUuidsL ys) ∨ w ∈ slotRefUuids tl := by
  cases v with
  | list ys =>
    simp only [slotRefUuids, List.mem_append] at h
    rcases h with h1 | h2
    · exact Or.inl ⟨ys, rfl, h1⟩
    · exact Or.inr h2
  | str s => exact Or.inr h
  | int n => exact Or.inr h
  | bool b => exact Or.inr h
  | float s => exact Or.inr h
  | date s => exact Or.inr h
  | null => exact Or.inr h
  | ref r => exact Or.inr h
  | map mm => exact Or.inr h

theorem slot_set_cases : ∀ (m : AMap) (k : String) (xs : AList) (v : AVal)
    (w : String), m.lookup k = some (.list xs) → w ∈ slotRefUuids m →
    w ∈ refUuidsL xs ∨ w ∈ slotRefUuids (m.set k v)
  | .nil, k, xs, v, w, hl, hw => by simp [AMap.lookup] at hl
  | .cons k2 val tl, k, xs, v, w, hl, hw => by
    simp only [AMap.lookup] at hl
    simp only [AMap.set]
    split at hl
    next heq =>
      cases hl
      rw [if_pos heq]
      simp only [slotRefUuids, List.mem_append] at hw
      rcases hw with h1 | h2
      · exact Or.inl h1
      · exact Or.inr (slot_cons_super k2 v tl w h2)
    next hne =>
      rw [if_neg hne]
      rcases slot_cons_mem_cases k2 val tl w hw with ⟨ys, rfl, h1⟩ | h2
      · exact Or.inr (by simp [slotRefUuids, h1])
      · rcases slot_set_cases tl k xs v w hl h2 with h3 | h4
        · exact Or.inl h3
        · exact Or.inr (slot_cons_super k2 val (tl.set k v) w h4)

theorem slot_erase_cases : ∀ (m : AMap) (k : String) (xs : AList)
    (w : String), m.lookup k = some (.list xs) → w ∈ slotRefUuids m →
    w ∈ refUuidsL xs ∨ w ∈ slotRefUuids (m.erase k)
  | .nil, k, xs, w, hl, hw => by simp [AMap.lookup] at hl
  | .cons k2 val tl, k, xs, w, hl, hw => by
    simp only [AMap.lookup] at hl
    simp only [AMap.erase]
    split at hl
    next heq =>
      cases hl
      rw [if_pos heq]
      simp only [slotRefUuids, List.mem_append] at hw
      rcases hw with h1 | h2
      · exact Or.inl h1
      · exact Or.inr h2
    next hne =>
      rw [if_neg hne]
      rcases slot_cons_mem_cases k2 val tl w hw with ⟨ys, rfl, h1⟩ | h2
      · exact Or.inr (by simp [slotRefUuids, h1])
      · rcases slot_erase_cases tl k xs w hl h2 with h3 | h4
        · exact Or.inl h3
        · exact Or.inr (slot_cons_super k2 val (tl.erase k) w h4)

theorem AList.isEmptyL_eq_nil : ∀ (l : AList), l.isEmpty = true → l = .nil
  | .nil, _ => rfl
  | .cons _ _, h => by simp [AList.isEmpty] at h

theorem AMap.isEmptyM_eq_nil : ∀ (m : AMap), m.isEmpty = true → m = .nil
  | .nil, _ => rfl
  | .cons _ _ _, h => by simp [AMap.isEmpty] at h

theorem AMap.set_isEmpty_false : ∀ (m : AMap) (k : String) (v : AVal),
    (m.set k v).isEmpty = false
  | .nil, k, v => rfl
  | .cons k2 w tl, k, v => by
    simp only [AMap.set]
    split <;> rfl

/-- What `_invalidate_deletion` does to the state: either nothing, or it
rewrites the heap cell of the ledger entry recorded for `u`, keeping
every delete-reference other than `u`'s. -/
theorem invalidateDeletion_spec (st : St) (u : String) (f : Bool)
    (st' : St) (h : invalidateDeletion st u f = .ok st') :
    st' = st ∨
    ∃ t0 a2, (u, t0) ∈ st.ledger ∧ st' = st.setHeap t0 a2 ∧
      ∀ w ∈ deleteRefUuids (st.resolve t0), w ≠ u →
        w ∈ deleteRefUuids a2 := by
  simp only [invalidateDeletion] at h
  cases hll : ledgerLookup st.ledger u with
  | none =>
    simp only [hll] at h
    cases h
    exact Or.inl rfl
  | some t0 =>
    simp only [hll] at h
    have hmem := ledgerLookup_mem_self _ _ _ hll
    split at h
    next =>
      cases h
      exact Or.inl rfl
    next dels hdel =>
      split at h
      next =>
        cases h
        exact Or.inl rfl
      next refs hrefs =>
        split at h
        next => exact Except.noConfusion h
        next refs2 hrf =>
          by_cases hre : refs2.isEmpty = true
          · rw [if_pos hre] at h
            have hrnil := AList.isEmptyL_eq_nil refs2 hre
            subst hrnil
            by_cases hde : (dels.erase (if f = true then "folders"
                else "requirements")).isEmpty = true
            · rw [if_pos hde] at h
              cases h
              refine Or.inr ⟨t0, _, hmem, rfl, ?_⟩
              intro w hw hne
              have hwslots : w ∈ slotRefUuids dels := by
                unfold deleteRefUuids at hw
                simp only [hdel] at hw
                exact hw
              rcases slot_erase_cases dels _ refs w hrefs hwslots with
                h1 | h2
              · have h3 := refUuidsL_removeFirst u refs .nil hrf w h1 hne
                simp [refUuidsL] at h3
              · rw [AMap.isEmptyM_eq_nil _ hde] at h2
                simp [slotRefUuids] at h2
            · rw [if_neg hde] at h
              cases h
              refine Or.inr ⟨t0, _, hmem, rfl, ?_⟩
              intro w hw hne
              have hwslots : w ∈ slotRefUuids dels := by
                unfold deleteRefUuids at hw
                simp only [hdel] at hw
                exact hw
              simp only [deleteRefUuids, AMap.lookup_set_self]
              rcases slot_erase_cases dels _ refs w hrefs hwslots with
                h1 | h2
              · have h3 := refUuidsL_removeFirst u refs .nil hrf w h1 hne
                simp [refUuidsL] at h3
              · exact h2
          · rw [if_neg hre] at h
            rw [if_neg (by
              simp [AMap.set_isEmpty_false])] at h
            cases h
            refine Or.inr ⟨t0, _, hmem, rfl, ?_⟩
            intro w hw hne
            have hwslots : w ∈ slotRefUuids dels := by
              unfold deleteRefUuids at hw
              simp only [hdel] at hw
              exact hw
            simp only [deleteRefUuids, AMap.lookup_set_self]
            rcases slot_set_cases dels _ refs (.list refs2) w hrefs
              hwslots with h1 | h2
            · exact slot_set_mem dels _ refs2 w
                (refUuidsL_removeFirst u refs refs2 hrf w h1 hne)
            · exact h2
      next v hv =>
        exact Except.noConfusion h
    next v hv =>
      exact Except.noConfusion h

theorem contains_mem : ∀ (l : List String) (x : String),
    l.contains x = true → x ∈ l := by
  intro l x h
  simpa using h

theorem not_mem_of_contains_false (l : List String) (x : String)
    (h : l.contains x = false) : x ∉ l := by
  intro hx
  rw [(by simpa using hx : l.contains x = true)] at h
  exact Bool.noConfusion h

theorem refUuidsL_ofList_mem : ∀ (dels : List AVal) (w : String),
    (AVal.ref (.uuid w)) ∈ dels → w ∈ refUuidsL (AList.ofList dels)
  | [], w, h => by simp at h
  | r :: dels, w, h => by
    rcases List.mem_cons.mp h with rfl | h2
    · simp [AList.ofList, refUuidsL]
    · cases r with
      | ref rr =>
        cases rr with
        | uuid u2 =>
          simp only [AList.ofList, refUuidsL, List.mem_cons]
          exact Or.inr (refUuidsL_ofList_mem dels w h2)
        | uuidObj s => exact refUuidsL_ofList_mem dels w h2
        | promise s => exact refUuidsL_ofList_mem dels w h2
      | str s => exact refUuidsL_ofList_mem dels w h2
      | int n => exact refUuidsL_ofList_mem dels w h2
      | bool b => exact refUuidsL_ofList_mem dels w h2
      | float s => exact refUuidsL_ofList_mem dels w h2
      | date s => exact refUuidsL_ofList_mem dels w h2
      | null => exact refUuidsL_ofList_mem dels w h2
      | list xs => exact refUuidsL_ofList_mem dels w h2
      | map m => exact refUuidsL_ofList_mem dels w h2

theorem slot_lookup_mem : ∀ (m : AMap) (k : String) (ys : AList)
    (w : String), m.lookup k = some (.list ys) → w ∈ refUuidsL ys →
    w ∈ slotRefUuids m
  | .nil, k, ys, w, hl, _ => by simp [AMap.lookup] at hl
  | .cons k2 val tl, k, ys, w, hl, hw => by
    simp only [AMap.lookup] at hl
    split at hl
    next =>
      cases hl
      simp [slotRefUuids, hw]
    next =>
      exact slot_cons_super k2 val tl w (slot_lookup_mem tl k ys w hl hw)

theorem mRDA_mem (g : LiveModule) (req : LiveItem)
    (childIds : List String) (key : String) (r : AVal)
    (h : r ∈ makeRequirementDeleteActions g req childIds key) :
    ∃ c, c ∈ g.items ∧ r = AVal.ref (.uuid c.uuid) ∧
      childIds.contains c.identifier = false := by
  simp only [makeRequirementDeleteActions, liveChildren] at h
  rcases List.mem_filterMap.mp h with ⟨c, hc, hr⟩
  have hcg : c ∈ g.items := List.mem_of_mem_filter hc
  split at hr
  · exact Option.noConfusion hr
  next hcont =>
    cases hr
    refine ⟨c, hcg, rfl, ?_⟩
    cases hx : childIds.contains c.identifier
    · rfl
    · exact absurd hx hcont

theorem addLoc_heap (st : St) (id : String) :
    (st.addLoc id).heap = st.heap := by
  unfold St.addLoc
  split <;> rfl

theorem addLoc_ledger (st : St) (id : String) :
    (st.addLoc id).ledger = st.ledger := by
  unfold St.addLoc
  split <;> rfl

theorem addLoc_locSub (st : St) (id : String) :
    ∀ x ∈ st.locChanged, x ∈ (st.addLoc id).locChanged := by
  intro x hx
  unfold St.addLoc
  split
  · exact hx
  · simp [hx]

theorem addLoc_locMem (st : St) (id : String) :
    id ∈ (st.addLoc id).locChanged := by
  unfold St.addLoc
  split
  next hc => exact contains_mem _ _ hc
  next => simp

theorem deepUpdate_nonmap : ∀ (dm sm : AMap), noMapVals dm = true →
    deepUpdate sm dm = some (setAll sm dm)
  | .nil, sm, _ => rfl
  | .cons k v tl, sm, h => by
    cases v with
    | map m => simp [noMapVals] at h
    | str s => exact deepUpdate_nonmap tl _ h
    | int n => exact deepUpdate_nonmap tl _ h
    | bool b => exact deepUpdate_nonmap tl _ h
    | float s => exact deepUpdate_nonmap tl _ h
    | date s => exact deepUpdate_nonmap tl _ h
    | null => exact deepUpdate_nonmap tl _ h
    | ref r => exact deepUpdate_nonmap tl _ h
    | list xs => exact deepUpdate_nonmap tl _ h

theorem setAll_lookup_notin : ∀ (dm sm : AMap) (k : String),
    k ∉ dm.keys → (setAll sm dm).lookup k = sm.lookup k
  | .nil, sm, k, _ => rfl
  | .cons k1 v1 tl, sm, k, h => by
    simp only [AMap.keys, List.mem_cons] at h
    push_neg at h
    rw [setAll, setAll_lookup_notin tl _ k h.2,
      AMap.lookup_set_ne _ _ _ _ h.1]

theorem setAll_lookup : ∀ (dm sm : AMap) (k : String) (v : AVal),
    dm.keys.Nodup → dm.lookup k = some v →
    (setAll sm dm).lookup k = some v
  | .nil, sm, k, v, _, hl => by simp [AMap.lookup] at hl
  | .cons k1 v1 tl, sm, k, v, hnd, hl => by
    simp only [AMap.lookup] at hl
    split at hl
    next heq =>
      cases hl
      have hk : k1 = k := eq_of_beq heq
      subst hk
      have hni : k1 ∉ tl.keys := by
        simp only [AMap.keys, List.nodup_cons] at hnd
        exact hnd.1
      rw [setAll, setAll_lookup_notin tl _ k1 hni, AMap.lookup_set_self]
    next =>
      have hnd2 : tl.keys.Nodup := by
        simp only [AMap.keys, List.nodup_cons] at hnd
        exact hnd.2
      rw [setAll]
      exact setAll_lookup tl _ k v hnd2 hl

theorem deepUpdate_delete_refs (b1 dm b2 : AMap) (w : String)
    (k : String) (ys : AList)
    (hne : dm.isEmpty = false) (hnm : noMapVals dm = true)
    (hnd : dm.keys.Nodup)
    (hk : dm.lookup k = some (.list ys)) (hw : w ∈ refUuidsL ys)
    (h : deepUpdate b1 (.cons "delete" (.map dm) .nil) = some b2) :
    w ∈ deleteRefUuids b2 := by
  simp only [deepUpdate, hne, Bool.false_eq_true, if_false] at h
  cases hl : b1.lookup "delete" with
  | none =>
    simp only [hl, deepUpdate_nonmap dm AMap.nil hnm, deepUpdate] at h
    cases h
    simp only [deleteRefUuids, AMap.lookup_set_self]
    exact slot_lookup_mem _ k ys w (setAll_lookup dm _ k _ hnd hk) hw
  | some v =>
    cases v with
    | map sm =>
      simp only [hl, deepUpdate_nonmap dm sm hnm, deepUpdate] at h
      cases h
      simp only [deleteRefUuids, AMap.lookup_set_self]
      exact slot_lookup_mem _ k ys w (setAll_lookup dm _ k _ hnd hk) hw
    | str s => simp [hl] at h
    | int n => simp [hl] at h
    | bool bb => simp [hl] at h
    | float s => simp [hl] at h
    | date s => simp [hl] at h
    | null => simp [hl] at h
    | ref r => simp [hl] at h
    | list xs => simp [hl] at h

theorem StepOut_id (g : LiveModule) (st : St) (hs : SInv g st) :
    StepOut g st st [] :=
  ⟨Nat.le_refl _, hs, List.nodup_nil, by simp, fun _ hY => hY,
    by constructor <;> simp⟩

theorem StepOut_comp (g : LiveModule) (st st1 st2 : St)
    (a b : List Nat) (h1 : StepOut g st st1 a)
    (h2 : StepOut g st1 st2 b) : StepOut g st st2 (a ++ b) := by
  obtain ⟨l1, s1, n1, lo1, pr1, y1⟩ := h1
  obtain ⟨l2, s2, n2, lo2, pr2, y2⟩ := h2
  have ya2 : YInv0 st2 a := pr2 a y1
  refine ⟨Nat.le_trans l1 l2, s2, ?_, ?_, fun Y hY => pr2 Y (pr1 Y hY), ?_⟩
  · refine List.Nodup.append n1 n2 ?_
    intro t hta htb
    have h3 : t < st1.heap.length := y1.1 t hta
    have h4 : st1.heap.length ≤ t := lo2 t htb
    omega
  · intro t ht
    rcases List.mem_append.mp ht with h3 | h4
    · exact lo1 t h3
    · exact Nat.le_trans l1 (lo2 t h4)
  · constructor
    · intro t ht
      rcases List.mem_append.mp ht with h3 | h4
      · exact ya2.1 t h3
      · exact y2.1 t h4
    · intro t ht hv
      rcases List.mem_append.mp ht with h3 | h4
      · exact ya2.2 t h3 hv
      · exact y2.2 t h4 hv

theorem StepOut_swap (g : LiveModule) (st st' : St) (a b : List Nat)
    (h : StepOut g st st' (a ++ b)) : StepOut g st st' (b ++ a) := by
  obtain ⟨l1, s1, n1, lo1, pr1, y1⟩ := h
  refine ⟨l1, s1, (List.perm_append_comm).nodup n1, ?_, pr1, ?_, ?_⟩
  · intro t ht
    exact lo1 t (List.mem_append.mpr (List.mem_append.mp ht).symm)
  · intro t ht
    exact y1.1 t (List.mem_append.mpr (List.mem_append.mp ht).symm)
  · intro t ht
    exact y1.2 t (List.mem_append.mpr (List.mem_append.mp ht).symm)

theorem addLoc_resolve (st : St) (id : String) (t : Nat) :
    (st.addLoc id).resolve t = st.resolve t := by
  unfold St.resolve
  rw [addLoc_heap]

theorem StepOut_addLoc (g : LiveModule) (st : St) (id : String)
    (hs : SInv g st) : StepOut g st (st.addLoc id) [] := by
  refine ⟨by rw [addLoc_heap], ?_, List.nodup_nil, by simp, ?_,
    by constructor <;> simp⟩
  · intro p hp
    rw [addLoc_ledger] at hp
    obtain ⟨hlen, hd⟩ := hs p hp
    rw [addLoc_heap]
    refine ⟨hlen, ?_⟩
    rcases hd with h1 | h2
    · left
      rw [addLoc_resolve]
      exact h1
    · right
      obtain ⟨it, h3, h4, h5⟩ := h2
      exact ⟨it, h3, h4, addLoc_locSub st id _ h5⟩
  · intro Y hY
    obtain ⟨hb, hc⟩ := hY
    constructor
    · intro t ht
      rw [addLoc_heap]
      exact hb t ht
    · intro t ht hv
      rw [addLoc_resolve] at hv
      rw [addLoc_ledger]
      exact hc t ht hv

theorem StepOut_invalidate (g : LiveModule) (st : St) (u : String)
    (f : Bool) (st' : St)
    (h : invalidateDeletion st u f = .ok st')
    (hu : ∃ it, it ∈ g.items ∧ it.uuid = u ∧ it.identifier ∈ st.locChanged)
    (hs : SInv g st) : StepOut g st st' [] := by
  rcases invalidateDeletion_spec st u f st' h with rfl |
    ⟨t0, a2, hm, rfl, hkeep⟩
  · exact StepOut_id g _ hs
  · have ht0len : t0 < st.heap.length := (hs (u, t0) hm).1
    refine ⟨by simp [St.setHeap], ?_, List.nodup_nil, by simp, ?_,
      by constructor <;> simp⟩
    · intro p hp
      obtain ⟨hlen, hd⟩ := hs p hp
      refine ⟨by simpa [St.setHeap] using hlen, ?_⟩
      by_cases hpt : p.2 = t0
      · rcases hd with h1 | h2
        · by_cases hpu : p.1 = u
          · right
            obtain ⟨it, h3, h4, h5⟩ := hu
            exact ⟨it, h3, by rw [h4, hpu], h5⟩
          · left
            rw [hpt, resolve_setHeap_self st t0 a2 ht0len]
            rw [hpt] at h1
            exact hkeep p.1 h1 hpu
        · exact Or.inr h2
      · rcases hd with h1 | h2
        · left
          rw [resolve_setHeap_ne st t0 p.2 a2 hpt]
          exact h1
        · exact Or.inr h2
    · intro Y hY
      obtain ⟨hb, hc⟩ := hY
      constructor
      · intro t ht
        simpa [St.setHeap] using hb t ht
      · intro t ht hv
        by_cases htt : t = t0
        · exact ⟨u, by rw [htt]; exact hm⟩
        · rw [resolve_setHeap_ne st t0 t a2 htt] at hv
          exact hc t ht hv

theorem StepOut_alloc_yield (g : LiveModule) (st : St) (a : AMap)
    (hs : SInv g st) :
    StepOut g st { st with heap := st.heap ++ [a] }
      (if modGate a then [st.heap.length] else []) := by
  refine ⟨by simp, ?_, ?_, ?_, ?_, ?_⟩
  · intro p hp
    obtain ⟨hlen, hd⟩ := hs p hp
    refine ⟨by simp only [List.length_append, List.length_cons,
      List.length_nil]; omega, ?_⟩
    rcases hd with h1 | h2
    · left
      rw [show ({ st with heap := st.heap ++ [a] } : St).resolve p.2
          = st.resolve p.2 from resolve_append st [a] p.2 hlen]
      exact h1
    · exact Or.inr h2
  · split <;> simp
  · intro t ht
    split at ht
    · rcases List.mem_singleton.mp ht with rfl
      exact Nat.le_refl _
    · simp at ht
  · intro Y hY
    obtain ⟨hb, hc⟩ := hY
    constructor
    · intro t ht
      have := hb t ht
      simp only [List.length_append, List.length_cons, List.length_nil]
      omega
    · intro t ht hv
      rw [resolve_append st [a] t (hb t ht)] at hv
      exact hc t ht hv
  · constructor
    · intro t ht
      split at ht
      · rcases List.mem_singleton.mp ht with rfl
        simp
      · simp at ht
    · intro t ht hv
      split at ht
      next hg =>
        rcases List.mem_singleton.mp ht with rfl
        rw [resolve_append_last st a, kop_false_of_modGate a hg] at hv
        exact Bool.noConfusion hv
      next => simp at ht

theorem folderFinish_StepOut_core (g : LiveModule) (st : St)
    (base2 : AMap) (dels : List AVal)
    (hwf : (g.items.map LiveItem.uuid).Nodup)
    (hs : SInv g st)
    (hdelc : ∀ r ∈ dels, ∃ c, c ∈ g.items ∧ r = AVal.ref (.uuid c.uuid) ∧
      c.identifier ∉ st.locChanged)
    (hdelin : ∀ r ∈ dels, refUuid r ∈ deleteRefUuids base2) :
    StepOut g st
      { heap := st.heap ++ [base2],
        ledger := dels.foldl (fun L r => ledgerSet L (refUuid r)
          st.heap.length) st.ledger,
        locChanged := st.locChanged }
      (if modGate base2 then [st.heap.length] else []) := by
  have hresold : ∀ t, t < st.heap.length →
      ({ heap := st.heap ++ [base2],
         ledger := dels.foldl
           (fun L r => ledgerSet L (refUuid r) st.heap.length) st.ledger,
         locChanged := st.locChanged } : St).resolve t = st.resolve t :=
    fun t ht => getD_append_lt st.heap [base2] t ht
  have hresnew :
      ({ heap := st.heap ++ [base2],
         ledger := dels.foldl
           (fun L r => ledgerSet L (refUuid r) st.heap.length) st.ledger,
         locChanged := st.locChanged } : St).resolve st.heap.length =
      base2 :=
    getD_append_self st.heap base2 []
  refine ⟨by simp, ?_, ?_, ?_, ?_, ?_⟩
  · intro p hp
    rcases mem_foldl_ledgerSet_cases st.heap.length dels st.ledger p hp
      with hold | ⟨hpt, r, hrm, hru⟩
    · obtain ⟨hlen, hd⟩ := hs p hold
      refine ⟨by simp only [List.length_append, List.length_cons,
        List.length_nil]; omega, ?_⟩
      rcases hd with h1 | h2
      · left
        rw [hresold p.2 hlen]
        exact h1
      · exact Or.inr h2
    · refine ⟨by simp [hpt], Or.inl ?_⟩
      rw [hpt, hresnew, ← hru]
      exact hdelin r hrm
  · split <;> simp
  · intro t ht
    split at ht
    · rcases List.mem_singleton.mp ht with rfl
      exact Nat.le_refl _
    · simp at ht
  · intro Y hY
    obtain ⟨hb, hc⟩ := hY
    constructor
    · intro t ht
      have := hb t ht
      simp only [List.length_append, List.length_cons, List.length_nil]
      omega
    · intro t ht hv
      rw [hresold t (hb t ht)] at hv
      obtain ⟨u0, hu0⟩ := hc t ht hv
      by_cases hall : ∀ r ∈ dels, refUuid r ≠ u0
      · exact ⟨u0, mem_foldl_ledgerSet_preserve st.heap.length dels
          st.ledger u0 t hu0 hall⟩
      · exfalso
        push_neg at hall
        obtain ⟨r, hrm, hru⟩ := hall
        obtain ⟨c, hcg, hrc, hcl⟩ := hdelc r hrm
        have hcu : c.uuid = u0 := by
          rw [hrc] at hru
          exact hru
        obtain ⟨_, hd⟩ := hs (u0, t) hu0
        rcases hd with h1 | h2
        · rw [kop_false_of_deleteRef _ _ h1] at hv
          exact Bool.noConfusion hv
        · obtain ⟨it, hitg, hitu, hitl⟩ := h2
          have : it = c := List.inj_on_of_nodup_map hwf hitg hcg
            (by rw [hitu, hcu])
          rw [this] at hitl
          exact hcl hitl
  · constructor
    · intro t ht
      split at ht
      · rcases List.mem_singleton.mp ht with rfl
        simp
      · simp at ht
    · intro t ht hv
      split at ht
      next hg =>
        rcases List.mem_singleton.mp ht with rfl
        rw [hresnew, kop_false_of_modGate base2 hg] at hv
        exact Bool.noConfusion hv
      next => simp at ht

theorem yrmaFolderFinish_StepOut (g : LiveModule) (req : LiveItem)
    (base : AMap) (crCre cfCre : List AVal) (crIds cfIds : List String)
    (childMods : List Nat) (st : St) (ts : List Nat) (st' : St)
    (hwf : (g.items.map LiveItem.uuid).Nodup)
    (h : yrmaFolderFinish g req base crCre cfCre crIds cfIds childMods st
      = .ok (ts, st'))
    (hs : SInv g st) :
    ∃ gateT, ts = gateT ++ childMods ∧ StepOut g st st' gateT := by
  simp only [yrmaFolderFinish, St.alloc] at h
  split at h
  · exact Except.noConfusion h
  next base1 hb1 =>
    split at h
    · exact Except.noConfusion h
    next base2 hb2 =>
      cases h
      refine ⟨_, rfl, ?_⟩
      have hdelc : ∀ r ∈ (makeRequirementDeleteActions g req
          (crIds ++ st.locChanged) "requirements" ++
          makeRequirementDeleteActions g req (cfIds ++ st.locChanged)
          "folders"),
          ∃ c, c ∈ g.items ∧ r = AVal.ref (.uuid c.uuid) ∧
            c.identifier ∉ st.locChanged := by
        intro r hr
        rcases List.mem_append.mp hr with h1 | h1
        · obtain ⟨c, hcg, hrc, hcont⟩ := mRDA_mem _ _ _ _ _ h1
          exact ⟨c, hcg, hrc, fun hx => not_mem_of_contains_false _ _
            hcont (List.mem_append.mpr (Or.inr hx))⟩
        · obtain ⟨c, hcg, hrc, hcont⟩ := mRDA_mem _ _ _ _ _ h1
          exact ⟨c, hcg, hrc, fun hx => not_mem_of_contains_false _ _
            hcont (List.mem_append.mpr (Or.inr hx))⟩
      have hdelin : ∀ r ∈ (makeRequirementDeleteActions g req
          (crIds ++ st.locChanged) "requirements" ++
          makeRequirementDeleteActions g req (cfIds ++ st.locChanged)
          "folders"), refUuid r ∈ deleteRefUuids base2 := by
        intro r hr
        rcases List.mem_append.mp hr with h1 | h1
        · have hRDne : (makeRequirementDeleteActions g req
              (crIds ++ st.locChanged) "requirements").isEmpty = false := by
            cases hx : makeRequirementDeleteActions g req
                (crIds ++ st.locChanged) "requirements" with
            | nil =>
              rw [hx] at h1
              simp at h1
            | cons a l => rfl
          simp only [hRDne, Bool.not_false, if_true,
            AMap.set_isEmpty_false] at hb2
          obtain ⟨c, hcg, hrc, _⟩ := mRDA_mem _ _ _ _ _ h1
          subst hrc
          refine deepUpdate_delete_refs base1 _ base2 c.uuid
            "requirements" _ (AMap.set_isEmpty_false _ _ _) ?_ ?_
            (AMap.lookup_set_self _ _ _) ?_ hb2
          · split <;> simp [AMap.set, noMapVals]
          · split <;> simp [AMap.set, AMap.keys]
          · exact refUuidsL_ofList_mem _ c.uuid h1
        · have hFDne : (makeRequirementDeleteActions g req
              (cfIds ++ st.locChanged) "folders").isEmpty = false := by
            cases hx : makeRequirementDeleteActions g req
                (cfIds ++ st.locChanged) "folders" with
            | nil =>
              rw [hx] at h1
              simp at h1
            | cons a l => rfl
          simp only [hFDne, Bool.not_false, if_true] at hb2
          obtain ⟨c, hcg, hrc, _⟩ := mRDA_mem _ _ _ _ _ h1
          subst hrc
          by_cases hRD : (makeRequirementDeleteActions g req
              (crIds ++ st.locChanged) "requirements").isEmpty = true
          · simp only [hRD, Bool.not_true, Bool.false_eq_true, if_false,
              AMap.isEmpty, Bool.not_false, if_true] at hb2
            refine deepUpdate_delete_refs base1 _ base2 c.uuid
              "folders" (AList.ofList (makeRequirementDeleteActions g req
                (cfIds ++ st.locChanged) "folders")) ?_ ?_ ?_ ?_ ?_ hb2
            · rfl
            · rfl
            · simp [AMap.keys]
            · simp [AMap.lookup]
            · exact refUuidsL_ofList_mem _ c.uuid h1
          · have hRDf : (makeRequirementDeleteActions g req
                (crIds ++ st.locChanged) "requirements").isEmpty
                = false := by
              cases hx : (makeRequirementDeleteActions g req
                  (crIds ++ st.locChanged) "requirements").isEmpty
              · rfl
              · exact absurd hx hRD
            simp only [hRDf, Bool.not_false, if_true,
              AMap.set_isEmpty_false] at hb2
            refine deepUpdate_delete_refs base1 _ base2 c.uuid
              "folders" (AList.ofList (makeRequirementDeleteActions g req
                (cfIds ++ st.locChanged) "folders"))
              (AMap.set_isEmpty_false _ _ _) ?_ ?_ ?_ ?_ hb2
            · simp [AMap.set, noMapVals]
            · simp [AMap.set, AMap.keys]
            · rw [AMap.lookup_set_ne _ _ _ _ (by decide)]
              simp [AMap.lookup]
            · exact refUuidsL_ofList_mem _ c.uuid h1
      exact folderFinish_StepOut_core g st base2 _ hwf hs hdelc hdelin

mutual
theorem rca_StepOut (g : LiveModule) (snap : Snapshot)
    (hwf : (g.items.map LiveItem.uuid).Nodup) :
    ∀ (item : SnapItem) (st : St) (p : AMap) (ys2 : List Nat) (st' : St),
      requirementsCreateActions g snap item st = .ok (p, ys2, st') →
      SInv g st → StepOut g st st' ys2
  | .mk id ln tx ty attrs hc ch, st, p, ys2, st', h, hs => by
    simp only [requirementsCreateActions] at h
    cases hal : rcaAttrLoop g snap ty ([], false) attrs with
    | error e => simp [hal] at h
    | ok pr =>
      obtain ⟨attributes, folderHint⟩ := pr
      simp only [hal] at h
      split at h
      · split at h
        · cases hfor : rcaForest g snap ([], [], []) ch st with
          | error e => simp [hfor] at h
          | ok q =>
            obtain ⟨crs, cfs, childMods, st2⟩ := q
            simp only [hfor] at h
            cases h
            obtain ⟨newYs, hys, hstep⟩ :=
              rcaForest_StepOut g snap hwf ch ([], [], []) st _ _ _ _
                hfor hs
            rw [hys]
            simpa using hstep
        · exact Except.noConfusion h
      · cases h
        exact StepOut_id g st hs

theorem rcaForest_StepOut (g : LiveModule) (snap : Snapshot)
    (hwf : (g.items.map LiveItem.uuid).Nodup) :
    ∀ (ch : SnapForest) (acc : List AVal × List AVal × List Nat) (st : St)
      (crs cfs : List AVal) (ys2 : List Nat) (st' : St),
      rcaForest g snap acc ch st = .ok (crs, cfs, ys2, st') →
      SInv g st →
      ∃ newYs, ys2 = acc.2.2 ++ newYs ∧ StepOut g st st' newYs
  | .fnil, acc, st, crs, cfs, ys2, st', h, hs => by
    simp only [rcaForest] at h
    cases h
    exact ⟨[], by simp, StepOut_id g st hs⟩
  | .fcons child rest, acc, st, crs, cfs, ys2, st', h, hs => by
    simp only [rcaForest] at h
    cases hfind : workItemByIdentifier g child.id with
    | none =>
      simp only [hfind] at h
      cases hrca : requirementsCreateActions g snap child st with
      | error e => simp [hrca] at h
      | ok q =>
        obtain ⟨payload, ysA, st2⟩ := q
        simp only [hrca] at h
        have hstepA : StepOut g st st2 ysA :=
          rca_StepOut g snap hwf child st payload ysA st2 hrca hs
        obtain ⟨newYs, hys, hstepB⟩ :=
          rcaForest_StepOut g snap hwf rest _ st2 crs cfs ys2 st' h
            hstepA.2.1
        refine ⟨ysA ++ newYs, ?_,
          StepOut_comp g st st2 st' ysA newYs hstepA hstepB⟩
        rw [hys]
        split <;> simp
    | some creq =>
      simp only [hfind] at h
      have hcreq : creq ∈ g.items := List.mem_of_find?_eq_some hfind
      cases hmod : yieldRequirementsModActions g snap creq child
          "To be created" st with
      | error e => simp [hmod] at h
      | ok q =>
        obtain ⟨ysA, st2⟩ := q
        simp only [hmod] at h
        have hstepA : StepOut g st st2 ysA :=
          yrma_StepOut g snap hwf creq child "To be created" st ysA st2
            hmod hcreq hs
        obtain ⟨newYs, hys, hstepB⟩ :=
          rcaForest_StepOut g snap hwf rest _ st2 crs cfs ys2 st' h
            hstepA.2.1
        refine ⟨ysA ++ newYs, ?_,
          StepOut_comp g st st2 st' ysA newYs hstepA hstepB⟩
        rw [hys]
        split <;> simp

theorem yrma_StepOut (g : LiveModule) (snap : Snapshot)
    (hwf : (g.items.map LiveItem.uuid).Nodup) :
    ∀ (req : LiveItem) (item : SnapItem) (pu : String) (st : St)
      (ys2 : List Nat) (st' : St),
      yieldRequirementsModActions g snap req item pu st = .ok (ys2, st') →
      req ∈ g.items → SInv g st → StepOut g st st' ys2
  | req, .mk id ln tx ty attrs hc ch, pu, st, ys2, st', h, hreq, hs => by
    simp only [yieldRequirementsModActions] at h
    cases hal : yrmaAttrLoop g snap req ([], .nil) attrs with
    | error e => simp [hal] at h
    | ok pr =>
      obtain ⟨creations, modifications⟩ := pr
      simp only [hal] at h
      by_cases hpc : req.parentUuid ≠ pu
      · simp only [if_pos hpc] at h
        cases hinv : invalidateDeletion (st.addLoc req.identifier)
            req.uuid req.isFolder with
        | error e => simp [hinv] at h
        | ok st1 =>
          simp only [hinv] at h
          have hstep0 : StepOut g st st1 [] := by
            have h1 := StepOut_addLoc g st req.identifier hs
            have h2 := StepOut_invalidate g (st.addLoc req.identifier)
              req.uuid req.isFolder st1 hinv
              ⟨req, hreq, rfl, addLoc_locMem st req.identifier⟩ h1.2.1
            simpa using StepOut_comp g st _ st1 [] [] h1 h2
          split at h
          · cases hyc : (if hc = true then
                yrmaChildren g snap req ([], [], [], [], []) ch st1
                else .ok ([], [], [], [], [], st1)) with
            | error e => simp [hyc] at h
            | ok out =>
              obtain ⟨crCre, cfCre, crIds, cfIds, childMods, st2⟩ := out
              simp only [hyc] at h
              have hstep1 : StepOut g st1 st2 childMods := by
                split at hyc
                · obtain ⟨newYs, hys, hstepC⟩ :=
                    yrmaChildren_StepOut g snap hwf req ch
                      ([], [], [], [], []) st1 _ _ _ _ _ _ hyc hstep0.2.1
                  rw [hys]
                  simpa using hstepC
                · cases hyc
                  exact StepOut_id g st1 hstep0.2.1
              obtain ⟨gateT, hts, hstepF⟩ :=
                yrmaFolderFinish_StepOut g req _ crCre cfCre crIds cfIds
                  childMods st2 ys2 st' hwf h hstep1.2.1
              rw [hts]
              have hcomp := StepOut_comp g st st2 st' _ gateT
                (StepOut_comp g st st1 st2 [] childMods hstep0 hstep1)
                hstepF
              have hsw := StepOut_swap g st st' _ gateT hcomp
              simpa using hsw
          · simp only [St.alloc] at h
            cases h
            have hall := StepOut_alloc_yield g st1
              (yrmaBase req ln tx ty attrs creations modifications)
              hstep0.2.1
            have hcomp := StepOut_comp g st st1 _ [] _ hstep0 hall
            simpa using hcomp
      · simp only [if_neg hpc] at h
        split at h
        · cases hyc : (if hc = true then
              yrmaChildren g snap req ([], [], [], [], []) ch st
              else .ok ([], [], [], [], [], st)) with
          | error e => simp [hyc] at h
          | ok out =>
            obtain ⟨crCre, cfCre, crIds, cfIds, childMods, st2⟩ := out
            simp only [hyc] at h
            have hstep1 : StepOut g st st2 childMods := by
              split at hyc
              · obtain ⟨newYs, hys, hstepC⟩ :=
                  yrmaChildren_StepOut g snap hwf req ch
                    ([], [], [], [], []) st _ _ _ _ _ _ hyc hs
                rw [hys]
                simpa using hstepC
              · cases hyc
                exact StepOut_id g st hs
            obtain ⟨gateT, hts, hstepF⟩ :=
              yrmaFolderFinish_StepOut g req _ crCre cfCre crIds cfIds
                childMods st2 ys2 st' hwf h hstep1.2.1
            rw [hts]
            have hcomp := StepOut_comp g st st2 st' _ gateT hstep1 hstepF
            exact StepOut_swap g st st' _ gateT hcomp
        · simp only [St.alloc] at h
          cases h
          exact StepOut_alloc_yield g st _ hs

theorem yrmaChildren_StepOut (g : LiveModule) (snap : Snapshot)
    (hwf : (g.items.map LiveItem.uuid).Nodup) :
    ∀ (req : LiveItem) (ch : SnapForest)
      (acc : List AVal × List AVal × List String × List String × List Nat)
      (st : St) (crCre cfCre : List AVal) (crIds cfIds : List String)
      (mods : List Nat) (st' : St),
      yrmaChildren g snap req acc ch st =
        .ok (crCre, cfCre, crIds, cfIds, mods, st') →
      SInv g st →
      ∃ newYs, mods = acc.2.2.2.2 ++ newYs ∧ StepOut g st st' newYs
  | req, .fnil, acc, st, crCre, cfCre, crIds, cfIds, mods, st', h, hs => by
    simp only [yrmaChildren] at h
    cases h
    exact ⟨[], by simp, StepOut_id g st hs⟩
  | req, .fcons child rest, (a1, a2, a3, a4, a5), st, crCre, cfCre, crIds,
      cfIds, mods, st', h, hs => by
    simp only [yrmaChildren] at h
    cases hfind : workItemByIdentifier g child.id with
    | none =>
      simp only [hfind] at h
      cases hrca : requirementsCreateActions g snap child st with
      | error e => simp [hrca] at h
      | ok q =>
        obtain ⟨payload, ysA, st2⟩ := q
        simp only [hrca] at h
        have hstepA : StepOut g st st2 ysA :=
          rca_StepOut g snap hwf child st payload ysA st2 hrca hs
        obtain ⟨newYs, hys, hstepB⟩ :=
          yrmaChildren_StepOut g snap hwf req rest _ st2 crCre cfCre
            crIds cfIds mods st' h hstepA.2.1
        refine ⟨ysA ++ newYs, ?_,
          StepOut_comp g st st2 st' ysA newYs hstepA hstepB⟩
        rw [hys]
        simp
    | some creq =>
      simp only [hfind] at h
      have hcreq : creq ∈ g.items := List.mem_of_find?_eq_some hfind
      cases hmod : yieldRequirementsModActions g snap creq child req.uuid
          st with
      | error e => simp [hmod] at h
      | ok q =>
        obtain ⟨ysA, st2⟩ := q
        simp only [hmod] at h
        have hstepA : StepOut g st st2 ysA :=
          yrma_StepOut g snap hwf creq child req.uuid st ysA st2 hmod
            hcreq hs
        obtain ⟨newYs, hys, hstepB⟩ :=
          yrmaChildren_StepOut g snap hwf req rest _ st2 crCre cfCre
            crIds cfIds mods st' h hstepA.2.1
        refine ⟨ysA ++ newYs, ?_,
          StepOut_comp g st st2 st' ysA newYs hstepA hstepB⟩
        rw [hys]
        simp
end

theorem calcLoop_StepOut (g : LiveModule) (snap : Snapshot)
    (hwf : (g.items.map LiveItem.uuid).Nodup) :
    ∀ (forest : SnapForest) (base : AMap) (visited : List String)
      (ys0 : List Nat) (st : St) (base' : AMap) (visited' : List String)
      (ys : List Nat) (st' : St),
      calcLoop g snap base visited ys0 forest st =
        .ok (base', visited', ys, st') →
      SInv g st →
      ∃ newYs, ys = ys0 ++ newYs ∧ StepOut g st st' newYs
  | .fnil, base, visited, ys0, st, base', visited', ys, st', h, hs => by
    simp only [calcLoop] at h
    cases h
    exact ⟨[], by simp, StepOut_id g st hs⟩
  | .fcons item rest, base, visited, ys0, st, base', visited', ys, st',
      h, hs => by
    simp only [calcLoop] at h
    cases hfind : workItemByIdentifier g item.id with
    | none =>
      simp only [hfind] at h
      cases hrca : requirementsCreateActions g snap item st with
      | error e => simp [hrca] at h
      | ok q =>
        obtain ⟨payload, mods, st2⟩ := q
        simp only [hrca] at h
        cases haas : addActionSafely base "extend"
            (if item.hasChildren = true then "folders" else "requirements")
            (.map payload) with
        | none => simp [haas] at h
        | some base2 =>
          simp only [haas] at h
          have hstepA : StepOut g st st2 mods :=
            rca_StepOut g snap hwf item st payload mods st2 hrca hs
          obtain ⟨newYs, hys, hstepB⟩ :=
            calcLoop_StepOut g snap hwf rest base2 visited (ys0 ++ mods)
              st2 base' visited' ys st' h hstepA.2.1
          exact ⟨mods ++ newYs, by simp [hys],
            StepOut_comp g st st2 st' mods newYs hstepA hstepB⟩
    | some req =>
      simp only [hfind] at h
      have hreq : req ∈ g.items := List.mem_of_find?_eq_some hfind
      by_cases hpc : req.parentUuid ≠ g.uuid
      · simp only [if_pos hpc] at h
        cases haas : addActionSafely base "extend"
            (if item.hasChildren = true then "folders" else "requirements")
            (.ref (.uuid req.uuid)) with
        | none => simp [haas] at h
        | some base2 =>
          simp only [haas] at h
          cases hinv : invalidateDeletion (st.addLoc req.identifier)
              req.uuid req.isFolder with
          | error e => simp [hinv] at h
          | ok st2 =>
            simp only [hinv] at h
            have hstep0 : StepOut g st st2 [] := by
              have h1 := StepOut_addLoc g st req.identifier hs
              have h2 := StepOut_invalidate g (st.addLoc req.identifier)
                req.uuid req.isFolder st2 hinv
                ⟨req, hreq, rfl, addLoc_locMem st req.identifier⟩ h1.2.1
              simpa using StepOut_comp g st _ st2 [] [] h1 h2
            cases hym : yieldRequirementsModActions g snap req item g.uuid
                st2 with
            | error e => simp [hym] at h
            | ok q =>
              obtain ⟨mods, st3⟩ := q
              simp only [hym] at h
              have hstepA : StepOut g st2 st3 mods :=
                yrma_StepOut g snap hwf req item g.uuid st2 mods st3 hym
                  hreq hstep0.2.1
              obtain ⟨newYs, hys, hstepB⟩ :=
                calcLoop_StepOut g snap hwf rest base2
                  (visited ++ [req.identifier]) (ys0 ++ mods) st3 base'
                  visited' ys st' h hstepA.2.1
              refine ⟨mods ++ newYs, by simp [hys], ?_⟩
              have := StepOut_comp g st st3 st' _ newYs
                (StepOut_comp g st st2 st3 [] mods hstep0 hstepA) hstepB
              simpa using this
      · simp only [if_neg hpc] at h
        cases hym : yieldRequirementsModActions g snap req item g.uuid
            st with
        | error e => simp [hym] at h
        | ok q =>
          obtain ⟨mods, st3⟩ := q
          simp only [hym] at h
          have hstepA : StepOut g st st3 mods :=
            yrma_StepOut g snap hwf req item g.uuid st mods st3 hym
              hreq hs
          obtain ⟨newYs, hys, hstepB⟩ :=
            calcLoop_StepOut g snap hwf rest base
              (visited ++ [req.identifier]) (ys0 ++ mods) st3 base'
              visited' ys st' h hstepA.2.1
          exact ⟨mods ++ newYs, by simp [hys],
            StepOut_comp g st st3 st' mods newYs hstepA hstepB⟩

theorem removeFirstEq_count : ∀ (acts acts2 : List AMap) (x : AMap),
    removeFirstEq acts x = some acts2 →
    acts2.count x + 1 = acts.count x ∧
    ∀ y, y ≠ x → acts2.count y = acts.count y
  | [], acts2, x, h => by simp [removeFirstEq] at h
  | a :: acts, acts2, x, h => by
    simp only [removeFirstEq] at h
    split at h
    next heq =>
      have hax : a = x := eq_of_beq heq
      cases h
      subst hax
      constructor
      · simp [List.count_cons]
      · intro y hy
        simp [List.count_cons, beq_iff_eq, Ne.symm hy]
    next hne =>
      cases hrf : removeFirstEq acts x with
      | none =>
        rw [hrf] at h
        exact Option.noConfusion h
      | some acts3 =>
        rw [hrf] at h
        cases h
        obtain ⟨h1, h2⟩ := removeFirstEq_count acts acts3 x hrf
        have haxp : ¬(a = x) := fun he => hne (by simp [he])
        constructor
        · simp only [List.count_cons, beq_iff_eq, if_neg haxp]
          omega
        · intro y hy
          simp only [List.count_cons, beq_iff_eq, h2 y hy]

theorem removalPass_void_free (st : St) :
    ∀ (L : List (String × Nat)) (acts res : List AMap),
      removalPass st acts L = .ok res →
      (∀ a : AMap, keysOnlyParent a = true →
        acts.count a ≤
          (L.filter (fun p => st.resolve p.2 == a)).length) →
      ∀ a ∈ res, keysOnlyParent a = false
  | [], acts, res, h, hcnt, a, ha => by
    simp only [removalPass] at h
    cases h
    cases hk : keysOnlyParent a with
    | false => rfl
    | true =>
      exfalso
      have h1 := hcnt a hk
      simp only [List.filter_nil, List.length_nil, Nat.le_zero] at h1
      exact (List.count_eq_zero.mp h1) ha
  | (u, t) :: L, acts, res, h, hcnt, a, ha => by
    simp only [removalPass] at h
    split at h
    next hv =>
      cases hrf : removeFirstEq acts (st.resolve t) with
      | none =>
        rw [hrf] at h
        exact Except.noConfusion h
      | some acts2 =>
        rw [hrf] at h
        refine removalPass_void_free st L acts2 res h ?_ a ha
        intro b hb
        obtain ⟨h1, h2⟩ := removeFirstEq_count acts acts2 (st.resolve t)
          hrf
        have hcnt2 := hcnt b hb
        by_cases hbe : b = st.resolve t
        · subst hbe
          rw [List.filter_cons_of_pos (by simp)] at hcnt2
          simp only [List.length_cons] at hcnt2
          omega
        · have h3 := h2 b hbe
          rw [List.filter_cons_of_neg (by
            simp only [beq_iff_eq]
            intro he
            exact hbe he.symm)] at hcnt2
          omega
    next hv =>
      refine removalPass_void_free st L acts res h ?_ a ha
      intro b hb
      have hcnt2 := hcnt b hb
      rw [List.filter_cons_of_neg (by
        simp only [beq_iff_eq]
        intro he
        rw [← he] at hb
        exact hv hb)] at hcnt2
      exact hcnt2

theorem nodup_subset_length : ∀ (S T : List Nat), S.Nodup →
    (∀ t ∈ S, t ∈ T) → S.length ≤ T.length
  | [], T, _, _ => Nat.zero_le _
  | s :: S, T, hnd, hsub => by
    obtain ⟨hns, hndS⟩ := List.nodup_cons.mp hnd
    have hsT : s ∈ T := hsub s (by simp)
    have hrest : ∀ t ∈ S, t ∈ T.erase s := by
      intro t ht
      refine (List.mem_erase_of_ne ?_).mpr (hsub t (by simp [ht]))
      intro he
      exact hns (he ▸ ht)
    have hIH := nodup_subset_length S (T.erase s) hndS hrest
    have hlen : (T.erase s).length = T.length - 1 :=
      List.length_erase_of_mem hsT
    have hpos : 0 < T.length := List.length_pos_of_mem hsT
    simp only [List.length_cons]
    omega

theorem count_map_filter_length (st : St) (a : AMap) : ∀ (ys : List Nat),
    (ys.map st.resolve).count a =
      (ys.filter (fun t => st.resolve t == a)).length
  | [] => rfl
  | t :: ys => by
    by_cases hax : st.resolve t = a
    · simp [List.count_cons, List.filter_cons, beq_iff_eq, hax,
        count_map_filter_length st a ys]
    · simp [List.count_cons, List.filter_cons, beq_iff_eq, hax,
        Ne.symm hax, count_map_filter_length st a ys]

theorem acts_count_bound (st : St) (ys : List Nat)
    (hnd : ys.Nodup)
    (hcov : ∀ t ∈ ys, keysOnlyParent (st.resolve t) = true →
      ∃ u, (u, t) ∈ st.ledger)
    (a : AMap) (ha : keysOnlyParent a = true) :
    (ys.map st.resolve).count a ≤
      (st.ledger.filter (fun p => st.resolve p.2 == a)).length := by
  rw [count_map_filter_length]
  have hsub : ∀ t ∈ ys.filter (fun t => st.resolve t == a),
      t ∈ (st.ledger.filter (fun p => st.resolve p.2 == a)).map
        Prod.snd := by
    intro t ht
    obtain ⟨hty, htp⟩ := List.mem_filter.mp ht
    have hra : st.resolve t = a := eq_of_beq htp
    obtain ⟨u, hu⟩ := hcov t hty (by rw [hra]; exact ha)
    refine List.mem_map.mpr ⟨(u, t), ?_, rfl⟩
    exact List.mem_filter.mpr ⟨hu, by simp [hra]⟩
  have h1 := nodup_subset_length _ _ (hnd.filter _) hsub
  simpa using h1

theorem getD_mem : ∀ (l : List AMap) (t : Nat), t < l.length →
    l.getD t AMap.nil ∈ l
  | [], t, h => absurd h (by simp)
  | a :: l, 0, _ => by simp
  | a :: l, t + 1, h =>
    List.mem_cons_of_mem a
      (getD_mem l t (by simpa using Nat.lt_of_succ_lt_succ h))

theorem calcFinish_void_free (g : LiveModule) (base : AMap)
    (visited : List String) (ys : List Nat) (st : St) (acts : List AMap)
    (h : calcFinish g base visited ys st = .ok acts)
    (hnd : ys.Nodup) (hY : YInv0 st ys) :
    ∀ a ∈ acts, keysOnlyParent a = false := by
  simp only [calcFinish] at h
  cases hrp : removalPass st (ys.map st.resolve) st.ledger with
  | error e => simp [hrp] at h
  | ok resolved =>
    simp only [hrp] at h
    have hres : ∀ a ∈ resolved, keysOnlyParent a = false :=
      removalPass_void_free st st.ledger (ys.map st.resolve) resolved hrp
        (fun a ha => acts_count_bound st ys hnd hY.2 a ha)
    cases hd1 : deepUpdate base (reqDeleteActions g visited
        "requirements") with
    | none => simp [hd1] at h
    | some b1 =>
      simp only [hd1] at h
      cases hd2 : deepUpdate b1 (reqDeleteActions g visited
          "folders") with
      | none => simp [hd2] at h
      | some b2 =>
        simp only [hd2] at h
        cases h
        intro a ha
        rcases List.mem_append.mp ha with h1 | h2
        · exact hres a h1
        · rcases mem_ite_list _ _ _ _ h2 with ⟨hb, h2⟩ | ⟨_, h2⟩
          · rcases List.mem_singleton.mp h2 with rfl
            simpa using hb
          · simp at h2

/-- **C5.**  On a live graph whose items carry pairwise-distinct uuids,
every action in the final list of a successful `calculate_change` run
has some key besides `parent`: void actions are filtered at every yield
site by the `extend`/`modify`/`delete` gate, the queued deletion actions
that are voided by `_invalidate_deletion` retractions stay covered by a
deletion-ledger entry, and the final removal scan deletes exactly
those. -/
theorem c5_final_actions_never_void (g : LiveModule) (snap : Snapshot)
    (acts : List AMap)
    (hwf : (g.items.map LiveItem.uuid).Nodup)
    (h : calculateChange g snap = .ok acts) :
    ∀ a ∈ acts, keysOnlyParent a = false := by
  cases htf : g.reqtFolder with
  | none =>
    simp only [calculateChange, htf] at h
    cases hcl : calcLoop g snap (requirementTypesFolderCreateAction g snap)
        [] [] snap.items ⟨[], [], []⟩ with
    | error e => simp [hcl] at h
    | ok q =>
      obtain ⟨base, visited, ys, st'⟩ := q
      simp only [hcl] at h
      have hs0 : SInv g (⟨[], [], []⟩ : St) := by
        intro p hp
        simp at hp
      obtain ⟨newYs, hys, hstep⟩ :=
        calcLoop_StepOut g snap hwf snap.items _ _ _ _ _ _ _ _ hcl hs0
      refine calcFinish_void_free g base visited ys st' acts h ?_ ?_
      · rw [hys]
        exact hstep.2.2.1
      · rw [hys]
        exact hstep.2.2.2.2.2
  | some tf =>
    simp only [calculateChange, htf, allocMany_spec, List.length_nil,
      List.nil_append] at h
    cases hcl : calcLoop g snap
        (AMap.cons "parent" (AVal.ref (Ref.uuid g.uuid)) AMap.nil) []
        (List.range' 0 (typeSystemActions g snap tf).length) snap.items
        ⟨typeSystemActions g snap tf, [], []⟩ with
    | error e => simp [hcl] at h
    | ok q =>
      obtain ⟨base, visited, ys, st'⟩ := q
      simp only [hcl] at h
      have hs0 : SInv g (⟨typeSystemActions g snap tf, [], []⟩ : St) := by
        intro p hp
        simp at hp
      obtain ⟨newYs, hys, hstep⟩ :=
        calcLoop_StepOut g snap hwf snap.items _ _ _ _ _ _ _ _ hcl hs0
      have hts0 : YInv0 (⟨typeSystemActions g snap tf, [], []⟩ : St)
          (List.range' 0 (typeSystemActions g snap tf).length) := by
        constructor
        · intro t ht
          exact (by simpa using (List.mem_range'_1.mp ht).2 :
            t < (typeSystemActions g snap tf).length)
        · intro t ht hv
          exfalso
          have htlt : t < (typeSystemActions g snap tf).length := by
            simpa using (List.mem_range'_1.mp ht).2
          have hmem : (⟨typeSystemActions g snap tf, [], []⟩ : St).resolve t
              ∈ typeSystemActions g snap tf := getD_mem _ t htlt
          rw [kop_typeSystemActions g snap tf _ hmem] at hv
          exact Bool.noConfusion hv
      have hYts : YInv0 st'
          (List.range' 0 (typeSystemActions g snap tf).length) :=
        hstep.2.2.2.2.1 _ hts0
      refine calcFinish_void_free g base visited ys st' acts h ?_ ?_
      · rw [hys]
        refine List.Nodup.append ?_ hstep.2.2.1 ?_
        · exact List.nodup_range' _ _
        · intro t h1 h2
          have hlt : t < (typeSystemActions g snap tf).length := by
            simpa using (List.mem_range'_1.mp h1).2
          have hge : (typeSystemActions g snap tf).length ≤ t :=
            hstep.2.2.2.1 t h2
          omega
      · rw [hys]
        constructor
        · intro t ht
          rcases List.mem_append.mp ht with h1 | h2
          · exact hYts.1 t h1
          · exact hstep.2.2.2.2.2.1 t h2
        · intro t ht hv
          rcases List.mem_append.mp ht with h1 | h2
          · exact hYts.2 t h1 hv
          · exact hstep.2.2.2.2.2.2 t h2 hv

/-- Witness for C5: on the concrete empty-module run the theorem shows
the single emitted action is not parent-only. -/
theorem c5_final_actions_never_void_witness :
    (c5g.items.map LiveItem.uuid).Nodup ∧
    calculateChange c5g c5snap = .ok [c5act] ∧
    keysOnlyParent c5act = false :=
  ⟨by decide, by rfl,
    c5_final_actions_never_void c5g c5snap [c5act] (by decide) (by rfl)
      c5act (by simp)⟩

end RmBridge
